import Mathlib

/-!
Verification development for the osumapdl download scheduler
(`download.py`, `common.py`, `osu.py`, `bloodcat.py`, `messages.py`).

The Python code is shallowly embedded as follows:

* Item IDs are `String`s (Python `str`).
* A Python `set` of IDs is a `Finset String`.  Python's `set.pop()` removes
  an arbitrary element; the embedding determinizes it by always removing the
  least element (`Finset.min'`).  None of the verified properties depend on
  the particular pop order.
* The orchestrator of `download.py:download` is embedded as a transition
  system: a state record (`OState`) and a step function (`step`) that
  processes one message from the shared results queue exactly as the body of
  the `while done < total` loop does.  The per-service single-slot inboxes
  together with the item currently held by the corresponding worker process
  are modelled as a list `*_inflight` of IDs that have been sent to that
  service and whose outcome has not yet been consumed; queue `put`s append
  to it and the consumption of the matching outcome removes the ID.  A ghost
  field `sends` logs every `put` to a worker inbox (service, ID, and whether
  the put was the direct-retry resubmission in the consecutive-error branch);
  it has no influence on the behaviour of `step`.
* Printing, file I/O and the JSON layer of the resume format are abstracted:
  a resume snapshot is the structured record that `json.dump` serializes /
  `json.load` parses, and network calls are oracles passed in as functions.
-/

set_option maxHeartbeats 1000000

namespace Osumapdl

/-! ## Exceptions and messages

`download.py` classifies worker failures by `isinstance` checks against the
exception classes of the `osu` and `bloodcat` modules.  `PyMod` records which
module an exception class belongs to; `Exc` is the sum of the exception
classes that the orchestrator's `elif` chain distinguishes (`MapsetUnavailable`
per module, `osu.QuotaExceeded`, and everything else: `ConnectionError`,
`DownloadError`, `SearchError`, ... which all fall into the final
per-service branches). -/

inductive PyMod where
  | osu
  | bloodcat
deriving DecidableEq, Repr

inductive Exc where
  | mapsetUnavailable (m : PyMod)
  | quotaExceeded
  | otherError
deriving DecidableEq, Repr

/-- Tag of a producer of a results-queue message: the two workers plus the
cooldown timer (`cooldown` puts `('timer', '', None)`). -/
inductive WTag where
  | osu
  | bloodcat
  | timer
deriving DecidableEq, Repr

/-- One message on the shared results queue: the tuple
`(worker, set_id, error)` of `download.py`. -/
structure Msg where
  worker : WTag
  set_id : String
  error : Option Exc
deriving DecidableEq, Repr

/-- The two download services, used in the ghost send log. -/
inductive Svc where
  | osu
  | bloodcat
deriving DecidableEq, Repr

/-! ## The work partition: class `DownloadList` -/

/-- Embedding of class `DownloadList` of `download.py` (lines 69-102):
three sets of mapset IDs plus the `resumed` flag. -/
structure DownloadList where
  osu_and_bloodcat : Finset String
  osu_only : Finset String
  bloodcat_only : Finset String
  resumed : Bool
deriving DecidableEq

/-- Deterministic embedding of Python's `set.pop()`: remove and return the
least element, or `none` on an empty set. -/
def spop (s : Finset String) : Option (String × Finset String) :=
  if h : s.Nonempty then some (s.min' h, s.erase (s.min' h)) else none

/-- Embedding of `DownloadList.next_for_osu`: pop from `osu_only` if
nonempty, else from `osu_and_bloodcat`, else return `None`.  The second
component is the updated list (the Python method mutates in place). -/
def DownloadList.next_for_osu (dl : DownloadList) : Option String × DownloadList :=
  match spop dl.osu_only with
  | some (x, r) => (some x, { dl with osu_only := r })
  | none =>
    match spop dl.osu_and_bloodcat with
    | some (x, r) => (some x, { dl with osu_and_bloodcat := r })
    | none => (none, dl)

/-- Embedding of `DownloadList.next_for_bloodcat`. -/
def DownloadList.next_for_bloodcat (dl : DownloadList) : Option String × DownloadList :=
  match spop dl.bloodcat_only with
  | some (x, r) => (some x, { dl with bloodcat_only := r })
  | none =>
    match spop dl.osu_and_bloodcat with
    | some (x, r) => (some x, { dl with osu_and_bloodcat := r })
    | none => (none, dl)

/-- Embedding of `DownloadList.__len__`. -/
def DownloadList.size (dl : DownloadList) : Nat :=
  dl.osu_and_bloodcat.card + dl.osu_only.card + dl.bloodcat_only.card

/-- Embedding of `DownloadList.__isub__` (also the body of
`remove_already_downloaded`): set-difference on all three sets. -/
def DownloadList.isub (dl : DownloadList) (other : Finset String) : DownloadList :=
  { dl with
    osu_and_bloodcat := dl.osu_and_bloodcat \ other
    osu_only := dl.osu_only \ other
    bloodcat_only := dl.bloodcat_only \ other }

/-- The documented invariant of the work partition: the three sets are
pairwise disjoint. -/
def DownloadList.PairwiseDisjoint (dl : DownloadList) : Prop :=
  (∀ x ∈ dl.osu_and_bloodcat, x ∉ dl.osu_only ∧ x ∉ dl.bloodcat_only) ∧
  ∀ x ∈ dl.osu_only, x ∉ dl.bloodcat_only

instance (dl : DownloadList) : Decidable dl.PairwiseDisjoint := by
  unfold DownloadList.PairwiseDisjoint
  infer_instance

/-! ## The orchestrator of `download.py:download` -/

/-- The fields of `Args` that the scheduling logic reads (`download.py`
lines 57-66; credentials, paths and the video flag do not influence the
scheduler).  `max_errors_in_a_row` defaults to 5 (`--max-errors`). -/
structure DArgs where
  use_osu : Bool
  use_bloodcat : Bool
  max_errors_in_a_row : Nat
deriving DecidableEq, Repr

/-- Delay, in seconds, of the quota cooldown timer spawned in the
`osu.QuotaExceeded` branch: `Process(target=cooldown, args=(60*5, ...))`. -/
def osu_cooldown_secs : Nat := 60 * 5

/-- State of the orchestrator loop of `download` (lines 261-393), together
with the in-flight model of the two single-slot worker inboxes.

`osu_inflight` / `bloodcat_inflight` hold the IDs that have been `put` on
the corresponding service's queue and whose outcome message has not been
consumed yet.  `cooldown_active` records that a cooldown timer process has
been spawned and its synthetic `('timer', '', None)` message has not been
consumed yet.  `sends` is a ghost log of every `put` of an ID to a worker
inbox: `(service, id, retry)` with `retry = true` exactly for the direct
resubmission in the consecutive-error branches. -/
structure OState where
  dl : DownloadList
  osu_busy : Bool
  bloodcat_busy : Bool
  osu_errors_in_a_row : Nat
  bloodcat_errors_in_a_row : Nat
  missing_on_osu : Finset String
  missing_on_bloodcat : Finset String
  total : Int
  done : Int
  osu_inflight : List String
  bloodcat_inflight : List String
  cooldown_active : Bool
  sends : List (Svc × String × Bool)
deriving DecidableEq

/-- First half of the nested function `fill_queues` (lines 280-284): if osu
is enabled and not busy, pop one ID via `next_for_osu`; if an ID was
obtained, set `osu_busy` and put the ID on the osu queue. -/
def fill_osu (args : DArgs) (s : OState) : OState :=
  if args.use_osu && !s.osu_busy then
    match s.dl.next_for_osu with
    | (some x, dl') =>
      { s with dl := dl', osu_busy := true,
               osu_inflight := s.osu_inflight ++ [x],
               sends := s.sends ++ [(Svc.osu, x, false)] }
    | (none, _) => s
  else s

/-- Second half of `fill_queues` (lines 285-289), for bloodcat. -/
def fill_bloodcat (args : DArgs) (s : OState) : OState :=
  if args.use_bloodcat && !s.bloodcat_busy then
    match s.dl.next_for_bloodcat with
    | (some x, dl') =>
      { s with dl := dl', bloodcat_busy := true,
               bloodcat_inflight := s.bloodcat_inflight ++ [x],
               sends := s.sends ++ [(Svc.bloodcat, x, false)] }
    | (none, _) => s
  else s

/-- Embedding of the nested function `fill_queues` (lines 278-289): the osu
half followed by the bloodcat half (the second runs on the state already
updated by the first, as in the Python statement sequence). -/
def fill_queues (args : DArgs) (s : OState) : OState :=
  fill_bloodcat args (fill_osu args s)

/-- A message is producible in a given state: a worker message must carry
the single ID currently in flight at that worker, and a timer message
(`('timer', '', None)`, produced by `cooldown`) requires a pending cooldown
timer. -/
def validMsg (s : OState) (m : Msg) : Bool :=
  match m.worker with
  | WTag.timer => s.cooldown_active && m.set_id == "" && m.error == none
  | WTag.osu => s.osu_inflight == [m.set_id]
  | WTag.bloodcat => s.bloodcat_inflight == [m.set_id]

/-- Result of one iteration of the orchestrator loop body: either the loop
continues with an updated state, or `download` returns 1 (the consecutive
error ceiling branch, which prints the error, runs `cleanup()` and
`return 1`). -/
inductive StepOut where
  | cont (s : OState)
  | abortRun
deriving DecidableEq

/-- Embedding of the body of the `while done < total` loop of `download`
(lines 315-382), branch for branch:

1. `error is None`, `worker == 'timer'`: clear `osu_busy`, `fill_queues`.
2. `error is None` otherwise: `done += 1`, clear the worker's busy flag and
   error counter, `fill_queues`.
3. `worker == 'osu' and isinstance(error, osu.MapsetUnavailable)`: record in
   `missing_on_osu`; if bloodcat is disabled or the ID is already missing on
   bloodcat, `total -= 1`, else add the ID to `bloodcat_only`; clear
   `osu_busy`; `fill_queues`.
4. symmetric branch for `bloodcat.MapsetUnavailable`.
5. `worker == 'osu' and isinstance(error, osu.QuotaExceeded)`: requeue the ID
   into `osu_and_bloodcat` if bloodcat could still take it (enabled and the
   ID not in `missing_on_bloodcat`), else into `osu_only`; spawn the cooldown
   timer; no busy-flag change, no `fill_queues`.
6. any other error from `osu`: if `osu_errors_in_a_row` is below the ceiling,
   increment it and put the same ID back on the osu queue (no `fill_queues`,
   no busy change); otherwise `cleanup()` and `return 1`.
7. symmetric branch for `bloodcat`.

Consuming a worker message removes its ID from that service's in-flight
list (the worker `get` it from its inbox before producing the outcome). -/
def step (args : DArgs) (s : OState) (m : Msg) : StepOut :=
  match m.error with
  | none =>
    if m.worker = WTag.timer then
      StepOut.cont (fill_queues args
        { s with osu_busy := false, cooldown_active := false })
    else
      let s := { s with done := s.done + 1 }
      let s :=
        if m.worker = WTag.osu then
          { s with osu_busy := false, osu_errors_in_a_row := 0,
                   osu_inflight := s.osu_inflight.erase m.set_id }
        else
          { s with bloodcat_busy := false, bloodcat_errors_in_a_row := 0,
                   bloodcat_inflight := s.bloodcat_inflight.erase m.set_id }
      StepOut.cont (fill_queues args s)
  | some e =>
    if m.worker = WTag.osu ∧ e = Exc.mapsetUnavailable PyMod.osu then
      let s := { s with
        missing_on_osu := insert m.set_id s.missing_on_osu,
        osu_inflight := s.osu_inflight.erase m.set_id }
      let s :=
        if !args.use_bloodcat || m.set_id ∈ s.missing_on_bloodcat then
          { s with total := s.total - 1 }
        else
          { s with dl := { s.dl with
              bloodcat_only := insert m.set_id s.dl.bloodcat_only } }
      StepOut.cont (fill_queues args { s with osu_busy := false })
    else if m.worker = WTag.bloodcat ∧ e = Exc.mapsetUnavailable PyMod.bloodcat then
      let s := { s with
        missing_on_bloodcat := insert m.set_id s.missing_on_bloodcat,
        bloodcat_inflight := s.bloodcat_inflight.erase m.set_id }
      let s :=
        if !args.use_osu || m.set_id ∈ s.missing_on_osu then
          { s with total := s.total - 1 }
        else
          { s with dl := { s.dl with
              osu_only := insert m.set_id s.dl.osu_only } }
      StepOut.cont (fill_queues args { s with bloodcat_busy := false })
    else if m.worker = WTag.osu ∧ e = Exc.quotaExceeded then
      let s := { s with osu_inflight := s.osu_inflight.erase m.set_id }
      let s :=
        if args.use_bloodcat && m.set_id ∉ s.missing_on_bloodcat then
          { s with dl := { s.dl with
              osu_and_bloodcat := insert m.set_id s.dl.osu_and_bloodcat } }
        else
          { s with dl := { s.dl with
              osu_only := insert m.set_id s.dl.osu_only } }
      StepOut.cont { s with cooldown_active := true }
    else if m.worker = WTag.osu then
      if s.osu_errors_in_a_row < args.max_errors_in_a_row then
        StepOut.cont { s with
          osu_errors_in_a_row := s.osu_errors_in_a_row + 1,
          osu_inflight := s.osu_inflight.erase m.set_id ++ [m.set_id],
          sends := s.sends ++ [(Svc.osu, m.set_id, true)] }
      else
        StepOut.abortRun
    else if m.worker = WTag.bloodcat then
      if s.bloodcat_errors_in_a_row < args.max_errors_in_a_row then
        StepOut.cont { s with
          bloodcat_errors_in_a_row := s.bloodcat_errors_in_a_row + 1,
          bloodcat_inflight := s.bloodcat_inflight.erase m.set_id ++ [m.set_id],
          sends := s.sends ++ [(Svc.bloodcat, m.set_id, true)] }
      else
        StepOut.abortRun
    else
      StepOut.cont s

/-- The state of `download` right after the setup of lines 270-311: flags
clear, counters zero, `missing_on_osu = dl.bloodcat_only.copy()`,
`missing_on_bloodcat = dl.osu_only.copy()`, `total = len(dl_list)`, then the
initial `fill_queues()` call. -/
def initOState (args : DArgs) (dl : DownloadList) : OState :=
  fill_queues args
    { dl := dl, osu_busy := false, bloodcat_busy := false,
      osu_errors_in_a_row := 0, bloodcat_errors_in_a_row := 0,
      missing_on_osu := dl.bloodcat_only, missing_on_bloodcat := dl.osu_only,
      total := (dl.size : Int), done := 0,
      osu_inflight := [], bloodcat_inflight := [],
      cooldown_active := false, sends := [] }

/-- `StepsTo args s msgs t`: starting in state `s`, the orchestrator loop
consumes exactly the messages `msgs` (each producible in the state in which
it is consumed, each while `done < total` holds) and is in state `t`
afterwards, without aborting. -/
inductive StepsTo (args : DArgs) : OState → List Msg → OState → Prop where
  | nil (s : OState) : StepsTo args s [] s
  | cons {s s' t : OState} {m : Msg} {msgs : List Msg}
      (hlt : s.done < s.total) (hv : validMsg s m = true)
      (hs : step args s m = StepOut.cont s')
      (htail : StepsTo args s' msgs t) : StepsTo args s (m :: msgs) t

/-- A state is reachable from another by consuming some producible message
sequence. -/
def Reach (args : DArgs) (s t : OState) : Prop :=
  ∃ msgs, StepsTo args s msgs t

/-- Result of running the loop on a (finite prefix of a) message sequence:
the loop terminates normally once `done ≥ total` (after which `download`
runs `cleanup()` and returns 0), aborts with exit code 1, runs out of
supplied messages while still waiting, or meets a message that no worker or
timer could have produced in that state (impossible in a real run). -/
inductive RunOut where
  | finished (s : OState)
  | aborted
  | pending (s : OState)
  | badMsg (s : OState)
deriving DecidableEq

/-- Run the orchestrator loop on a list of incoming messages. -/
def run (args : DArgs) (s : OState) : List Msg → RunOut
  | [] => if s.done < s.total then RunOut.pending s else RunOut.finished s
  | m :: rest =>
    if s.done < s.total then
      if validMsg s m then
        match step args s m with
        | StepOut.cont s' => run args s' rest
        | StepOut.abortRun => RunOut.aborted
      else RunOut.badMsg s
    else RunOut.finished s

/-! ## Availability pre-check and resume store -/

/-- The exceptions of `bloodcat.check_availability` that
`update_bloodcat_availability` catches and converts into a `FriendlyError`
(aborting the run): `bloodcat.ConnectionError` and `bloodcat.SearchError`. -/
inductive BcErr where
  | connectionError
  | searchError
deriving DecidableEq, Repr

/-- Embedding of `update_bloodcat_availability` (lines 228-243).  The
network call `bloodcat_dl.check_availability(set_id)` is the oracle `avail`:
`Except.ok b` models a returned boolean, `Except.error e` models a raised
`ConnectionError`/`SearchError`.  The function returns early if the list was
resumed; otherwise it iterates over `osu_and_bloodcat` (here in sorted
order; the Python iteration order over the set is arbitrary and the result
does not depend on it), adds every unavailable ID to `osu_only`,
re-raises the first `ConnectionError`/`SearchError` as the aborting
`FriendlyError`, and finally removes `osu_only` from `osu_and_bloodcat`. -/
def update_bloodcat_availability (dl : DownloadList)
    (avail : String → Except BcErr Bool) : Except BcErr DownloadList :=
  if dl.resumed then Except.ok dl
  else do
    let osuOnly ← (dl.osu_and_bloodcat.sort (· ≤ ·)).foldlM
      (fun acc set_id => do
        let available ← avail set_id
        pure (if available then acc else insert set_id acc))
      dl.osu_only
    Except.ok { dl with
      osu_only := osuOnly,
      osu_and_bloodcat := dl.osu_and_bloodcat \ osuOnly }

/-- The structured record that `write_resume_file` passes to `json.dump` and
`read_resume_file` recovers via `json.load`: three ID lists keyed
`set_ids`, `osu_exc`, `bloodcat_exc`. -/
structure ResumeSnapshot where
  set_ids : List String
  osu_exc : List String
  bloodcat_exc : List String
deriving DecidableEq, Repr

/-- Python `str.lower()` (ASCII range, enough for the `.resume` check). -/
def toLowerPy (s : String) : String := String.mk (s.data.map Char.toLower)

/-- Python `str.endswith(suffix)`. -/
def endsWithPy (s suffix : String) : Bool := suffix.data.isSuffixOf s.data

/-- Python `str.strip()` with no argument: remove leading and trailing
whitespace. -/
def trimPy (s : String) : String :=
  String.mk (((s.data.dropWhile Char.isWhitespace).reverse.dropWhile
    Char.isWhitespace).reverse)

/-- Embedding of `write_resume_file` (lines 246-258): skipped (no snapshot
written) when the source filename already ends in `.resume`
(case-insensitively); otherwise the three sets are serialized as lists
(here in sorted order; `list(...)` of a Python set is arbitrary order). -/
def write_resume_file (ids_file : String) (dl : DownloadList) :
    Option ResumeSnapshot :=
  if endsWithPy (toLowerPy ids_file) ".resume" then none
  else some
    { set_ids := dl.osu_and_bloodcat.sort (· ≤ ·)
      osu_exc := dl.osu_only.sort (· ≤ ·)
      bloodcat_exc := dl.bloodcat_only.sort (· ≤ ·) }

/-- Embedding of the successful path of `read_resume_file` (lines 195-207):
build the three sets from the parsed record and set `resumed = True`.  (A
file that fails to parse raises `FriendlyError` instead and the run exits
with code 1; the JSON layer is abstracted here.) -/
def read_resume_file (snap : ResumeSnapshot) : DownloadList :=
  { osu_and_bloodcat := snap.set_ids.toFinset
    osu_only := snap.osu_exc.toFinset
    bloodcat_only := snap.bloodcat_exc.toFinset
    resumed := true }

/-- The failures that can abort the pre-download portion of `_main`: the
`AttributeError` raised by line 140 (`print(messages.checking_bloodcat_availability)`
looks up an attribute that `messages.py` does not define — it only defines
`checking_chimu_availability`, line 32), and the `FriendlyError`s that
`update_bloodcat_availability` re-raises.  Both escape `_main` and make
`main` return 1, so `download` is never called. -/
inductive PhaseErr where
  | attributeError
  | friendly (e : BcErr)
deriving DecidableEq, Repr

/-- Embedding of the pre-download portion of `_main` (lines 139-146): when
both services are enabled, line 140 evaluates
`messages.checking_bloodcat_availability` before anything else in the
branch; `messages.py` defines no such attribute, so this raises
`AttributeError` unconditionally and the rest of the branch —
`update_bloodcat_availability` (line 141) and `write_resume_file`
(line 142) — is dead code in this source.  (Were line 140 fixed, the branch
would continue with those two calls; their faithful embeddings are above.)
The `ok` result, reachable only with at most one service enabled, carries
the partition `download` is subsequently called with and the snapshot
written (`none`: no snapshot is written outside the both-services
branch). -/
def pre_download_phase (args : DArgs) (ids_file : String) (dl : DownloadList)
    (avail : String → Except BcErr Bool) :
    Except PhaseErr (DownloadList × Option ResumeSnapshot) :=
  if args.use_osu && args.use_bloodcat then
    Except.error PhaseErr.attributeError
  else Except.ok (dl, none)

/-- With both services enabled `_main` dies at line 140 with
`AttributeError` — before any availability query and before any snapshot
write; with at most one service enabled the branch is skipped entirely and
no snapshot is written. -/
theorem pre_download_phase_cases (args : DArgs) (ids_file : String)
    (dl : DownloadList) (avail : String → Except BcErr Bool) :
    (args.use_osu = true → args.use_bloodcat = true →
      pre_download_phase args ids_file dl avail =
        Except.error PhaseErr.attributeError) ∧
    (args.use_osu = false ∨ args.use_bloodcat = false →
      pre_download_phase args ids_file dl avail = Except.ok (dl, none)) := by
  constructor
  · intro hO hB
    unfold pre_download_phase
    rw [hO, hB]
    rfl
  · rintro (h | h) <;> unfold pre_download_phase <;> rw [h] <;> simp

/-! ## Startup: ID list reading and output directory scan -/

/-- Helper for `splitPy`: tokenize a character list on runs of whitespace,
carrying the (reversed) characters of the token currently being read. -/
def wsTokens : List Char → List Char → List String
  | [], acc => if acc.isEmpty then [] else [String.mk acc.reverse]
  | c :: cs, acc =>
    if c.isWhitespace then
      if acc.isEmpty then wsTokens cs []
      else String.mk acc.reverse :: wsTokens cs []
    else wsTokens cs (c :: acc)

/-- Python `str.split()` with no separator: split on runs of whitespace,
yielding no empty tokens. -/
def splitPy (s : String) : List String :=
  wsTokens s.data []

/-- Python `str.isdigit()` restricted to ASCII: nonempty and all characters
decimal digits.  (Python additionally accepts some non-ASCII digit
characters; filenames with those are outside this model.) -/
def isdigitPy (s : String) : Bool :=
  !s.data.isEmpty && s.data.all Char.isDigit

/-- Embedding of `scan_existing_sets` (lines 178-180) applied to the list of
filenames in the output directory: take the first whitespace-delimited token
of each filename (`item.name.split()[0]`; a filename without tokens
raises `IndexError`, modelled as `none`), and keep only the all-digit
tokens. -/
def scan_existing_sets (names : List String) : Option (Finset String) := do
  let toks ← names.mapM (fun n => (splitPy n).head?)
  pure (toks.filter isdigitPy).toFinset

/-- Modelled from the spec: the spec's §6 sentence says the derived
already-downloaded set is "the first whitespace-delimited token of the
filename"; this definition follows those words (no further filtering), to
be compared with `scan_existing_sets` from the source. -/
def scan_existing_sets_spec (names : List String) : Option (Finset String) := do
  let toks ← names.mapM (fun n => (splitPy n).head?)
  pure toks.toFinset

/-- Embedding of the non-resume branch of `read_ids` (lines 183-192): strip
each line, drop empty results, and put everything into `osu_and_bloodcat`.
(A filename ending in `.resume` goes to `read_resume_file` instead.) -/
def read_ids_lines (lines : List String) : DownloadList :=
  { osu_and_bloodcat := ((lines.map trimPy).filter (fun t => t ≠ "")).toFinset
    osu_only := ∅
    bloodcat_only := ∅
    resumed := false }

/-! ## The worker loop: `common.Downloader.download_mapsets` -/

/-- Embedding of the worker loop `download_mapsets` of `common.py` (lines
31-48) run against a list of inbox values: for each received value, the
sentinel `'stop'` makes the loop return immediately; any other value is
fetched (`download_mapset`, here the oracle `fetch`, `none` = success,
`some e` = raised exception) and exactly one outcome tuple
`(name, id, error)` is put on the results queue.  The result collects the
IDs passed to the fetcher and the emitted outcomes, in order. -/
def download_mapsets (name : String) (fetch : String → Option Exc) :
    List String → List String × List (String × String × Option Exc)
  | [] => ([], [])
  | id :: rest =>
    if id = "stop" then ([], [])
    else
      let r := download_mapsets name fetch rest
      (id :: r.1, (name, id, fetch id) :: r.2)

/-! ## Basic lemmas about the partition operations -/

theorem spop_some {s : Finset String} {x : String} {r : Finset String}
    (h : spop s = some (x, r)) : x ∈ s ∧ r = s.erase x := by
  unfold spop at h
  split at h
  · simp only [Option.some.injEq, Prod.mk.injEq] at h
    obtain ⟨h1, h2⟩ := h
    subst h1; subst h2
    exact ⟨Finset.min'_mem _ _, rfl⟩
  · simp at h

theorem spop_none {s : Finset String} (h : spop s = none) : s = ∅ := by
  unfold spop at h
  split at h
  · simp at h
  · next h2 => exact Finset.not_nonempty_iff_eq_empty.mp h2

theorem next_for_osu_some {dl : DownloadList} {x : String} {dl' : DownloadList}
    (h : dl.next_for_osu = (some x, dl')) :
    (x ∈ dl.osu_only ∧ dl' = { dl with osu_only := dl.osu_only.erase x }) ∨
    (dl.osu_only = ∅ ∧ x ∈ dl.osu_and_bloodcat ∧
      dl' = { dl with osu_and_bloodcat := dl.osu_and_bloodcat.erase x }) := by
  unfold DownloadList.next_for_osu at h
  cases hp : spop dl.osu_only with
  | some p =>
    obtain ⟨a, r⟩ := p
    rw [hp] at h
    obtain ⟨hm, he⟩ := spop_some hp
    simp only [Prod.mk.injEq, Option.some.injEq] at h
    obtain ⟨h1, h2⟩ := h
    subst h1
    exact Or.inl ⟨hm, by rw [← h2, he]⟩
  | none =>
    rw [hp] at h
    have hempty := spop_none hp
    cases hq : spop dl.osu_and_bloodcat with
    | some q =>
      obtain ⟨a, r⟩ := q
      rw [hq] at h
      obtain ⟨hm, he⟩ := spop_some hq
      simp only [Prod.mk.injEq, Option.some.injEq] at h
      obtain ⟨h1, h2⟩ := h
      subst h1
      exact Or.inr ⟨hempty, hm, by rw [← h2, he]⟩
    | none => rw [hq] at h; simp at h

theorem next_for_osu_none {dl : DownloadList} {dl' : DownloadList}
    (h : dl.next_for_osu = (none, dl')) :
    dl' = dl ∧ dl.osu_only = ∅ ∧ dl.osu_and_bloodcat = ∅ := by
  unfold DownloadList.next_for_osu at h
  cases hp : spop dl.osu_only with
  | some p => obtain ⟨a, r⟩ := p; rw [hp] at h; simp at h
  | none =>
    rw [hp] at h
    have h1 := spop_none hp
    cases hq : spop dl.osu_and_bloodcat with
    | some q => obtain ⟨a, r⟩ := q; rw [hq] at h; simp at h
    | none =>
      rw [hq] at h
      have h2 := spop_none hq
      simp only [Prod.mk.injEq] at h
      exact ⟨h.2.symm, h1, h2⟩

theorem next_for_bloodcat_some {dl : DownloadList} {x : String} {dl' : DownloadList}
    (h : dl.next_for_bloodcat = (some x, dl')) :
    (x ∈ dl.bloodcat_only ∧ dl' = { dl with bloodcat_only := dl.bloodcat_only.erase x }) ∨
    (dl.bloodcat_only = ∅ ∧ x ∈ dl.osu_and_bloodcat ∧
      dl' = { dl with osu_and_bloodcat := dl.osu_and_bloodcat.erase x }) := by
  unfold DownloadList.next_for_bloodcat at h
  cases hp : spop dl.bloodcat_only with
  | some p =>
    obtain ⟨a, r⟩ := p
    rw [hp] at h
    obtain ⟨hm, he⟩ := spop_some hp
    simp only [Prod.mk.injEq, Option.some.injEq] at h
    obtain ⟨h1, h2⟩ := h
    subst h1
    exact Or.inl ⟨hm, by rw [← h2, he]⟩
  | none =>
    rw [hp] at h
    have hempty := spop_none hp
    cases hq : spop dl.osu_and_bloodcat with
    | some q =>
      obtain ⟨a, r⟩ := q
      rw [hq] at h
      obtain ⟨hm, he⟩ := spop_some hq
      simp only [Prod.mk.injEq, Option.some.injEq] at h
      obtain ⟨h1, h2⟩ := h
      subst h1
      exact Or.inr ⟨hempty, hm, by rw [← h2, he]⟩
    | none => rw [hq] at h; simp at h

theorem next_for_bloodcat_none {dl : DownloadList} {dl' : DownloadList}
    (h : dl.next_for_bloodcat = (none, dl')) :
    dl' = dl ∧ dl.bloodcat_only = ∅ ∧ dl.osu_and_bloodcat = ∅ := by
  unfold DownloadList.next_for_bloodcat at h
  cases hp : spop dl.bloodcat_only with
  | some p => obtain ⟨a, r⟩ := p; rw [hp] at h; simp at h
  | none =>
    rw [hp] at h
    have h1 := spop_none hp
    cases hq : spop dl.osu_and_bloodcat with
    | some q => obtain ⟨a, r⟩ := q; rw [hq] at h; simp at h
    | none =>
      rw [hq] at h
      have h2 := spop_none hq
      simp only [Prod.mk.injEq] at h
      exact ⟨h.2.symm, h1, h2⟩

/-! ## The orchestrator invariant -/

/-- Invariant of the orchestrator loop, established by the setup code of
`download` and preserved by every loop iteration:

* the three partition sets are pairwise disjoint;
* each single-slot inbox holds at most one in-flight ID;
* a clear busy flag means an empty inbox (and, for osu, no pending
  cooldown); a pending cooldown means the osu worker holds nothing;
* in-flight IDs are absent from the partition, and the two workers never
  hold the same ID;
* IDs recorded missing on a service are not in that service's reachable
  partition sets nor in flight at it;
* a disabled service is never busy, never holds work, and (for osu) has no
  pending cooldown;
* `total - done` counts the IDs still in the partition or in flight. -/
def Inv (args : DArgs) (s : OState) : Prop :=
  s.dl.PairwiseDisjoint ∧
  s.osu_inflight.length ≤ 1 ∧
  s.bloodcat_inflight.length ≤ 1 ∧
  (s.osu_busy = false → s.osu_inflight = [] ∧ s.cooldown_active = false) ∧
  (s.cooldown_active = true → s.osu_inflight = []) ∧
  (s.bloodcat_busy = false → s.bloodcat_inflight = []) ∧
  (∀ x ∈ s.osu_inflight,
    x ∉ s.dl.osu_and_bloodcat ∧ x ∉ s.dl.osu_only ∧ x ∉ s.dl.bloodcat_only) ∧
  (∀ x ∈ s.bloodcat_inflight,
    x ∉ s.dl.osu_and_bloodcat ∧ x ∉ s.dl.osu_only ∧ x ∉ s.dl.bloodcat_only) ∧
  (∀ x ∈ s.osu_inflight, x ∉ s.bloodcat_inflight) ∧
  (∀ x ∈ s.missing_on_osu,
    x ∉ s.dl.osu_only ∧ x ∉ s.dl.osu_and_bloodcat ∧ x ∉ s.osu_inflight) ∧
  (∀ x ∈ s.missing_on_bloodcat,
    x ∉ s.dl.bloodcat_only ∧ x ∉ s.dl.osu_and_bloodcat ∧ x ∉ s.bloodcat_inflight) ∧
  (args.use_osu = false →
    s.osu_busy = false ∧ s.osu_inflight = [] ∧ s.cooldown_active = false) ∧
  (args.use_bloodcat = false → s.bloodcat_busy = false ∧ s.bloodcat_inflight = []) ∧
  s.total - s.done =
    (s.dl.size : Int) + s.osu_inflight.length + s.bloodcat_inflight.length

instance (args : DArgs) (s : OState) : Decidable (Inv args s) := by
  unfold Inv
  infer_instance

theorem fill_osu_inv {args : DArgs} {s : OState} (h : Inv args s) :
    Inv args (fill_osu args s) := by
  obtain ⟨hdisj, hlen1, hlen2, hbusyO, hcd, hbusyB, hinfO, hinfB, hdist,
    hmissO, hmissB, huseO, huseB, hcount⟩ := h
  unfold fill_osu
  split
  case isFalse =>
    exact ⟨hdisj, hlen1, hlen2, hbusyO, hcd, hbusyB, hinfO, hinfB, hdist,
      hmissO, hmissB, huseO, huseB, hcount⟩
  case isTrue hguard =>
    simp only [Bool.and_eq_true, Bool.not_eq_true'] at hguard
    obtain ⟨huse, hbusy⟩ := hguard
    obtain ⟨hinfl, hcdf⟩ := hbusyO hbusy
    split
    case h_2 =>
      exact ⟨hdisj, hlen1, hlen2, hbusyO, hcd, hbusyB, hinfO, hinfB, hdist,
      hmissO, hmissB, huseO, huseB, hcount⟩
    case h_1 x dl' hn =>
      rcases next_for_osu_some hn with ⟨hx, hdl'⟩ | ⟨hempty, hx, hdl'⟩
      · -- popped from `osu_only`
        subst hdl'
        have hxb : x ∉ s.dl.osu_and_bloodcat := fun hc => (hdisj.1 x hc).1 hx
        have hxc : x ∉ s.dl.bloodcat_only := hdisj.2 x hx
        have hxbc : x ∉ s.bloodcat_inflight := fun hc => (hinfB x hc).2.1 hx
        have hsize : s.dl.osu_only.card = (s.dl.osu_only.erase x).card + 1 :=
          (Finset.card_erase_add_one hx).symm
        refine ⟨⟨fun y hy => ⟨fun hc => (hdisj.1 y hy).1 (Finset.erase_subset _ _ hc),
            (hdisj.1 y hy).2⟩,
            fun y hy => hdisj.2 y (Finset.erase_subset _ _ hy)⟩,
          ?_, hlen2, ?_, ?_, hbusyB, ?_, ?_, ?_, ?_, ?_, ?_, huseB, ?_⟩
        · simp [hinfl]
        · intro hh; exact absurd hh (by simp)
        · intro hh; rw [hcdf] at hh; exact absurd hh (by simp)
        · simp only [hinfl, List.nil_append, List.mem_singleton]
          rintro y rfl
          exact ⟨hxb, Finset.not_mem_erase _ _, hxc⟩
        · intro y hy
          exact ⟨(hinfB y hy).1, fun hc => (hinfB y hy).2.1 (Finset.erase_subset _ _ hc),
            (hinfB y hy).2.2⟩
        · simp only [hinfl, List.nil_append, List.mem_singleton]
          rintro y rfl
          exact hxbc
        · intro z hz
          refine ⟨fun hc => (hmissO z hz).1 (Finset.erase_subset _ _ hc),
            (hmissO z hz).2.1, ?_⟩
          simp only [hinfl, List.nil_append, List.mem_singleton]
          rintro rfl
          exact (hmissO z hz).1 hx
        · exact hmissB
        · intro hf; rw [huse] at hf; exact absurd hf (by simp)
        · simp only [hinfl, DownloadList.size, List.length_nil, List.nil_append,
            List.length_singleton] at hcount ⊢
          push_cast at hcount ⊢
          omega
      · -- `osu_only` empty, popped from `osu_and_bloodcat`
        subst hdl'
        have hxo : x ∉ s.dl.osu_only := by rw [hempty]; exact Finset.not_mem_empty x
        have hxc : x ∉ s.dl.bloodcat_only := (hdisj.1 x hx).2
        have hxbc : x ∉ s.bloodcat_inflight := fun hc => (hinfB x hc).1 hx
        have hsize : s.dl.osu_and_bloodcat.card = (s.dl.osu_and_bloodcat.erase x).card + 1 :=
          (Finset.card_erase_add_one hx).symm
        refine ⟨⟨fun y hy => hdisj.1 y (Finset.erase_subset _ _ hy),
            fun y hy => hdisj.2 y hy⟩,
          ?_, hlen2, ?_, ?_, hbusyB, ?_, ?_, ?_, ?_, ?_, ?_, huseB, ?_⟩
        · simp [hinfl]
        · intro hh; exact absurd hh (by simp)
        · intro hh; rw [hcdf] at hh; exact absurd hh (by simp)
        · simp only [hinfl, List.nil_append, List.mem_singleton]
          rintro y rfl
          exact ⟨Finset.not_mem_erase _ _, hxo, hxc⟩
        · intro y hy
          exact ⟨fun hc => (hinfB y hy).1 (Finset.erase_subset _ _ hc),
            (hinfB y hy).2.1, (hinfB y hy).2.2⟩
        · simp only [hinfl, List.nil_append, List.mem_singleton]
          rintro y rfl
          exact hxbc
        · intro z hz
          refine ⟨(hmissO z hz).1,
            fun hc => (hmissO z hz).2.1 (Finset.erase_subset _ _ hc), ?_⟩
          simp only [hinfl, List.nil_append, List.mem_singleton]
          rintro rfl
          exact (hmissO z hz).2.1 hx
        · intro z hz
          exact ⟨(hmissB z hz).1, fun hc => (hmissB z hz).2.1 (Finset.erase_subset _ _ hc),
            (hmissB z hz).2.2⟩
        · intro hf; rw [huse] at hf; exact absurd hf (by simp)
        · simp only [hinfl, DownloadList.size, List.length_nil, List.nil_append,
            List.length_singleton] at hcount ⊢
          push_cast at hcount ⊢
          omega

theorem fill_bloodcat_inv {args : DArgs} {s : OState} (h : Inv args s) :
    Inv args (fill_bloodcat args s) := by
  obtain ⟨hdisj, hlen1, hlen2, hbusyO, hcd, hbusyB, hinfO, hinfB, hdist,
    hmissO, hmissB, huseO, huseB, hcount⟩ := h
  unfold fill_bloodcat
  split
  case isFalse =>
    exact ⟨hdisj, hlen1, hlen2, hbusyO, hcd, hbusyB, hinfO, hinfB, hdist,
      hmissO, hmissB, huseO, huseB, hcount⟩
  case isTrue hguard =>
    simp only [Bool.and_eq_true, Bool.not_eq_true'] at hguard
    obtain ⟨huse, hbusy⟩ := hguard
    have hinflB := hbusyB hbusy
    split
    case h_2 =>
      exact ⟨hdisj, hlen1, hlen2, hbusyO, hcd, hbusyB, hinfO, hinfB, hdist,
      hmissO, hmissB, huseO, huseB, hcount⟩
    case h_1 x dl' hn =>
      rcases next_for_bloodcat_some hn with ⟨hx, hdl'⟩ | ⟨hempty, hx, hdl'⟩
      · -- popped from `bloodcat_only`
        subst hdl'
        have hxb : x ∉ s.dl.osu_and_bloodcat := fun hc => (hdisj.1 x hc).2 hx
        have hxo : x ∉ s.dl.osu_only := fun hc => hdisj.2 x hc hx
        have hxoi : x ∉ s.osu_inflight := fun hc => (hinfO x hc).2.2 hx
        have hsize : s.dl.bloodcat_only.card = (s.dl.bloodcat_only.erase x).card + 1 :=
          (Finset.card_erase_add_one hx).symm
        refine ⟨⟨fun y hy => ⟨(hdisj.1 y hy).1,
            fun hc => (hdisj.1 y hy).2 (Finset.erase_subset _ _ hc)⟩,
            fun y hy hc => hdisj.2 y hy (Finset.erase_subset _ _ hc)⟩,
          hlen1, ?_, hbusyO, hcd, ?_, ?_, ?_, ?_, hmissO, ?_, huseO, ?_, ?_⟩
        · simp [hinflB]
        · intro hh; exact absurd hh (by simp)
        · intro y hy
          exact ⟨(hinfO y hy).1, (hinfO y hy).2.1,
            fun hc => (hinfO y hy).2.2 (Finset.erase_subset _ _ hc)⟩
        · simp only [hinflB, List.nil_append, List.mem_singleton]
          rintro y rfl
          exact ⟨hxb, hxo, Finset.not_mem_erase _ _⟩
        · intro y hy
          simp only [hinflB, List.nil_append, List.mem_singleton]
          rintro rfl
          exact hxoi hy
        · intro z hz
          refine ⟨fun hc => (hmissB z hz).1 (Finset.erase_subset _ _ hc),
            (hmissB z hz).2.1, ?_⟩
          simp only [hinflB, List.nil_append, List.mem_singleton]
          rintro rfl
          exact (hmissB z hz).1 hx
        · intro hf; rw [huse] at hf; exact absurd hf (by simp)
        · simp only [hinflB, DownloadList.size, List.length_nil, List.nil_append,
            List.length_singleton] at hcount ⊢
          push_cast at hcount ⊢
          omega
      · -- `bloodcat_only` empty, popped from `osu_and_bloodcat`
        subst hdl'
        have hxc : x ∉ s.dl.bloodcat_only := by rw [hempty]; exact Finset.not_mem_empty x
        have hxo : x ∉ s.dl.osu_only := (hdisj.1 x hx).1
        have hxoi : x ∉ s.osu_inflight := fun hc => (hinfO x hc).1 hx
        have hsize : s.dl.osu_and_bloodcat.card = (s.dl.osu_and_bloodcat.erase x).card + 1 :=
          (Finset.card_erase_add_one hx).symm
        refine ⟨⟨fun y hy => hdisj.1 y (Finset.erase_subset _ _ hy),
            fun y hy => hdisj.2 y hy⟩,
          hlen1, ?_, hbusyO, hcd, ?_, ?_, ?_, ?_, ?_, ?_, huseO, ?_, ?_⟩
        · simp [hinflB]
        · intro hh; exact absurd hh (by simp)
        · intro y hy
          exact ⟨fun hc => (hinfO y hy).1 (Finset.erase_subset _ _ hc),
            (hinfO y hy).2.1, (hinfO y hy).2.2⟩
        · simp only [hinflB, List.nil_append, List.mem_singleton]
          rintro y rfl
          exact ⟨Finset.not_mem_erase _ _, hxo, hxc⟩
        · intro y hy
          simp only [hinflB, List.nil_append, List.mem_singleton]
          rintro rfl
          exact hxoi hy
        · intro z hz
          exact ⟨(hmissO z hz).1, fun hc => (hmissO z hz).2.1 (Finset.erase_subset _ _ hc),
            (hmissO z hz).2.2⟩
        · intro z hz
          refine ⟨(hmissB z hz).1,
            fun hc => (hmissB z hz).2.1 (Finset.erase_subset _ _ hc), ?_⟩
          simp only [hinflB, List.nil_append, List.mem_singleton]
          rintro rfl
          exact (hmissB z hz).2.1 hx
        · intro hf; rw [huse] at hf; exact absurd hf (by simp)
        · simp only [hinflB, DownloadList.size, List.length_nil, List.nil_append,
            List.length_singleton] at hcount ⊢
          push_cast at hcount ⊢
          omega

theorem fill_queues_inv {args : DArgs} {s : OState} (h : Inv args s) :
    Inv args (fill_queues args s) :=
  fill_bloodcat_inv (fill_osu_inv h)

/-! ## Step equations, one per branch of the loop body -/

theorem step_timer_eq (args : DArgs) (s : OState) (i : String) :
    step args s ⟨WTag.timer, i, none⟩ =
      StepOut.cont (fill_queues args
        { s with osu_busy := false, cooldown_active := false }) := by
  simp [step]

theorem step_success_osu_eq (args : DArgs) (s : OState) (i : String) :
    step args s ⟨WTag.osu, i, none⟩ =
      StepOut.cont (fill_queues args
        { s with done := s.done + 1, osu_busy := false, osu_errors_in_a_row := 0,
                 osu_inflight := s.osu_inflight.erase i }) := by
  simp [step]

theorem step_success_bloodcat_eq (args : DArgs) (s : OState) (i : String) :
    step args s ⟨WTag.bloodcat, i, none⟩ =
      StepOut.cont (fill_queues args
        { s with done := s.done + 1, bloodcat_busy := false,
                 bloodcat_errors_in_a_row := 0,
                 bloodcat_inflight := s.bloodcat_inflight.erase i }) := by
  simp [step]

theorem step_unavail_osu_drop_eq (args : DArgs) (s : OState) (i : String)
    (hc : (!args.use_bloodcat || decide (i ∈ s.missing_on_bloodcat)) = true) :
    step args s ⟨WTag.osu, i, some (Exc.mapsetUnavailable PyMod.osu)⟩ =
      StepOut.cont (fill_queues args
        { s with missing_on_osu := insert i s.missing_on_osu,
                 osu_inflight := s.osu_inflight.erase i,
                 total := s.total - 1, osu_busy := false }) := by
  simp [step, hc]

theorem step_unavail_osu_move_eq (args : DArgs) (s : OState) (i : String)
    (hc : (!args.use_bloodcat || decide (i ∈ s.missing_on_bloodcat)) = false) :
    step args s ⟨WTag.osu, i, some (Exc.mapsetUnavailable PyMod.osu)⟩ =
      StepOut.cont (fill_queues args
        { s with missing_on_osu := insert i s.missing_on_osu,
                 osu_inflight := s.osu_inflight.erase i,
                 dl := { s.dl with bloodcat_only := insert i s.dl.bloodcat_only },
                 osu_busy := false }) := by
  simp [step, hc]

theorem step_unavail_bloodcat_drop_eq (args : DArgs) (s : OState) (i : String)
    (hc : (!args.use_osu || decide (i ∈ s.missing_on_osu)) = true) :
    step args s ⟨WTag.bloodcat, i, some (Exc.mapsetUnavailable PyMod.bloodcat)⟩ =
      StepOut.cont (fill_queues args
        { s with missing_on_bloodcat := insert i s.missing_on_bloodcat,
                 bloodcat_inflight := s.bloodcat_inflight.erase i,
                 total := s.total - 1, bloodcat_busy := false }) := by
  simp [step, hc]

theorem step_unavail_bloodcat_move_eq (args : DArgs) (s : OState) (i : String)
    (hc : (!args.use_osu || decide (i ∈ s.missing_on_osu)) = false) :
    step args s ⟨WTag.bloodcat, i, some (Exc.mapsetUnavailable PyMod.bloodcat)⟩ =
      StepOut.cont (fill_queues args
        { s with missing_on_bloodcat := insert i s.missing_on_bloodcat,
                 bloodcat_inflight := s.bloodcat_inflight.erase i,
                 dl := { s.dl with osu_only := insert i s.dl.osu_only },
                 bloodcat_busy := false }) := by
  simp [step, hc]

theorem step_quota_both_eq (args : DArgs) (s : OState) (i : String)
    (hc : (args.use_bloodcat && !decide (i ∈ s.missing_on_bloodcat)) = true) :
    step args s ⟨WTag.osu, i, some Exc.quotaExceeded⟩ =
      StepOut.cont
        { s with osu_inflight := s.osu_inflight.erase i,
                 dl := { s.dl with
                   osu_and_bloodcat := insert i s.dl.osu_and_bloodcat },
                 cooldown_active := true } := by
  simp [step, hc]

theorem step_quota_osu_only_eq (args : DArgs) (s : OState) (i : String)
    (hc : (args.use_bloodcat && !decide (i ∈ s.missing_on_bloodcat)) = false) :
    step args s ⟨WTag.osu, i, some Exc.quotaExceeded⟩ =
      StepOut.cont
        { s with osu_inflight := s.osu_inflight.erase i,
                 dl := { s.dl with osu_only := insert i s.dl.osu_only },
                 cooldown_active := true } := by
  simp [step, hc]

theorem step_retry_osu_eq (args : DArgs) (s : OState) (i : String) (e : Exc)
    (he1 : e ≠ Exc.mapsetUnavailable PyMod.osu) (he2 : e ≠ Exc.quotaExceeded)
    (hlt : s.osu_errors_in_a_row < args.max_errors_in_a_row) :
    step args s ⟨WTag.osu, i, some e⟩ =
      StepOut.cont
        { s with osu_errors_in_a_row := s.osu_errors_in_a_row + 1,
                 osu_inflight := s.osu_inflight.erase i ++ [i],
                 sends := s.sends ++ [(Svc.osu, i, true)] } := by
  simp [step, he1, he2, hlt]

theorem step_abort_osu_eq (args : DArgs) (s : OState) (i : String) (e : Exc)
    (he1 : e ≠ Exc.mapsetUnavailable PyMod.osu) (he2 : e ≠ Exc.quotaExceeded)
    (hge : ¬ s.osu_errors_in_a_row < args.max_errors_in_a_row) :
    step args s ⟨WTag.osu, i, some e⟩ = StepOut.abortRun := by
  simp [step, he1, he2, hge]

theorem step_retry_bloodcat_eq (args : DArgs) (s : OState) (i : String) (e : Exc)
    (he1 : e ≠ Exc.mapsetUnavailable PyMod.bloodcat)
    (hlt : s.bloodcat_errors_in_a_row < args.max_errors_in_a_row) :
    step args s ⟨WTag.bloodcat, i, some e⟩ =
      StepOut.cont
        { s with bloodcat_errors_in_a_row := s.bloodcat_errors_in_a_row + 1,
                 bloodcat_inflight := s.bloodcat_inflight.erase i ++ [i],
                 sends := s.sends ++ [(Svc.bloodcat, i, true)] } := by
  simp [step, he1, hlt]

theorem step_abort_bloodcat_eq (args : DArgs) (s : OState) (i : String) (e : Exc)
    (he1 : e ≠ Exc.mapsetUnavailable PyMod.bloodcat)
    (hge : ¬ s.bloodcat_errors_in_a_row < args.max_errors_in_a_row) :
    step args s ⟨WTag.bloodcat, i, some e⟩ = StepOut.abortRun := by
  simp [step, he1, hge]

theorem step_timer_err_eq (args : DArgs) (s : OState) (i : String) (e : Exc) :
    step args s ⟨WTag.timer, i, some e⟩ = StepOut.cont s := by
  simp [step]

/-! ## Preservation of the invariant by one loop iteration -/

theorem step_inv_osu {args : DArgs} {s s' : OState} {i : String} {err : Option Exc}
    (h : Inv args s) (hv : s.osu_inflight = [i])
    (hs : step args s ⟨WTag.osu, i, err⟩ = StepOut.cont s') : Inv args s' := by
  obtain ⟨hdisj, hlen1, hlen2, hbusyO, hcd, hbusyB, hinfO, hinfB, hdist,
    hmissO, hmissB, huseO, huseB, hcount⟩ := h
  have hbusy : s.osu_busy = true := by
    cases hb : s.osu_busy with
    | false => have h0 := (hbusyO hb).1; rw [hv] at h0; simp at h0
    | true => rfl
  have hcdf : s.cooldown_active = false := by
    cases hc2 : s.cooldown_active with
    | true => have h0 := hcd hc2; rw [hv] at h0; simp at h0
    | false => rfl
  have hiin : i ∈ s.osu_inflight := by rw [hv]; exact List.mem_singleton.mpr rfl
  have hfacts := hinfO i hiin
  have hibc : i ∉ s.bloodcat_inflight := hdist i hiin
  have himo : i ∉ s.missing_on_osu := fun hm => (hmissO i hm).2.2 hiin
  have huse : args.use_osu = true := by
    cases hu : args.use_osu with
    | false => have h0 := (huseO hu).2.1; rw [hv] at h0; simp at h0
    | true => rfl
  have herase : s.osu_inflight.erase i = [] := by rw [hv]; simp
  have hinvRetry : Inv args
      { s with osu_errors_in_a_row := s.osu_errors_in_a_row + 1,
               osu_inflight := s.osu_inflight.erase i ++ [i],
               sends := s.sends ++ [(Svc.osu, i, true)] } := by
    refine ⟨hdisj, ?_, hlen2, ?_, ?_, hbusyB, ?_, hinfB, ?_, ?_, hmissB, ?_, huseB, ?_⟩
    · simp [herase]
    · intro hb; simp [hbusy] at hb
    · intro hcc; simp [hcdf] at hcc
    · simp only [herase, List.nil_append, List.mem_singleton]
      rintro y rfl
      exact hfacts
    · simp only [herase, List.nil_append, List.mem_singleton]
      rintro y rfl
      exact hibc
    · intro z hz
      refine ⟨(hmissO z hz).1, (hmissO z hz).2.1, ?_⟩
      simp only [herase, List.nil_append, List.mem_singleton]
      rintro rfl
      exact himo hz
    · intro hf; simp [huse] at hf
    · simp only [herase, List.nil_append, List.length_singleton] at hcount ⊢
      rw [hv] at hcount
      simpa using hcount
  cases err with
  | none =>
    rw [step_success_osu_eq] at hs
    rw [StepOut.cont.injEq] at hs
    subst hs
    apply fill_queues_inv
    refine ⟨hdisj, ?_, hlen2, ?_, ?_, hbusyB, ?_, hinfB, ?_, ?_, hmissB, ?_, huseB, ?_⟩
    · simp [herase]
    · intro _; exact ⟨herase, hcdf⟩
    · intro hcc; simp [hcdf] at hcc
    · simp [herase]
    · simp [herase]
    · intro z hz
      exact ⟨(hmissO z hz).1, (hmissO z hz).2.1, by simp [herase]⟩
    · intro hf; simp [huse] at hf
    · simp only [herase, List.length_nil] at hcount ⊢
      rw [hv] at hcount
      simp only [List.length_singleton] at hcount
      push_cast at hcount ⊢
      omega
  | some e =>
    cases e with
    | mapsetUnavailable pm =>
      cases pm with
      | osu =>
        cases hc : (!args.use_bloodcat || decide (i ∈ s.missing_on_bloodcat)) with
        | true =>
          rw [step_unavail_osu_drop_eq args s i hc] at hs
          rw [StepOut.cont.injEq] at hs
          subst hs
          apply fill_queues_inv
          refine ⟨hdisj, ?_, hlen2, ?_, ?_, hbusyB, ?_, hinfB, ?_, ?_, hmissB, ?_, huseB, ?_⟩
          · simp [herase]
          · intro _; exact ⟨herase, hcdf⟩
          · intro hcc; simp [hcdf] at hcc
          · simp [herase]
          · simp [herase]
          · intro z hz
            rcases Finset.mem_insert.mp hz with rfl | hz'
            · exact ⟨hfacts.2.1, hfacts.1, by simp [herase]⟩
            · exact ⟨(hmissO z hz').1, (hmissO z hz').2.1, by simp [herase]⟩
          · intro hf; simp [huse] at hf
          · simp only [herase, List.length_nil] at hcount ⊢
            rw [hv] at hcount
            simp only [List.length_singleton] at hcount
            push_cast at hcount ⊢
            omega
        | false =>
          simp only [Bool.or_eq_false_iff, Bool.not_eq_false',
            decide_eq_false_iff_not] at hc
          rw [step_unavail_osu_move_eq args s i
            (by simp [hc.1, hc.2])] at hs
          rw [StepOut.cont.injEq] at hs
          subst hs
          apply fill_queues_inv
          have hinb : i ∉ s.dl.bloodcat_only := hfacts.2.2
          refine ⟨?_, ?_, hlen2, ?_, ?_, hbusyB, ?_, ?_, ?_, ?_, ?_, ?_, huseB, ?_⟩
          · refine ⟨fun y hy => ⟨(hdisj.1 y hy).1, fun hcc => ?_⟩,
              fun y hy hcc => ?_⟩
            · rcases Finset.mem_insert.mp hcc with rfl | h2
              · exact hfacts.1 hy
              · exact (hdisj.1 y hy).2 h2
            · rcases Finset.mem_insert.mp hcc with rfl | h2
              · exact hfacts.2.1 hy
              · exact hdisj.2 y hy h2
          · simp [herase]
          · intro _; exact ⟨herase, hcdf⟩
          · intro hcc; simp [hcdf] at hcc
          · simp [herase]
          · intro y hy
            refine ⟨(hinfB y hy).1, (hinfB y hy).2.1, fun hcc => ?_⟩
            rcases Finset.mem_insert.mp hcc with rfl | h2
            · exact hibc hy
            · exact (hinfB y hy).2.2 h2
          · simp [herase]
          · intro z hz
            rcases Finset.mem_insert.mp hz with rfl | hz'
            · exact ⟨hfacts.2.1, hfacts.1, by simp [herase]⟩
            · exact ⟨(hmissO z hz').1, (hmissO z hz').2.1, by simp [herase]⟩
          · intro z hz
            refine ⟨fun hcc => ?_, (hmissB z hz).2.1, (hmissB z hz).2.2⟩
            rcases Finset.mem_insert.mp hcc with rfl | h2
            · exact hc.2 hz
            · exact (hmissB z hz).1 h2
          · intro hf; simp [huse] at hf
          · simp only [herase, List.length_nil, DownloadList.size,
              Finset.card_insert_of_not_mem hinb] at hcount ⊢
            rw [hv] at hcount
            simp only [List.length_singleton, DownloadList.size] at hcount
            push_cast at hcount ⊢
            omega
      | bloodcat =>
        cases hlt : decide (s.osu_errors_in_a_row < args.max_errors_in_a_row) with
        | true =>
          rw [step_retry_osu_eq args s i _ (by simp) (by simp)
            (of_decide_eq_true hlt)] at hs
          rw [StepOut.cont.injEq] at hs
          subst hs
          exact hinvRetry
        | false =>
          rw [step_abort_osu_eq args s i _ (by simp) (by simp)
            (of_decide_eq_false hlt)] at hs
          exact StepOut.noConfusion hs
    | quotaExceeded =>
      cases hc : (args.use_bloodcat && !decide (i ∈ s.missing_on_bloodcat)) with
      | true =>
        simp only [Bool.and_eq_true, Bool.not_eq_true', decide_eq_false_iff_not] at hc
        rw [step_quota_both_eq args s i (by simp [hc.1, hc.2])] at hs
        rw [StepOut.cont.injEq] at hs
        subst hs
        have hinb : i ∉ s.dl.osu_and_bloodcat := hfacts.1
        refine ⟨?_, ?_, hlen2, ?_, ?_, hbusyB, ?_, ?_, ?_, ?_, ?_, ?_, huseB, ?_⟩
        · refine ⟨fun y hy => ?_, fun y hy => hdisj.2 y hy⟩
          rcases Finset.mem_insert.mp hy with rfl | h2
          · exact ⟨hfacts.2.1, hfacts.2.2⟩
          · exact hdisj.1 y h2
        · simp [herase]
        · intro hb; simp [hbusy] at hb
        · intro _; exact herase
        · simp [herase]
        · intro y hy
          refine ⟨fun hcc => ?_, (hinfB y hy).2.1, (hinfB y hy).2.2⟩
          rcases Finset.mem_insert.mp hcc with rfl | h2
          · exact hibc hy
          · exact (hinfB y hy).1 h2
        · simp [herase]
        · intro z hz
          refine ⟨(hmissO z hz).1, fun hcc => ?_, by simp [herase]⟩
          rcases Finset.mem_insert.mp hcc with rfl | h2
          · exact himo hz
          · exact (hmissO z hz).2.1 h2
        · intro z hz
          refine ⟨(hmissB z hz).1, fun hcc => ?_, (hmissB z hz).2.2⟩
          rcases Finset.mem_insert.mp hcc with rfl | h2
          · exact hc.2 hz
          · exact (hmissB z hz).2.1 h2
        · intro hf; simp [huse] at hf
        · simp only [herase, List.length_nil, DownloadList.size,
            Finset.card_insert_of_not_mem hinb] at hcount ⊢
          rw [hv] at hcount
          simp only [List.length_singleton, DownloadList.size] at hcount
          push_cast at hcount ⊢
          omega
      | false =>
        rw [step_quota_osu_only_eq args s i hc] at hs
        rw [StepOut.cont.injEq] at hs
        subst hs
        have hinb : i ∉ s.dl.osu_only := hfacts.2.1
        refine ⟨?_, ?_, hlen2, ?_, ?_, hbusyB, ?_, ?_, ?_, ?_, hmissB, ?_, huseB, ?_⟩
        · refine ⟨fun y hy => ⟨fun hcc => ?_, (hdisj.1 y hy).2⟩, fun y hy => ?_⟩
          · rcases Finset.mem_insert.mp hcc with rfl | h2
            · exact hfacts.1 hy
            · exact (hdisj.1 y hy).1 h2
          · rcases Finset.mem_insert.mp hy with rfl | h2
            · exact hfacts.2.2
            · exact hdisj.2 y h2
        · simp [herase]
        · intro hb; simp [hbusy] at hb
        · intro _; exact herase
        · simp [herase]
        · intro y hy
          refine ⟨(hinfB y hy).1, fun hcc => ?_, (hinfB y hy).2.2⟩
          rcases Finset.mem_insert.mp hcc with rfl | h2
          · exact hibc hy
          · exact (hinfB y hy).2.1 h2
        · simp [herase]
        · intro z hz
          refine ⟨fun hcc => ?_, (hmissO z hz).2.1, by simp [herase]⟩
          rcases Finset.mem_insert.mp hcc with rfl | h2
          · exact himo hz
          · exact (hmissO z hz).1 h2
        · intro hf; simp [huse] at hf
        · simp only [herase, List.length_nil, DownloadList.size,
            Finset.card_insert_of_not_mem hinb] at hcount ⊢
          rw [hv] at hcount
          simp only [List.length_singleton, DownloadList.size] at hcount
          push_cast at hcount ⊢
          omega
    | otherError =>
      cases hlt : decide (s.osu_errors_in_a_row < args.max_errors_in_a_row) with
      | true =>
        rw [step_retry_osu_eq args s i _ (by simp) (by simp)
          (of_decide_eq_true hlt)] at hs
        rw [StepOut.cont.injEq] at hs
        subst hs
        exact hinvRetry
      | false =>
        rw [step_abort_osu_eq args s i _ (by simp) (by simp)
          (of_decide_eq_false hlt)] at hs
        exact StepOut.noConfusion hs

theorem step_inv_bloodcat {args : DArgs} {s s' : OState} {i : String} {err : Option Exc}
    (h : Inv args s) (hv : s.bloodcat_inflight = [i])
    (hs : step args s ⟨WTag.bloodcat, i, err⟩ = StepOut.cont s') : Inv args s' := by
  obtain ⟨hdisj, hlen1, hlen2, hbusyO, hcd, hbusyB, hinfO, hinfB, hdist,
    hmissO, hmissB, huseO, huseB, hcount⟩ := h
  have hbusy : s.bloodcat_busy = true := by
    cases hb : s.bloodcat_busy with
    | false => have h0 := hbusyB hb; rw [hv] at h0; simp at h0
    | true => rfl
  have hiin : i ∈ s.bloodcat_inflight := by rw [hv]; exact List.mem_singleton.mpr rfl
  have hfacts := hinfB i hiin
  have hiosu : i ∉ s.osu_inflight := fun hc => hdist i hc hiin
  have himb : i ∉ s.missing_on_bloodcat := fun hm => (hmissB i hm).2.2 hiin
  have huse : args.use_bloodcat = true := by
    cases hu : args.use_bloodcat with
    | false => have h0 := (huseB hu).2; rw [hv] at h0; simp at h0
    | true => rfl
  have herase : s.bloodcat_inflight.erase i = [] := by rw [hv]; simp
  have hinvRetry : Inv args
      { s with bloodcat_errors_in_a_row := s.bloodcat_errors_in_a_row + 1,
               bloodcat_inflight := s.bloodcat_inflight.erase i ++ [i],
               sends := s.sends ++ [(Svc.bloodcat, i, true)] } := by
    refine ⟨hdisj, hlen1, ?_, hbusyO, hcd, ?_, hinfO, ?_, ?_, hmissO, ?_, huseO, ?_, ?_⟩
    · simp [herase]
    · intro hb; simp [hbusy] at hb
    · simp only [herase, List.nil_append, List.mem_singleton]
      rintro y rfl
      exact hfacts
    · intro y hy
      simp only [herase, List.nil_append, List.mem_singleton]
      rintro rfl
      exact hiosu hy
    · intro z hz
      refine ⟨(hmissB z hz).1, (hmissB z hz).2.1, ?_⟩
      simp only [herase, List.nil_append, List.mem_singleton]
      rintro rfl
      exact himb hz
    · intro hf; simp [huse] at hf
    · simp only [herase, List.nil_append, List.length_singleton] at hcount ⊢
      rw [hv] at hcount
      simpa using hcount
  cases err with
  | none =>
    rw [step_success_bloodcat_eq] at hs
    rw [StepOut.cont.injEq] at hs
    subst hs
    apply fill_queues_inv
    refine ⟨hdisj, hlen1, ?_, hbusyO, hcd, ?_, hinfO, ?_, ?_, hmissO, ?_, huseO, ?_, ?_⟩
    · simp [herase]
    · intro _; exact herase
    · simp [herase]
    · intro y hy; simp [herase]
    · intro z hz
      exact ⟨(hmissB z hz).1, (hmissB z hz).2.1, by simp [herase]⟩
    · intro hf; simp [huse] at hf
    · simp only [herase, List.length_nil] at hcount ⊢
      rw [hv] at hcount
      simp only [List.length_singleton] at hcount
      push_cast at hcount ⊢
      omega
  | some e =>
    cases e with
    | mapsetUnavailable pm =>
      cases pm with
      | bloodcat =>
        cases hc : (!args.use_osu || decide (i ∈ s.missing_on_osu)) with
        | true =>
          rw [step_unavail_bloodcat_drop_eq args s i hc] at hs
          rw [StepOut.cont.injEq] at hs
          subst hs
          apply fill_queues_inv
          refine ⟨hdisj, hlen1, ?_, hbusyO, hcd, ?_, hinfO, ?_, ?_, hmissO, ?_, huseO, ?_, ?_⟩
          · simp [herase]
          · intro _; exact herase
          · simp [herase]
          · intro y hy; simp [herase]
          · intro z hz
            rcases Finset.mem_insert.mp hz with rfl | hz'
            · exact ⟨hfacts.2.2, hfacts.1, by simp [herase]⟩
            · exact ⟨(hmissB z hz').1, (hmissB z hz').2.1, by simp [herase]⟩
          · intro hf; simp [huse] at hf
          · simp only [herase, List.length_nil] at hcount ⊢
            rw [hv] at hcount
            simp only [List.length_singleton] at hcount
            push_cast at hcount ⊢
            omega
        | false =>
          simp only [Bool.or_eq_false_iff, Bool.not_eq_false',
            decide_eq_false_iff_not] at hc
          rw [step_unavail_bloodcat_move_eq args s i
            (by simp [hc.1, hc.2])] at hs
          rw [StepOut.cont.injEq] at hs
          subst hs
          apply fill_queues_inv
          have hinb : i ∉ s.dl.osu_only := hfacts.2.1
          refine ⟨?_, hlen1, ?_, hbusyO, hcd, ?_, ?_, ?_, ?_, ?_, ?_, huseO, ?_, ?_⟩
          · refine ⟨fun y hy => ⟨fun hcc => ?_, (hdisj.1 y hy).2⟩, fun y hy => ?_⟩
            · rcases Finset.mem_insert.mp hcc with rfl | h2
              · exact hfacts.1 hy
              · exact (hdisj.1 y hy).1 h2
            · rcases Finset.mem_insert.mp hy with rfl | h2
              · exact hfacts.2.2
              · exact hdisj.2 y h2
          · simp [herase]
          · intro _; exact herase
          · intro y hy
            refine ⟨(hinfO y hy).1, fun hcc => ?_, (hinfO y hy).2.2⟩
            rcases Finset.mem_insert.mp hcc with rfl | h2
            · exact hiosu hy
            · exact (hinfO y hy).2.1 h2
          · simp [herase]
          · intro y hy; simp [herase]
          · intro z hz
            refine ⟨fun hcc => ?_, (hmissO z hz).2.1, (hmissO z hz).2.2⟩
            rcases Finset.mem_insert.mp hcc with rfl | h2
            · exact hc.2 hz
            · exact (hmissO z hz).1 h2
          · intro z hz
            rcases Finset.mem_insert.mp hz with rfl | hz'
            · exact ⟨hfacts.2.2, hfacts.1, by simp [herase]⟩
            · exact ⟨(hmissB z hz').1, (hmissB z hz').2.1, by simp [herase]⟩
          · intro hf; simp [huse] at hf
          · simp only [herase, List.length_nil, DownloadList.size,
              Finset.card_insert_of_not_mem hinb] at hcount ⊢
            rw [hv] at hcount
            simp only [List.length_singleton, DownloadList.size] at hcount
            push_cast at hcount ⊢
            omega
      | osu =>
        cases hlt : decide (s.bloodcat_errors_in_a_row < args.max_errors_in_a_row) with
        | true =>
          rw [step_retry_bloodcat_eq args s i _ (by simp)
            (of_decide_eq_true hlt)] at hs
          rw [StepOut.cont.injEq] at hs
          subst hs
          exact hinvRetry
        | false =>
          rw [step_abort_bloodcat_eq args s i _ (by simp)
            (of_decide_eq_false hlt)] at hs
          exact StepOut.noConfusion hs
    | quotaExceeded =>
      cases hlt : decide (s.bloodcat_errors_in_a_row < args.max_errors_in_a_row) with
      | true =>
        rw [step_retry_bloodcat_eq args s i _ (by simp)
          (of_decide_eq_true hlt)] at hs
        rw [StepOut.cont.injEq] at hs
        subst hs
        exact hinvRetry
      | false =>
        rw [step_abort_bloodcat_eq args s i _ (by simp)
          (of_decide_eq_false hlt)] at hs
        exact StepOut.noConfusion hs
    | otherError =>
      cases hlt : decide (s.bloodcat_errors_in_a_row < args.max_errors_in_a_row) with
      | true =>
        rw [step_retry_bloodcat_eq args s i _ (by simp)
          (of_decide_eq_true hlt)] at hs
        rw [StepOut.cont.injEq] at hs
        subst hs
        exact hinvRetry
      | false =>
        rw [step_abort_bloodcat_eq args s i _ (by simp)
          (of_decide_eq_false hlt)] at hs
        exact StepOut.noConfusion hs

theorem step_inv_timer {args : DArgs} {s s' : OState} {i : String} {err : Option Exc}
    (h : Inv args s) (hcda : s.cooldown_active = true)
    (hs : step args s ⟨WTag.timer, i, err⟩ = StepOut.cont s') : Inv args s' := by
  obtain ⟨hdisj, hlen1, hlen2, hbusyO, hcd, hbusyB, hinfO, hinfB, hdist,
    hmissO, hmissB, huseO, huseB, hcount⟩ := h
  cases err with
  | none =>
    rw [step_timer_eq] at hs
    rw [StepOut.cont.injEq] at hs
    subst hs
    apply fill_queues_inv
    refine ⟨hdisj, hlen1, hlen2, ?_, ?_, hbusyB, hinfO, hinfB, hdist,
      hmissO, hmissB, ?_, huseB, hcount⟩
    · intro _; exact ⟨hcd hcda, rfl⟩
    · intro hcc; simp at hcc
    · intro hf; exact ⟨rfl, hcd hcda, rfl⟩
  | some e =>
    rw [step_timer_err_eq] at hs
    rw [StepOut.cont.injEq] at hs
    subst hs
    exact ⟨hdisj, hlen1, hlen2, hbusyO, hcd, hbusyB, hinfO, hinfB, hdist,
      hmissO, hmissB, huseO, huseB, hcount⟩

/-- One loop iteration on a producible message preserves the invariant. -/
theorem step_inv {args : DArgs} {s s' : OState} {m : Msg}
    (h : Inv args s) (hv : validMsg s m = true)
    (hs : step args s m = StepOut.cont s') : Inv args s' := by
  obtain ⟨w, i, err⟩ := m
  cases w with
  | timer =>
    unfold validMsg at hv
    simp only [Bool.and_eq_true, beq_iff_eq, decide_eq_true_eq] at hv
    exact step_inv_timer h hv.1.1 hs
  | osu =>
    unfold validMsg at hv
    simp only [beq_iff_eq] at hv
    exact step_inv_osu h hv hs
  | bloodcat =>
    unfold validMsg at hv
    simp only [beq_iff_eq] at hv
    exact step_inv_bloodcat h hv hs

/-- The setup code of `download` establishes the invariant, for any starting
partition with pairwise disjoint sets. -/
theorem init_inv {args : DArgs} {dl : DownloadList} (h : dl.PairwiseDisjoint) :
    Inv args (initOState args dl) := by
  unfold initOState
  apply fill_queues_inv
  refine ⟨h, by simp, by simp, fun _ => ⟨rfl, rfl⟩, fun _ => rfl, fun _ => rfl,
    by simp, by simp, by simp, ?_, ?_, fun _ => ⟨rfl, rfl, rfl⟩, fun _ => ⟨rfl, rfl⟩, ?_⟩
  · intro z hz
    exact ⟨fun hc => h.2 z hc hz, fun hc => (h.1 z hc).2 hz, by simp⟩
  · intro z hz
    exact ⟨fun hc => h.2 z hz hc, fun hc => (h.1 z hc).1 hz, by simp⟩
  · simp

/-- Step-indexed induction along a producible message sequence. -/
theorem stepsTo_ind {args : DArgs} (P : OState → Prop)
    (hP : ∀ s m s', P s → s.done < s.total → validMsg s m = true →
      step args s m = StepOut.cont s' → P s')
    {s t : OState} {msgs : List Msg}
    (hsteps : StepsTo args s msgs t) (h0 : P s) : P t := by
  induction hsteps with
  | nil => exact h0
  | cons hlt hv hs _ ih => exact ih (hP _ _ _ h0 hlt hv hs)

/-- The invariant holds in every state reachable from an invariant state. -/
theorem reach_inv {args : DArgs} {s t : OState}
    (h : Inv args s) (hr : Reach args s t) : Inv args t := by
  obtain ⟨msgs, hsteps⟩ := hr
  exact stepsTo_ind (Inv args) (fun s m s' hP _ hv hs => step_inv hP hv hs) hsteps h

/-- A normally finished run is a producible message sequence. -/
theorem run_finished_stepsTo {args : DArgs} {s t : OState} {msgs : List Msg}
    (h : run args s msgs = RunOut.finished t) : ∃ pre, StepsTo args s pre t := by
  induction msgs generalizing s with
  | nil =>
    unfold run at h
    split at h
    · exact absurd h (by simp)
    · rw [RunOut.finished.injEq] at h
      exact ⟨[], h ▸ StepsTo.nil s⟩
  | cons m rest ih =>
    unfold run at h
    split at h
    case isTrue hlt =>
      split at h
      case isTrue hv =>
        cases hstep : step args s m with
        | cont s2 =>
          rw [hstep] at h
          obtain ⟨pre, hpre⟩ := ih h
          exact ⟨m :: pre, StepsTo.cons hlt hv hstep hpre⟩
        | abortRun => rw [hstep] at h; exact absurd h (by simp)
      case isFalse => exact absurd h (by simp)
    case isFalse hge =>
      rw [RunOut.finished.injEq] at h
      exact ⟨[], h ▸ StepsTo.nil s⟩

/-- A normally finished run ends with `done ≥ total` (the loop guard has
failed). -/
theorem run_finished_not_lt {args : DArgs} {s t : OState} {msgs : List Msg}
    (h : run args s msgs = RunOut.finished t) : ¬ t.done < t.total := by
  induction msgs generalizing s with
  | nil =>
    unfold run at h
    split at h
    · exact absurd h (by simp)
    · next hge => rw [RunOut.finished.injEq] at h; exact h ▸ hge
  | cons m rest ih =>
    unfold run at h
    split at h
    case isTrue hlt =>
      split at h
      case isTrue hv =>
        cases hstep : step args s m with
        | cont s2 => rw [hstep] at h; exact ih h
        | abortRun => rw [hstep] at h; exact absurd h (by simp)
      case isFalse => exact absurd h (by simp)
    case isFalse hge =>
      rw [RunOut.finished.injEq] at h
      exact h ▸ hge

/-- When the loop guard fails in an invariant state, all work is gone: the
partition is empty and nothing is in flight.  (`total - done` counts exactly
the remaining and in-flight items.) -/
theorem finished_state_empty {args : DArgs} {t : OState}
    (hInv : Inv args t) (hge : ¬ t.done < t.total) :
    t.dl.osu_and_bloodcat = ∅ ∧ t.dl.osu_only = ∅ ∧ t.dl.bloodcat_only = ∅ ∧
    t.osu_inflight = [] ∧ t.bloodcat_inflight = [] := by
  obtain ⟨-, -, -, -, -, -, -, -, -, -, -, -, -, hcount⟩ := hInv
  unfold DownloadList.size at hcount
  have h1 : t.dl.osu_and_bloodcat.card = 0 ∧ t.dl.osu_only.card = 0 ∧
      t.dl.bloodcat_only.card = 0 ∧ t.osu_inflight.length = 0 ∧
      t.bloodcat_inflight.length = 0 := by
    push_cast at hcount
    omega
  exact ⟨Finset.card_eq_zero.mp h1.1, Finset.card_eq_zero.mp h1.2.1,
    Finset.card_eq_zero.mp h1.2.2.1, List.length_eq_zero.mp h1.2.2.2.1,
    List.length_eq_zero.mp h1.2.2.2.2⟩

/-! ## Effect descriptions of the two `fill_queues` halves -/

theorem fill_osu_cases (args : DArgs) (s : OState) :
    fill_osu args s = s ∨
    ∃ x dl2, s.osu_busy = false ∧ s.dl.next_for_osu = (some x, dl2) ∧
      fill_osu args s =
        { s with dl := dl2, osu_busy := true,
                 osu_inflight := s.osu_inflight ++ [x],
                 sends := s.sends ++ [(Svc.osu, x, false)] } := by
  unfold fill_osu
  split
  case isTrue hguard =>
    simp only [Bool.and_eq_true, Bool.not_eq_true'] at hguard
    split
    case h_1 x dl2 hn => exact Or.inr ⟨x, dl2, hguard.2, hn, rfl⟩
    case h_2 => exact Or.inl rfl
  case isFalse => exact Or.inl rfl

theorem fill_bloodcat_cases (args : DArgs) (s : OState) :
    fill_bloodcat args s = s ∨
    ∃ x dl2, s.bloodcat_busy = false ∧ s.dl.next_for_bloodcat = (some x, dl2) ∧
      fill_bloodcat args s =
        { s with dl := dl2, bloodcat_busy := true,
                 bloodcat_inflight := s.bloodcat_inflight ++ [x],
                 sends := s.sends ++ [(Svc.bloodcat, x, false)] } := by
  unfold fill_bloodcat
  split
  case isTrue hguard =>
    simp only [Bool.and_eq_true, Bool.not_eq_true'] at hguard
    split
    case h_1 x dl2 hn => exact Or.inr ⟨x, dl2, hguard.2, hn, rfl⟩
    case h_2 => exact Or.inl rfl
  case isFalse => exact Or.inl rfl

theorem fill_osu_fields (args : DArgs) (s : OState) :
    (fill_osu args s).missing_on_osu = s.missing_on_osu ∧
    (fill_osu args s).missing_on_bloodcat = s.missing_on_bloodcat ∧
    (fill_osu args s).total = s.total ∧
    (fill_osu args s).done = s.done ∧
    (fill_osu args s).cooldown_active = s.cooldown_active ∧
    (fill_osu args s).dl.bloodcat_only = s.dl.bloodcat_only ∧
    (fill_osu args s).bloodcat_inflight = s.bloodcat_inflight ∧
    (fill_osu args s).bloodcat_busy = s.bloodcat_busy := by
  rcases fill_osu_cases args s with h | ⟨x, dl2, hb, hn, h⟩
  · rw [h]; exact ⟨rfl, rfl, rfl, rfl, rfl, rfl, rfl, rfl⟩
  · rw [h]
    rcases next_for_osu_some hn with ⟨_, hdl⟩ | ⟨_, _, hdl⟩ <;> subst hdl <;>
      exact ⟨rfl, rfl, rfl, rfl, rfl, rfl, rfl, rfl⟩

theorem fill_bloodcat_fields (args : DArgs) (s : OState) :
    (fill_bloodcat args s).missing_on_osu = s.missing_on_osu ∧
    (fill_bloodcat args s).missing_on_bloodcat = s.missing_on_bloodcat ∧
    (fill_bloodcat args s).total = s.total ∧
    (fill_bloodcat args s).done = s.done ∧
    (fill_bloodcat args s).cooldown_active = s.cooldown_active ∧
    (fill_bloodcat args s).dl.osu_only = s.dl.osu_only ∧
    (fill_bloodcat args s).osu_inflight = s.osu_inflight ∧
    (fill_bloodcat args s).osu_busy = s.osu_busy := by
  rcases fill_bloodcat_cases args s with h | ⟨x, dl2, hb, hn, h⟩
  · rw [h]; exact ⟨rfl, rfl, rfl, rfl, rfl, rfl, rfl, rfl⟩
  · rw [h]
    rcases next_for_bloodcat_some hn with ⟨_, hdl⟩ | ⟨_, _, hdl⟩ <;> subst hdl <;>
      exact ⟨rfl, rfl, rfl, rfl, rfl, rfl, rfl, rfl⟩

theorem fill_osu_sends (args : DArgs) (s : OState) :
    ∃ l, (fill_osu args s).sends = s.sends ++ l ∧
      ∀ e ∈ l, e.1 = Svc.osu ∧ e.2.2 = false ∧
        (e.2.1 ∈ s.dl.osu_only ∨ e.2.1 ∈ s.dl.osu_and_bloodcat) := by
  rcases fill_osu_cases args s with h | ⟨x, dl2, hb, hn, h⟩
  · exact ⟨[], by rw [h]; simp, by simp⟩
  · refine ⟨[(Svc.osu, x, false)], by rw [h], ?_⟩
    intro e he
    rw [List.mem_singleton] at he
    subst he
    rcases next_for_osu_some hn with ⟨hx, _⟩ | ⟨_, hx, _⟩
    · exact ⟨rfl, rfl, Or.inl hx⟩
    · exact ⟨rfl, rfl, Or.inr hx⟩

theorem fill_bloodcat_sends (args : DArgs) (s : OState) :
    ∃ l, (fill_bloodcat args s).sends = s.sends ++ l ∧
      ∀ e ∈ l, e.1 = Svc.bloodcat ∧ e.2.2 = false ∧
        (e.2.1 ∈ s.dl.bloodcat_only ∨ e.2.1 ∈ s.dl.osu_and_bloodcat) := by
  rcases fill_bloodcat_cases args s with h | ⟨x, dl2, hb, hn, h⟩
  · exact ⟨[], by rw [h]; simp, by simp⟩
  · refine ⟨[(Svc.bloodcat, x, false)], by rw [h], ?_⟩
    intro e he
    rw [List.mem_singleton] at he
    subst he
    rcases next_for_bloodcat_some hn with ⟨hx, _⟩ | ⟨_, hx, _⟩
    · exact ⟨rfl, rfl, Or.inl hx⟩
    · exact ⟨rfl, rfl, Or.inr hx⟩

/-- All IDs still in the partition, regardless of eligibility. -/
def dlSets (dl : DownloadList) : Finset String :=
  dl.osu_and_bloodcat ∪ dl.osu_only ∪ dl.bloodcat_only

theorem fill_osu_subset (args : DArgs) (s : OState) :
    (fill_osu args s).dl.osu_and_bloodcat ⊆ s.dl.osu_and_bloodcat := by
  rcases fill_osu_cases args s with h | ⟨x, dl2, hb, hn, h⟩
  · rw [h]
  · rw [h]
    rcases next_for_osu_some hn with ⟨_, hdl⟩ | ⟨_, _, hdl⟩ <;> subst hdl
    · exact subset_rfl
    · exact Finset.erase_subset _ _

theorem fill_osu_persist (args : DArgs) (t : OState) (id : String)
    (hid : id ∈ dlSets t.dl) :
    id ∈ dlSets (fill_osu args t).dl ∨
    ∃ e ∈ (fill_osu args t).sends.drop t.sends.length,
      e.2.1 = id ∧ e.2.2 = false := by
  rcases fill_osu_cases args t with h | ⟨x, dl2, hb, hn, h⟩
  · rw [h]; exact Or.inl hid
  · by_cases hxi : x = id
    · subst hxi
      right
      rw [h]
      refine ⟨(Svc.osu, x, false), ?_, rfl, rfl⟩
      rw [List.drop_left]
      exact List.mem_singleton.mpr rfl
    · left
      rw [h]
      have hxi' : id ≠ x := fun hh => hxi hh.symm
      rcases next_for_osu_some hn with ⟨_, hdl⟩ | ⟨_, _, hdl⟩ <;> subst hdl <;>
      · simp only [dlSets, Finset.mem_union, Finset.mem_erase] at hid ⊢
        tauto

theorem fill_bloodcat_persist (args : DArgs) (t : OState) (id : String)
    (hid : id ∈ dlSets t.dl) :
    id ∈ dlSets (fill_bloodcat args t).dl ∨
    ∃ e ∈ (fill_bloodcat args t).sends.drop t.sends.length,
      e.2.1 = id ∧ e.2.2 = false := by
  rcases fill_bloodcat_cases args t with h | ⟨x, dl2, hb, hn, h⟩
  · rw [h]; exact Or.inl hid
  · by_cases hxi : x = id
    · subst hxi
      right
      rw [h]
      refine ⟨(Svc.bloodcat, x, false), ?_, rfl, rfl⟩
      rw [List.drop_left]
      exact List.mem_singleton.mpr rfl
    · left
      rw [h]
      have hxi' : id ≠ x := fun hh => hxi hh.symm
      rcases next_for_bloodcat_some hn with ⟨_, hdl⟩ | ⟨_, _, hdl⟩ <;> subst hdl <;>
      · simp only [dlSets, Finset.mem_union, Finset.mem_erase] at hid ⊢
        tauto

theorem fill_queues_persist (args : DArgs) (t : OState) (id : String)
    (hid : id ∈ dlSets t.dl) :
    id ∈ dlSets (fill_queues args t).dl ∨
    ∃ e ∈ (fill_queues args t).sends.drop t.sends.length,
      e.2.1 = id ∧ e.2.2 = false := by
  obtain ⟨l1, hl1, -⟩ := fill_osu_sends args t
  obtain ⟨l2, hl2, -⟩ := fill_bloodcat_sends args (fill_osu args t)
  rcases fill_osu_persist args t id hid with h1 | ⟨e, he, hee⟩
  · rcases fill_bloodcat_persist args (fill_osu args t) id h1 with h2 | ⟨e, he, hee⟩
    · exact Or.inl h2
    · right
      refine ⟨e, ?_, hee⟩
      rw [hl2, List.drop_left] at he
      show e ∈ (fill_bloodcat args (fill_osu args t)).sends.drop t.sends.length
      rw [hl2, hl1, List.append_assoc, List.drop_left]
      exact List.mem_append.mpr (Or.inr he)
  · right
    refine ⟨e, ?_, hee⟩
    show e ∈ (fill_bloodcat args (fill_osu args t)).sends.drop t.sends.length
    rw [hl1] at he
    rw [List.drop_left] at he
    rw [hl2, hl1, List.append_assoc, List.drop_left]
    exact List.mem_append.mpr (Or.inl he)

theorem fill_queues_sends (args : DArgs) (t : OState) :
    ∃ l, (fill_queues args t).sends = t.sends ++ l ∧
      ∀ e ∈ l, e.2.2 = false ∧
        (e.1 = Svc.osu → (e.2.1 ∈ t.dl.osu_only ∨ e.2.1 ∈ t.dl.osu_and_bloodcat)) ∧
        (e.1 = Svc.bloodcat →
          (e.2.1 ∈ t.dl.bloodcat_only ∨ e.2.1 ∈ t.dl.osu_and_bloodcat)) := by
  obtain ⟨l1, hl1, he1⟩ := fill_osu_sends args t
  obtain ⟨l2, hl2, he2⟩ := fill_bloodcat_sends args (fill_osu args t)
  refine ⟨l1 ++ l2, ?_, ?_⟩
  · show (fill_bloodcat args (fill_osu args t)).sends = t.sends ++ (l1 ++ l2)
    rw [hl2, hl1, List.append_assoc]
  · intro e he
    rcases List.mem_append.mp he with he | he
    · obtain ⟨hsvc, hr, hmem⟩ := he1 e he
      refine ⟨hr, fun _ => hmem, fun hB => ?_⟩
      rw [hsvc] at hB
      exact absurd hB (by simp)
    · obtain ⟨hsvc, hr, hmem⟩ := he2 e he
      refine ⟨hr, fun hO => ?_, fun _ => ?_⟩
      · rw [hsvc] at hO
        exact absurd hO (by simp)
      · rcases hmem with hm | hm
        · exact Or.inl (by
            rw [(fill_osu_fields args t).2.2.2.2.2.1] at hm
            exact hm)
        · exact Or.inr (fill_osu_subset args t hm)

theorem fill_queues_fields (args : DArgs) (t : OState) :
    (fill_queues args t).missing_on_osu = t.missing_on_osu ∧
    (fill_queues args t).missing_on_bloodcat = t.missing_on_bloodcat ∧
    (fill_queues args t).total = t.total ∧
    (fill_queues args t).done = t.done ∧
    (fill_queues args t).cooldown_active = t.cooldown_active := by
  have h1 := fill_osu_fields args t
  have h2 := fill_bloodcat_fields args (fill_osu args t)
  exact ⟨h2.1.trans h1.1, h2.2.1.trans h1.2.1, h2.2.2.1.trans h1.2.2.1,
    h2.2.2.2.1.trans h1.2.2.2.1, h2.2.2.2.2.1.trans h1.2.2.2.2.1⟩

/-- Effect of a loop-body branch that ends in `fill_queues`, described
relative to the pre-step state `s`: the intermediate state `mid` has the
same send log and its partition sets only differ from those of `s` by
(possibly) the message's ID. -/
theorem fill_step_effects {args : DArgs} {s : OState} (mid : OState) (i : String)
    (hsends : mid.sends = s.sends)
    (hO : ∀ y ∈ mid.dl.osu_only, y ∈ s.dl.osu_only ∨ y = i)
    (hB : ∀ y ∈ mid.dl.osu_and_bloodcat, y ∈ s.dl.osu_and_bloodcat ∨ y = i)
    (hC : ∀ y ∈ mid.dl.bloodcat_only, y ∈ s.dl.bloodcat_only ∨ y = i)
    (hMo : s.missing_on_osu ⊆ mid.missing_on_osu)
    (hMb : s.missing_on_bloodcat ⊆ mid.missing_on_bloodcat)
    (hSup : dlSets s.dl ⊆ dlSets mid.dl) :
    (∃ l, (fill_queues args mid).sends = s.sends ++ l ∧ ∀ e ∈ l,
      (e.2.2 = true → e.2.1 = i) ∧
      (e.2.2 = false → e.1 = Svc.osu →
        (e.2.1 ∈ s.dl.osu_only ∨ e.2.1 ∈ s.dl.osu_and_bloodcat ∨ e.2.1 = i)) ∧
      (e.2.2 = false → e.1 = Svc.bloodcat →
        (e.2.1 ∈ s.dl.bloodcat_only ∨ e.2.1 ∈ s.dl.osu_and_bloodcat ∨ e.2.1 = i))) ∧
    s.missing_on_osu ⊆ (fill_queues args mid).missing_on_osu ∧
    s.missing_on_bloodcat ⊆ (fill_queues args mid).missing_on_bloodcat ∧
    ∀ id ∈ dlSets s.dl, id ∈ dlSets (fill_queues args mid).dl ∨
      ∃ e ∈ (fill_queues args mid).sends.drop s.sends.length,
        e.2.1 = id ∧ e.2.2 = false := by
  refine ⟨?_, ?_, ?_, ?_⟩
  · obtain ⟨l, hl, he⟩ := fill_queues_sends args mid
    refine ⟨l, by rw [hl, hsends], ?_⟩
    intro e hel
    obtain ⟨hr, hOsu, hBc⟩ := he e hel
    refine ⟨fun ht => absurd (ht.symm.trans hr) (by simp),
      fun _ hsvc => ?_, fun _ hsvc => ?_⟩
    · rcases hOsu hsvc with hm | hm
      · rcases hO _ hm with h' | h'
        · exact Or.inl h'
        · exact Or.inr (Or.inr h')
      · rcases hB _ hm with h' | h'
        · exact Or.inr (Or.inl h')
        · exact Or.inr (Or.inr h')
    · rcases hBc hsvc with hm | hm
      · rcases hC _ hm with h' | h'
        · exact Or.inl h'
        · exact Or.inr (Or.inr h')
      · rcases hB _ hm with h' | h'
        · exact Or.inr (Or.inl h')
        · exact Or.inr (Or.inr h')
  · rw [(fill_queues_fields args mid).1]; exact hMo
  · rw [(fill_queues_fields args mid).2.1]; exact hMb
  · intro id hid
    have h := fill_queues_persist args mid id (hSup hid)
    rw [hsends] at h
    exact h

/-- Effects of one loop iteration, relative to the pre-step state: the send
log is only appended to (retry entries carry the message's ID; dispatch
entries carry an ID from a partition set eligible for the sending service,
or the message's just-requeued ID); the missing-sets only grow; and an ID
leaves the partition only by being dispatched. -/
theorem step_effects {args : DArgs} {s s' : OState} {m : Msg}
    (hs : step args s m = StepOut.cont s') :
    (∃ l, s'.sends = s.sends ++ l ∧ ∀ e ∈ l,
      (e.2.2 = true → e.2.1 = m.set_id) ∧
      (e.2.2 = false → e.1 = Svc.osu →
        (e.2.1 ∈ s.dl.osu_only ∨ e.2.1 ∈ s.dl.osu_and_bloodcat ∨ e.2.1 = m.set_id)) ∧
      (e.2.2 = false → e.1 = Svc.bloodcat →
        (e.2.1 ∈ s.dl.bloodcat_only ∨ e.2.1 ∈ s.dl.osu_and_bloodcat ∨
          e.2.1 = m.set_id))) ∧
    s.missing_on_osu ⊆ s'.missing_on_osu ∧
    s.missing_on_bloodcat ⊆ s'.missing_on_bloodcat ∧
    ∀ id ∈ dlSets s.dl, id ∈ dlSets s'.dl ∨
      ∃ e ∈ s'.sends.drop s.sends.length, e.2.1 = id ∧ e.2.2 = false := by
  obtain ⟨w, i, err⟩ := m
  cases w with
  | timer =>
    cases err with
    | none =>
      rw [step_timer_eq] at hs
      rw [StepOut.cont.injEq] at hs
      subst hs
      exact fill_step_effects _ i rfl (fun y hy => Or.inl hy) (fun y hy => Or.inl hy)
        (fun y hy => Or.inl hy) subset_rfl subset_rfl subset_rfl
    | some e =>
      rw [step_timer_err_eq] at hs
      rw [StepOut.cont.injEq] at hs
      subst hs
      exact ⟨⟨[], by simp, by simp⟩, subset_rfl, subset_rfl,
        fun id hid => Or.inl hid⟩
  | osu =>
    cases err with
    | none =>
      rw [step_success_osu_eq] at hs
      rw [StepOut.cont.injEq] at hs
      subst hs
      exact fill_step_effects _ i rfl (fun y hy => Or.inl hy) (fun y hy => Or.inl hy)
        (fun y hy => Or.inl hy) subset_rfl subset_rfl subset_rfl
    | some e =>
      cases e with
      | mapsetUnavailable pm =>
        cases pm with
        | osu =>
          cases hc : (!args.use_bloodcat || decide (i ∈ s.missing_on_bloodcat)) with
          | true =>
            rw [step_unavail_osu_drop_eq args s i hc] at hs
            rw [StepOut.cont.injEq] at hs
            subst hs
            exact fill_step_effects _ i rfl (fun y hy => Or.inl hy)
              (fun y hy => Or.inl hy) (fun y hy => Or.inl hy)
              (Finset.subset_insert _ _) subset_rfl subset_rfl
          | false =>
            rw [step_unavail_osu_move_eq args s i hc] at hs
            rw [StepOut.cont.injEq] at hs
            subst hs
            refine fill_step_effects _ i rfl (fun y hy => Or.inl hy)
              (fun y hy => Or.inl hy) (fun y hy => (Finset.mem_insert.mp hy).symm)
              (Finset.subset_insert _ _) subset_rfl ?_
            intro z hz
            simp only [dlSets, Finset.mem_union, Finset.mem_insert] at hz ⊢
            tauto
        | bloodcat =>
          cases hlt : decide (s.osu_errors_in_a_row < args.max_errors_in_a_row) with
          | true =>
            rw [step_retry_osu_eq args s i _ (by simp) (by simp)
              (of_decide_eq_true hlt)] at hs
            rw [StepOut.cont.injEq] at hs
            subst hs
            refine ⟨⟨[(Svc.osu, i, true)], rfl, ?_⟩, subset_rfl, subset_rfl,
              fun id hid => Or.inl hid⟩
            intro e hel
            rw [List.mem_singleton] at hel
            subst hel
            exact ⟨fun _ => rfl, fun hf => absurd hf (by simp),
              fun hf => absurd hf (by simp)⟩
          | false =>
            rw [step_abort_osu_eq args s i _ (by simp) (by simp)
              (of_decide_eq_false hlt)] at hs
            exact StepOut.noConfusion hs
      | quotaExceeded =>
        cases hc : (args.use_bloodcat && !decide (i ∈ s.missing_on_bloodcat)) with
        | true =>
          rw [step_quota_both_eq args s i hc] at hs
          rw [StepOut.cont.injEq] at hs
          subst hs
          refine ⟨⟨[], by simp, by simp⟩, subset_rfl, subset_rfl, ?_⟩
          intro id hid
          left
          simp only [dlSets, Finset.mem_union, Finset.mem_insert] at hid ⊢
          tauto
        | false =>
          rw [step_quota_osu_only_eq args s i hc] at hs
          rw [StepOut.cont.injEq] at hs
          subst hs
          refine ⟨⟨[], by simp, by simp⟩, subset_rfl, subset_rfl, ?_⟩
          intro id hid
          left
          simp only [dlSets, Finset.mem_union, Finset.mem_insert] at hid ⊢
          tauto
      | otherError =>
        cases hlt : decide (s.osu_errors_in_a_row < args.max_errors_in_a_row) with
        | true =>
          rw [step_retry_osu_eq args s i _ (by simp) (by simp)
            (of_decide_eq_true hlt)] at hs
          rw [StepOut.cont.injEq] at hs
          subst hs
          refine ⟨⟨[(Svc.osu, i, true)], rfl, ?_⟩, subset_rfl, subset_rfl,
            fun id hid => Or.inl hid⟩
          intro e hel
          rw [List.mem_singleton] at hel
          subst hel
          exact ⟨fun _ => rfl, fun hf => absurd hf (by simp),
            fun hf => absurd hf (by simp)⟩
        | false =>
          rw [step_abort_osu_eq args s i _ (by simp) (by simp)
            (of_decide_eq_false hlt)] at hs
          exact StepOut.noConfusion hs
  | bloodcat =>
    cases err with
    | none =>
      rw [step_success_bloodcat_eq] at hs
      rw [StepOut.cont.injEq] at hs
      subst hs
      exact fill_step_effects _ i rfl (fun y hy => Or.inl hy) (fun y hy => Or.inl hy)
        (fun y hy => Or.inl hy) subset_rfl subset_rfl subset_rfl
    | some e =>
      cases e with
      | mapsetUnavailable pm =>
        cases pm with
        | bloodcat =>
          cases hc : (!args.use_osu || decide (i ∈ s.missing_on_osu)) with
          | true =>
            rw [step_unavail_bloodcat_drop_eq args s i hc] at hs
            rw [StepOut.cont.injEq] at hs
            subst hs
            exact fill_step_effects _ i rfl (fun y hy => Or.inl hy)
              (fun y hy => Or.inl hy) (fun y hy => Or.inl hy)
              subset_rfl (Finset.subset_insert _ _) subset_rfl
          | false =>
            rw [step_unavail_bloodcat_move_eq args s i hc] at hs
            rw [StepOut.cont.injEq] at hs
            subst hs
            refine fill_step_effects _ i rfl
              (fun y hy => (Finset.mem_insert.mp hy).symm)
              (fun y hy => Or.inl hy) (fun y hy => Or.inl hy)
              subset_rfl (Finset.subset_insert _ _) ?_
            intro z hz
            simp only [dlSets, Finset.mem_union, Finset.mem_insert] at hz ⊢
            tauto
        | osu =>
          cases hlt : decide (s.bloodcat_errors_in_a_row < args.max_errors_in_a_row) with
          | true =>
            rw [step_retry_bloodcat_eq args s i _ (by simp)
              (of_decide_eq_true hlt)] at hs
            rw [StepOut.cont.injEq] at hs
            subst hs
            refine ⟨⟨[(Svc.bloodcat, i, true)], rfl, ?_⟩, subset_rfl, subset_rfl,
              fun id hid => Or.inl hid⟩
            intro e hel
            rw [List.mem_singleton] at hel
            subst hel
            exact ⟨fun _ => rfl, fun hf => absurd hf (by simp),
              fun hf => absurd hf (by simp)⟩
          | false =>
            rw [step_abort_bloodcat_eq args s i _ (by simp)
              (of_decide_eq_false hlt)] at hs
            exact StepOut.noConfusion hs
      | quotaExceeded =>
        cases hlt : decide (s.bloodcat_errors_in_a_row < args.max_errors_in_a_row) with
        | true =>
          rw [step_retry_bloodcat_eq args s i _ (by simp)
            (of_decide_eq_true hlt)] at hs
          rw [StepOut.cont.injEq] at hs
          subst hs
          refine ⟨⟨[(Svc.bloodcat, i, true)], rfl, ?_⟩, subset_rfl, subset_rfl,
            fun id hid => Or.inl hid⟩
          intro e hel
          rw [List.mem_singleton] at hel
          subst hel
          exact ⟨fun _ => rfl, fun hf => absurd hf (by simp),
            fun hf => absurd hf (by simp)⟩
        | false =>
          rw [step_abort_bloodcat_eq args s i _ (by simp)
            (of_decide_eq_false hlt)] at hs
          exact StepOut.noConfusion hs
      | otherError =>
        cases hlt : decide (s.bloodcat_errors_in_a_row < args.max_errors_in_a_row) with
        | true =>
          rw [step_retry_bloodcat_eq args s i _ (by simp)
            (of_decide_eq_true hlt)] at hs
          rw [StepOut.cont.injEq] at hs
          subst hs
          refine ⟨⟨[(Svc.bloodcat, i, true)], rfl, ?_⟩, subset_rfl, subset_rfl,
            fun id hid => Or.inl hid⟩
          intro e hel
          rw [List.mem_singleton] at hel
          subst hel
          exact ⟨fun _ => rfl, fun hf => absurd hf (by simp),
            fun hf => absurd hf (by simp)⟩
        | false =>
          rw [step_abort_bloodcat_eq args s i _ (by simp)
            (of_decide_eq_false hlt)] at hs
          exact StepOut.noConfusion hs

/-! ## Tracking the dispatches of one ID -/

/-- The dispatch entries (queue `put`s that are not direct-retry
resubmissions) for the ID `i` logged after position `n0`. -/
def dIdx (n0 : Nat) (i : String) (t : OState) : List (Svc × String × Bool) :=
  (t.sends.drop n0).filter (fun e => e.2.1 == i && e.2.2 == false)

theorem dIdx_sends {n0 : Nat} {i : String} {t t' : OState}
    {l : List (Svc × String × Bool)}
    (h : t'.sends = t.sends ++ l) (hn0 : n0 ≤ t.sends.length) :
    dIdx n0 i t' =
      dIdx n0 i t ++ l.filter (fun e => e.2.1 == i && e.2.2 == false) := by
  unfold dIdx
  rw [h, List.drop_append_of_le_length hn0, List.filter_append]

theorem fill_osu_dlSets (args : DArgs) (s : OState) :
    dlSets (fill_osu args s).dl ⊆ dlSets s.dl := by
  rcases fill_osu_cases args s with h | ⟨x, dl2, hb, hn, h⟩
  · rw [h]
  · rw [h]
    rcases next_for_osu_some hn with ⟨_, hdl⟩ | ⟨_, _, hdl⟩ <;> subst hdl <;>
    · intro z hz
      simp only [dlSets, Finset.mem_union, Finset.mem_erase] at hz ⊢
      tauto

theorem fill_bloodcat_dlSets (args : DArgs) (s : OState) :
    dlSets (fill_bloodcat args s).dl ⊆ dlSets s.dl := by
  rcases fill_bloodcat_cases args s with h | ⟨x, dl2, hb, hn, h⟩
  · rw [h]
  · rw [h]
    rcases next_for_bloodcat_some hn with ⟨_, hdl⟩ | ⟨_, _, hdl⟩ <;> subst hdl <;>
    · intro z hz
      simp only [dlSets, Finset.mem_union, Finset.mem_erase] at hz ⊢
      tauto

/-- Tracking state of one ID `i` after it has been moved into
`bloodcat_only`: either it still waits there undispatched, or it is in
flight at bloodcat having been dispatched exactly once (to bloodcat), or it
has been resolved after that single dispatch. -/
def c4Arm (i : String) (n0 : Nat) (t : OState) : Prop :=
  (i ∈ t.dl.bloodcat_only ∧ i ∉ t.bloodcat_inflight ∧ dIdx n0 i t = []) ∨
  (i ∈ t.bloodcat_inflight ∧ dIdx n0 i t = [(Svc.bloodcat, i, false)]) ∨
  (i ∉ dlSets t.dl ∧ i ∉ t.bloodcat_inflight ∧
    dIdx n0 i t = [(Svc.bloodcat, i, false)])

/-- `fill_queues` preserves the tracking state: the only transition it can
make is dispatching the waiting ID, to bloodcat, exactly once. -/
theorem fill_arm (args : DArgs) (t : OState) (i : String) (n0 : Nat)
    (hnO : i ∉ t.dl.osu_only) (hnB : i ∉ t.dl.osu_and_bloodcat)
    (hbusyB : i ∈ t.bloodcat_inflight → t.bloodcat_busy = true)
    (hn0 : n0 ≤ t.sends.length)
    (harm : c4Arm i n0 t) :
    c4Arm i n0 (fill_queues args t) ∧
    n0 ≤ (fill_queues args t).sends.length := by
  obtain ⟨l1, hl1, he1⟩ := fill_osu_sends args t
  have hn1 : n0 ≤ (fill_osu args t).sends.length := by
    rw [hl1, List.length_append]
    omega
  have hfo := fill_osu_fields args t
  have harm1 : c4Arm i n0 (fill_osu args t) := by
    have hfilter : l1.filter (fun e => e.2.1 == i && e.2.2 == false) = [] := by
      cases hl : l1 with
      | nil => simp
      | cons a tl =>
        obtain ⟨hsvc, hr, hmem⟩ := he1 a (by rw [hl]; exact List.mem_cons_self a tl)
        have htl : tl = [] := by
          rcases fill_osu_cases args t with h | ⟨x, dl2, hb, hn, h⟩
          · rw [h] at hl1
            have : l1 = [] := by
              have := List.append_right_eq_self.mp hl1.symm
              exact this
            rw [hl] at this
            exact absurd this (by simp)
          · rw [h] at hl1
            have : l1 = [(Svc.osu, x, false)] := List.append_cancel_left hl1.symm
            rw [hl] at this
            simp only [List.cons.injEq] at this
            exact this.2
        subst htl
        have hai : a.2.1 ≠ i := by
          intro hcc
          rcases hmem with hm | hm
          · exact hnO (hcc ▸ hm)
          · exact hnB (hcc ▸ hm)
        have hbeq : (a.2.1 == i) = false := beq_eq_false_iff_ne.mpr hai
        simp [List.filter, hbeq]
    have hd : dIdx n0 i (fill_osu args t) = dIdx n0 i t := by
      rw [dIdx_sends hl1 hn0, hfilter, List.append_nil]
    rcases harm with ⟨h1, h2, h3⟩ | ⟨h1, h2⟩ | ⟨h1, h2, h3⟩
    · exact Or.inl ⟨by rw [hfo.2.2.2.2.2.1]; exact h1,
        by rw [hfo.2.2.2.2.2.2.1]; exact h2, by rw [hd]; exact h3⟩
    · exact Or.inr (Or.inl ⟨by rw [hfo.2.2.2.2.2.2.1]; exact h1,
        by rw [hd]; exact h2⟩)
    · exact Or.inr (Or.inr ⟨fun hc => h1 (fill_osu_dlSets args t hc),
        by rw [hfo.2.2.2.2.2.2.1]; exact h2, by rw [hd]; exact h3⟩)
  -- now the bloodcat half
  set u := fill_osu args t with hu
  have hbusyB1 : i ∈ u.bloodcat_inflight → u.bloodcat_busy = true := by
    rw [hfo.2.2.2.2.2.2.1, hfo.2.2.2.2.2.2.2]
    exact hbusyB
  have hgoal : c4Arm i n0 (fill_bloodcat args u) ∧
      n0 ≤ (fill_bloodcat args u).sends.length := by
    rcases fill_bloodcat_cases args u with h | ⟨x, dl2, hb, hn, h⟩
    · rw [h]
      exact ⟨harm1, hn1⟩
    · have hlen : n0 ≤ (fill_bloodcat args u).sends.length := by
        rw [h]
        simp only [List.length_append]
        omega
      refine ⟨?_, hlen⟩
      have hdx : dIdx n0 i (fill_bloodcat args u) = dIdx n0 i u ++
          ([(Svc.bloodcat, x, false)].filter
            (fun e => e.2.1 == i && e.2.2 == false)) := by
        apply dIdx_sends _ hn1
        rw [h]
      rcases harm1 with ⟨h1, h2, h3⟩ | ⟨h1, h2⟩ | ⟨h1, h2, h3⟩
      · -- i waiting in bloodcat_only
        by_cases hxi : x = i
        · subst hxi
          refine Or.inr (Or.inl ?_)
          constructor
          · rw [h]
            simp
          · rw [hdx, h3]
            simp
        · refine Or.inl ⟨?_, ?_, ?_⟩
          · rw [h]
            rcases next_for_bloodcat_some hn with ⟨_, hdl⟩ | ⟨_, _, hdl⟩ <;> subst hdl
            · exact Finset.mem_erase.mpr ⟨fun hc => hxi hc.symm, h1⟩
            · exact h1
          · rw [h]
            simp only [List.mem_append, List.mem_singleton]
            rintro (hc | rfl)
            · exact h2 hc
            · exact hxi rfl
          · rw [hdx, h3]
            have hbeq : (x == i) = false := beq_eq_false_iff_ne.mpr hxi
            simp [List.filter, hbeq]
      · -- i in flight at bloodcat: impossible, bloodcat is busy
        exact absurd (hbusyB1 h1) (by rw [hb]; simp)
      · -- i resolved
        have hxi : x ≠ i := by
          rintro rfl
          apply h1
          rcases next_for_bloodcat_some hn with ⟨hx, _⟩ | ⟨_, hx, _⟩
          · exact Finset.mem_union_right _ hx
          · exact Finset.mem_union_left _ (Finset.mem_union_left _ hx)
        refine Or.inr (Or.inr ⟨?_, ?_, ?_⟩)
        · intro hc
          apply h1
          rw [h] at hc
          revert hc
          rcases next_for_bloodcat_some hn with ⟨_, hdl⟩ | ⟨_, _, hdl⟩ <;> subst hdl <;>
          · intro hc
            simp only [dlSets, Finset.mem_union, Finset.mem_erase] at hc ⊢
            tauto
        · rw [h]
          simp only [List.mem_append, List.mem_singleton]
          rintro (hc | rfl)
          · exact h2 hc
          · exact hxi rfl
        · rw [hdx, h3]
          have hbeq : (x == i) = false := beq_eq_false_iff_ne.mpr hxi
          simp [List.filter, hbeq]
  exact hgoal

/-- Full tracking state for one ID `i` that has been recorded missing on osu
and moved to `bloodcat_only`, measured against the send-log position `n0`. -/
def c4Track (args : DArgs) (i : String) (n0 : Nat) (t : OState) : Prop :=
  Inv args t ∧ i ∈ t.missing_on_osu ∧ n0 ≤ t.sends.length ∧ c4Arm i n0 t

/-- One loop iteration preserves the tracking state of a moved ID. -/
theorem c4Track_step {args : DArgs} {i : String} {n0 : Nat} {t t' : OState}
    {m : Msg} (hP : c4Track args i n0 t)
    (hv : validMsg t m = true) (hs : step args t m = StepOut.cont t') :
    c4Track args i n0 t' := by
  obtain ⟨hInv, hmiO, hn0, harm⟩ := hP
  have hInv' : Inv args t' := step_inv hInv hv hs
  obtain ⟨hsl, hmono, -, -⟩ := step_effects hs
  obtain ⟨l, hl, -⟩ := hsl
  have hmiO' : i ∈ t'.missing_on_osu := hmono hmiO
  have hn0' : n0 ≤ t'.sends.length := by
    rw [hl, List.length_append]
    omega
  refine ⟨hInv', hmiO', hn0', ?_⟩
  obtain ⟨hdisj, hlen1, hlen2, hbusyO, hcd, hbusyB, hinfO, hinfB, hdist,
    hmissO, hmissB, huseO, huseB, hcount⟩ := hInv
  have hnO : i ∉ t.dl.osu_only := (hmissO i hmiO).1
  have hnB : i ∉ t.dl.osu_and_bloodcat := (hmissO i hmiO).2.1
  have hniO : i ∉ t.osu_inflight := (hmissO i hmiO).2.2
  have hbusyBf : i ∈ t.bloodcat_inflight → t.bloodcat_busy = true := by
    cases hb : t.bloodcat_busy with
    | false => intro hcc; rw [hbusyB hb] at hcc; exact absurd hcc (by simp)
    | true => intro _; rfl
  obtain ⟨w, j, err⟩ := m
  cases w with
  | timer =>
    unfold validMsg at hv
    simp only [Bool.and_eq_true, beq_iff_eq, decide_eq_true_eq] at hv
    obtain ⟨⟨-, -⟩, herr⟩ := hv
    subst herr
    rw [step_timer_eq] at hs
    rw [StepOut.cont.injEq] at hs
    subst hs
    refine (fill_arm args _ i n0 ?_ ?_ ?_ ?_ ?_).1
    · exact hnO
    · exact hnB
    · exact hbusyBf
    · exact hn0
    · exact harm
  | osu =>
    unfold validMsg at hv
    simp only [beq_iff_eq] at hv
    have hji : j ≠ i := by
      rintro rfl
      exact hniO (by rw [hv]; exact List.mem_singleton.mpr rfl)
    cases err with
    | none =>
      rw [step_success_osu_eq] at hs
      rw [StepOut.cont.injEq] at hs
      subst hs
      refine (fill_arm args _ i n0 ?_ ?_ ?_ ?_ ?_).1
      · exact hnO
      · exact hnB
      · exact hbusyBf
      · exact hn0
      · exact harm
    | some e =>
      have harmRetry : c4Arm i n0
          { t with osu_errors_in_a_row := t.osu_errors_in_a_row + 1,
                   osu_inflight := t.osu_inflight.erase j ++ [j],
                   sends := t.sends ++ [(Svc.osu, j, true)] } := by
        have hd : dIdx n0 i
            { t with osu_errors_in_a_row := t.osu_errors_in_a_row + 1,
                     osu_inflight := t.osu_inflight.erase j ++ [j],
                     sends := t.sends ++ [(Svc.osu, j, true)] } = dIdx n0 i t := by
          rw [dIdx_sends rfl hn0]
          simp [List.filter]
        rcases harm with ⟨h1, h2, h3⟩ | ⟨h1, h2⟩ | ⟨h1, h2, h3⟩
        · exact Or.inl ⟨h1, h2, by rw [hd]; exact h3⟩
        · exact Or.inr (Or.inl ⟨h1, by rw [hd]; exact h2⟩)
        · exact Or.inr (Or.inr ⟨h1, h2, by rw [hd]; exact h3⟩)
      cases e with
      | mapsetUnavailable pm =>
        cases pm with
        | osu =>
          cases hc : (!args.use_bloodcat || decide (j ∈ t.missing_on_bloodcat)) with
          | true =>
            rw [step_unavail_osu_drop_eq args t j hc] at hs
            rw [StepOut.cont.injEq] at hs
            subst hs
            refine (fill_arm args _ i n0 ?_ ?_ ?_ ?_ ?_).1
            · exact hnO
            · exact hnB
            · exact hbusyBf
            · exact hn0
            · exact harm
          | false =>
            rw [step_unavail_osu_move_eq args t j hc] at hs
            rw [StepOut.cont.injEq] at hs
            subst hs
            have harm2 : c4Arm i n0
                { t with missing_on_osu := insert j t.missing_on_osu,
                         osu_inflight := t.osu_inflight.erase j,
                         dl := { t.dl with
                           bloodcat_only := insert j t.dl.bloodcat_only },
                         osu_busy := false } := by
              rcases harm with ⟨h1, h2, h3⟩ | ⟨h1, h2⟩ | ⟨h1, h2, h3⟩
              · exact Or.inl ⟨Finset.mem_insert_of_mem h1, h2, h3⟩
              · exact Or.inr (Or.inl ⟨h1, h2⟩)
              · refine Or.inr (Or.inr ⟨?_, h2, h3⟩)
                intro hcz
                apply h1
                simp only [dlSets, Finset.mem_union, Finset.mem_insert] at hcz ⊢
                rcases hcz with (hz | hz) | (rfl | hz)
                · exact Or.inl (Or.inl hz)
                · exact Or.inl (Or.inr hz)
                · exact absurd rfl hji
                · exact Or.inr hz
            refine (fill_arm args _ i n0 ?_ ?_ ?_ ?_ ?_).1
            · exact hnO
            · exact hnB
            · exact hbusyBf
            · exact hn0
            · exact harm2
        | bloodcat =>
          cases hlt : decide (t.osu_errors_in_a_row < args.max_errors_in_a_row) with
          | true =>
            rw [step_retry_osu_eq args t j _ (by simp) (by simp)
              (of_decide_eq_true hlt)] at hs
            rw [StepOut.cont.injEq] at hs
            subst hs
            exact harmRetry
          | false =>
            rw [step_abort_osu_eq args t j _ (by simp) (by simp)
              (of_decide_eq_false hlt)] at hs
            exact StepOut.noConfusion hs
      | quotaExceeded =>
        cases hc : (args.use_bloodcat && !decide (j ∈ t.missing_on_bloodcat)) with
        | true =>
          rw [step_quota_both_eq args t j hc] at hs
          rw [StepOut.cont.injEq] at hs
          subst hs
          rcases harm with ⟨h1, h2, h3⟩ | ⟨h1, h2⟩ | ⟨h1, h2, h3⟩
          · exact Or.inl ⟨h1, h2, h3⟩
          · exact Or.inr (Or.inl ⟨h1, h2⟩)
          · refine Or.inr (Or.inr ⟨?_, h2, h3⟩)
            intro hcz
            apply h1
            simp only [dlSets, Finset.mem_union, Finset.mem_insert] at hcz ⊢
            rcases hcz with ((rfl | hz) | hz) | hz
            · exact absurd rfl hji
            · exact Or.inl (Or.inl hz)
            · exact Or.inl (Or.inr hz)
            · exact Or.inr hz
        | false =>
          rw [step_quota_osu_only_eq args t j hc] at hs
          rw [StepOut.cont.injEq] at hs
          subst hs
          rcases harm with ⟨h1, h2, h3⟩ | ⟨h1, h2⟩ | ⟨h1, h2, h3⟩
          · exact Or.inl ⟨h1, h2, h3⟩
          · exact Or.inr (Or.inl ⟨h1, h2⟩)
          · refine Or.inr (Or.inr ⟨?_, h2, h3⟩)
            intro hcz
            apply h1
            simp only [dlSets, Finset.mem_union, Finset.mem_insert] at hcz ⊢
            rcases hcz with (hz | (rfl | hz)) | hz
            · exact Or.inl (Or.inl hz)
            · exact absurd rfl hji
            · exact Or.inl (Or.inr hz)
            · exact Or.inr hz
      | otherError =>
        cases hlt : decide (t.osu_errors_in_a_row < args.max_errors_in_a_row) with
        | true =>
          rw [step_retry_osu_eq args t j _ (by simp) (by simp)
            (of_decide_eq_true hlt)] at hs
          rw [StepOut.cont.injEq] at hs
          subst hs
          exact harmRetry
        | false =>
          rw [step_abort_osu_eq args t j _ (by simp) (by simp)
            (of_decide_eq_false hlt)] at hs
          exact StepOut.noConfusion hs
  | bloodcat =>
    unfold validMsg at hv
    simp only [beq_iff_eq] at hv
    by_cases hji : j = i
    · -- the consumed outcome is for the tracked ID itself
      subst hji
      have hjin : j ∈ t.bloodcat_inflight := by
        rw [hv]; exact List.mem_singleton.mpr rfl
      have hB : j ∈ t.bloodcat_inflight ∧
          dIdx n0 j t = [(Svc.bloodcat, j, false)] := by
        rcases harm with ⟨-, h2, -⟩ | ⟨h1, h2⟩ | ⟨-, h2, -⟩
        · exact absurd hjin h2
        · exact ⟨h1, h2⟩
        · exact absurd hjin h2
      have hjsets := hinfB j hjin
      have herase : t.bloodcat_inflight.erase j = [] := by rw [hv]; simp
      have hnO2 : j ∉ t.dl.osu_only := hjsets.2.1
      have hnB2 : j ∉ t.dl.osu_and_bloodcat := hjsets.1
      have hmidArmC : ∀ mid : OState,
          mid.dl.osu_and_bloodcat = t.dl.osu_and_bloodcat →
          mid.dl.osu_only = t.dl.osu_only →
          mid.dl.bloodcat_only = t.dl.bloodcat_only →
          mid.bloodcat_inflight = t.bloodcat_inflight.erase j →
          mid.sends = t.sends →
          c4Arm j n0 mid := by
        intro mid e1 e2 e3 e4 e5
        refine Or.inr (Or.inr ⟨?_, ?_, ?_⟩)
        · intro hcz
          simp only [dlSets, Finset.mem_union, e1, e2, e3] at hcz
          rcases hcz with (hz | hz) | hz
          · exact hjsets.1 hz
          · exact hjsets.2.1 hz
          · exact hjsets.2.2 hz
        · rw [e4, herase]
          exact List.not_mem_nil j
        · show (mid.sends.drop n0).filter _ = _
          rw [e5]
          exact hB.2
      cases err with
      | none =>
        rw [step_success_bloodcat_eq] at hs
        rw [StepOut.cont.injEq] at hs
        subst hs
        refine (fill_arm args _ j n0 ?_ ?_ ?_ ?_ ?_).1
        · exact hnO2
        · exact hnB2
        · intro hcc
          have hnn : j ∉ t.bloodcat_inflight.erase j := by
            rw [herase]; exact List.not_mem_nil j
          exact absurd hcc hnn
        · exact hn0
        · exact hmidArmC _ rfl rfl rfl rfl rfl
      | some e =>
        have harmRetryB : c4Arm j n0
            { t with bloodcat_errors_in_a_row := t.bloodcat_errors_in_a_row + 1,
                     bloodcat_inflight := t.bloodcat_inflight.erase j ++ [j],
                     sends := t.sends ++ [(Svc.bloodcat, j, true)] } := by
          refine Or.inr (Or.inl ⟨?_, ?_⟩)
          · rw [herase]
            exact List.mem_singleton.mpr rfl
          · rw [dIdx_sends rfl hn0]
            have : dIdx n0 j t = [(Svc.bloodcat, j, false)] := hB.2
            rw [this]
            simp [List.filter]
        cases e with
        | mapsetUnavailable pm =>
          cases pm with
          | bloodcat =>
            have hc : (!args.use_osu || decide (j ∈ t.missing_on_osu)) = true := by
              simp [hmiO]
            rw [step_unavail_bloodcat_drop_eq args t j hc] at hs
            rw [StepOut.cont.injEq] at hs
            subst hs
            refine (fill_arm args _ j n0 ?_ ?_ ?_ ?_ ?_).1
            · exact hnO2
            · exact hnB2
            · intro hcc
              have hnn : j ∉ t.bloodcat_inflight.erase j := by
                rw [herase]; exact List.not_mem_nil j
              exact absurd hcc hnn
            · exact hn0
            · exact hmidArmC _ rfl rfl rfl rfl rfl
          | osu =>
            cases hlt : decide (t.bloodcat_errors_in_a_row < args.max_errors_in_a_row) with
            | true =>
              rw [step_retry_bloodcat_eq args t j _ (by simp)
                (of_decide_eq_true hlt)] at hs
              rw [StepOut.cont.injEq] at hs
              subst hs
              exact harmRetryB
            | false =>
              rw [step_abort_bloodcat_eq args t j _ (by simp)
                (of_decide_eq_false hlt)] at hs
              exact StepOut.noConfusion hs
        | quotaExceeded =>
          cases hlt : decide (t.bloodcat_errors_in_a_row < args.max_errors_in_a_row) with
          | true =>
            rw [step_retry_bloodcat_eq args t j _ (by simp)
              (of_decide_eq_true hlt)] at hs
            rw [StepOut.cont.injEq] at hs
            subst hs
            exact harmRetryB
          | false =>
            rw [step_abort_bloodcat_eq args t j _ (by simp)
              (of_decide_eq_false hlt)] at hs
            exact StepOut.noConfusion hs
        | otherError =>
          cases hlt : decide (t.bloodcat_errors_in_a_row < args.max_errors_in_a_row) with
          | true =>
            rw [step_retry_bloodcat_eq args t j _ (by simp)
              (of_decide_eq_true hlt)] at hs
            rw [StepOut.cont.injEq] at hs
            subst hs
            exact harmRetryB
          | false =>
            rw [step_abort_bloodcat_eq args t j _ (by simp)
              (of_decide_eq_false hlt)] at hs
            exact StepOut.noConfusion hs
    · -- the outcome is for a different ID
      have hij : i ≠ j := fun hh => hji hh.symm
      have hAC : (i ∈ t.dl.bloodcat_only ∧ i ∉ t.bloodcat_inflight ∧
          dIdx n0 i t = []) ∨
          (i ∉ dlSets t.dl ∧ i ∉ t.bloodcat_inflight ∧
            dIdx n0 i t = [(Svc.bloodcat, i, false)]) := by
        rcases harm with h | ⟨h1, h2⟩ | h
        · exact Or.inl h
        · rw [hv] at h1
          exact absurd (List.mem_singleton.mp h1) hij
        · exact Or.inr h
      have heraseMem : i ∉ t.bloodcat_inflight.erase j := fun hcc =>
        (hAC.elim (fun h => h.2.1) (fun h => h.2.1)) (List.mem_of_mem_erase hcc)
      have harmMid : ∀ mid : OState,
          mid.dl.osu_and_bloodcat = t.dl.osu_and_bloodcat →
          mid.dl.osu_only = t.dl.osu_only →
          mid.dl.bloodcat_only = t.dl.bloodcat_only →
          mid.bloodcat_inflight = t.bloodcat_inflight.erase j →
          mid.sends = t.sends →
          c4Arm i n0 mid := by
        intro mid e1 e2 e3 e4 e5
        rcases hAC with ⟨h1, h2, h3⟩ | ⟨h1, h2, h3⟩
        · refine Or.inl ⟨by rw [e3]; exact h1, by rw [e4]; exact heraseMem, ?_⟩
          show (mid.sends.drop n0).filter _ = _
          rw [e5]; exact h3
        · refine Or.inr (Or.inr ⟨?_, by rw [e4]; exact heraseMem, ?_⟩)
          · intro hcz
            apply h1
            simp only [dlSets, Finset.mem_union, e1, e2, e3] at hcz ⊢
            exact hcz
          · show (mid.sends.drop n0).filter _ = _
            rw [e5]; exact h3
      have hbusyMid : ∀ mid : OState,
          mid.bloodcat_inflight = t.bloodcat_inflight.erase j →
          (i ∈ mid.bloodcat_inflight → mid.bloodcat_busy = true) := by
        intro mid e4 hcc
        rw [e4] at hcc
        exact absurd hcc heraseMem
      cases err with
      | none =>
        rw [step_success_bloodcat_eq] at hs
        rw [StepOut.cont.injEq] at hs
        subst hs
        refine (fill_arm args _ i n0 ?_ ?_ ?_ ?_ ?_).1
        · exact hnO
        · exact hnB
        · intro hcc
          exact absurd hcc heraseMem
        · exact hn0
        · exact harmMid _ rfl rfl rfl rfl rfl
      | some e =>
        have harmRetryB2 : c4Arm i n0
            { t with bloodcat_errors_in_a_row := t.bloodcat_errors_in_a_row + 1,
                     bloodcat_inflight := t.bloodcat_inflight.erase j ++ [j],
                     sends := t.sends ++ [(Svc.bloodcat, j, true)] } := by
          have hd : dIdx n0 i
              { t with bloodcat_errors_in_a_row := t.bloodcat_errors_in_a_row + 1,
                       bloodcat_inflight := t.bloodcat_inflight.erase j ++ [j],
                       sends := t.sends ++ [(Svc.bloodcat, j, true)] } =
              dIdx n0 i t := by
            rw [dIdx_sends rfl hn0]
            simp [List.filter]
          have hmem : i ∉ t.bloodcat_inflight.erase j ++ [j] := by
            simp only [List.mem_append, List.mem_singleton]
            rintro (hcc | rfl)
            · exact heraseMem hcc
            · exact hji rfl
          rcases hAC with ⟨h1, h2, h3⟩ | ⟨h1, h2, h3⟩
          · exact Or.inl ⟨h1, hmem, by rw [hd]; exact h3⟩
          · exact Or.inr (Or.inr ⟨h1, hmem, by rw [hd]; exact h3⟩)
        cases e with
        | mapsetUnavailable pm =>
          cases pm with
          | bloodcat =>
            cases hc : (!args.use_osu || decide (j ∈ t.missing_on_osu)) with
            | true =>
              rw [step_unavail_bloodcat_drop_eq args t j hc] at hs
              rw [StepOut.cont.injEq] at hs
              subst hs
              refine (fill_arm args _ i n0 ?_ ?_ ?_ ?_ ?_).1
              · exact hnO
              · exact hnB
              · intro hcc
                exact absurd hcc heraseMem
              · exact hn0
              · exact harmMid _ rfl rfl rfl rfl rfl
            | false =>
              rw [step_unavail_bloodcat_move_eq args t j hc] at hs
              rw [StepOut.cont.injEq] at hs
              subst hs
              have hnO3 : i ∉ insert j t.dl.osu_only := by
                intro hcc
                rcases Finset.mem_insert.mp hcc with rfl | hz
                · exact hij rfl
                · exact hnO hz
              have harmMid2 : c4Arm i n0
                  { t with missing_on_bloodcat := insert j t.missing_on_bloodcat,
                           bloodcat_inflight := t.bloodcat_inflight.erase j,
                           dl := { t.dl with osu_only := insert j t.dl.osu_only },
                           bloodcat_busy := false } := by
                rcases hAC with ⟨h1, h2, h3⟩ | ⟨h1, h2, h3⟩
                · exact Or.inl ⟨h1, heraseMem, h3⟩
                · refine Or.inr (Or.inr ⟨?_, heraseMem, h3⟩)
                  intro hcz
                  apply h1
                  simp only [dlSets, Finset.mem_union, Finset.mem_insert] at hcz ⊢
                  rcases hcz with (hz | (rfl | hz)) | hz
                  · exact Or.inl (Or.inl hz)
                  · exact absurd rfl hij
                  · exact Or.inl (Or.inr hz)
                  · exact Or.inr hz
              refine (fill_arm args _ i n0 ?_ ?_ ?_ ?_ ?_).1
              · exact hnO3
              · exact hnB
              · intro hcc
                exact absurd hcc heraseMem
              · exact hn0
              · exact harmMid2
          | osu =>
            cases hlt : decide (t.bloodcat_errors_in_a_row < args.max_errors_in_a_row) with
            | true =>
              rw [step_retry_bloodcat_eq args t j _ (by simp)
                (of_decide_eq_true hlt)] at hs
              rw [StepOut.cont.injEq] at hs
              subst hs
              exact harmRetryB2
            | false =>
              rw [step_abort_bloodcat_eq args t j _ (by simp)
                (of_decide_eq_false hlt)] at hs
              exact StepOut.noConfusion hs
        | quotaExceeded =>
          cases hlt : decide (t.bloodcat_errors_in_a_row < args.max_errors_in_a_row) with
          | true =>
            rw [step_retry_bloodcat_eq args t j _ (by simp)
              (of_decide_eq_true hlt)] at hs
            rw [StepOut.cont.injEq] at hs
            subst hs
            exact harmRetryB2
          | false =>
            rw [step_abort_bloodcat_eq args t j _ (by simp)
              (of_decide_eq_false hlt)] at hs
            exact StepOut.noConfusion hs
        | otherError =>
          cases hlt : decide (t.bloodcat_errors_in_a_row < args.max_errors_in_a_row) with
          | true =>
            rw [step_retry_bloodcat_eq args t j _ (by simp)
              (of_decide_eq_true hlt)] at hs
            rw [StepOut.cont.injEq] at hs
            subst hs
            exact harmRetryB2
          | false =>
            rw [step_abort_bloodcat_eq args t j _ (by simp)
              (of_decide_eq_false hlt)] at hs
            exact StepOut.noConfusion hs

theorem fill_osu_busy_noop {args : DArgs} {s : OState} (hb : s.osu_busy = true) :
    fill_osu args s = s := by
  unfold fill_osu
  rw [hb]
  simp

theorem fill_bloodcat_busy_noop {args : DArgs} {s : OState}
    (hb : s.bloodcat_busy = true) : fill_bloodcat args s = s := by
  unfold fill_bloodcat
  rw [hb]
  simp

/-- Tracking state of an ID that has been reported unavailable on both
services: it stays recorded missing on both, and no message for it is ever
sent to any worker inbox after position `n0`. -/
def c4Gone (args : DArgs) (i : String) (n0 : Nat) (t : OState) : Prop :=
  Inv args t ∧ i ∈ t.missing_on_osu ∧ i ∈ t.missing_on_bloodcat ∧
  n0 ≤ t.sends.length ∧ ∀ e ∈ t.sends.drop n0, e.2.1 ≠ i

/-- One loop iteration preserves the gone state of a doubly-missing ID. -/
theorem c4Gone_step {args : DArgs} {i : String} {n0 : Nat} {t t' : OState}
    {m : Msg} (hP : c4Gone args i n0 t)
    (hv : validMsg t m = true) (hs : step args t m = StepOut.cont t') :
    c4Gone args i n0 t' := by
  obtain ⟨hInv, hmiO, hmiB, hn0, hfree⟩ := hP
  have hInv' : Inv args t' := step_inv hInv hv hs
  obtain ⟨hdisj, hlen1, hlen2, hbusyO, hcd, hbusyB, hinfO, hinfB, hdist,
    hmissO, hmissB, huseO, huseB, hcount⟩ := hInv
  have hnO : i ∉ t.dl.osu_only := (hmissO i hmiO).1
  have hnB : i ∉ t.dl.osu_and_bloodcat := (hmissO i hmiO).2.1
  have hnC : i ∉ t.dl.bloodcat_only := (hmissB i hmiB).1
  obtain ⟨⟨l, hl, hchar⟩, hmonoO, hmonoB, -⟩ := step_effects hs
  have hn0' : n0 ≤ t'.sends.length := by
    rw [hl, List.length_append]
    omega
  refine ⟨hInv', hmonoO hmiO, hmonoB hmiB, hn0', ?_⟩
  intro e he
  rw [hl, List.drop_append_of_le_length hn0] at he
  rcases List.mem_append.mp he with he | he
  · exact hfree e he
  · -- a freshly appended entry; its ID cannot be `i`
    obtain ⟨w, j, err⟩ := m
    have hgen : j ≠ i → e.2.1 ≠ i := by
      intro hji hcc
      obtain ⟨hretry, hO, hB⟩ := hchar e he
      cases hr : e.2.2 with
      | true => exact hji ((hretry hr).symm.trans hcc)
      | false =>
        cases hsvc : e.1 with
        | osu =>
          rcases hO hr hsvc with hz | hz | hz
          · exact hnO (hcc ▸ hz)
          · exact hnB (hcc ▸ hz)
          · exact hji (hz.symm.trans hcc)
        | bloodcat =>
          rcases hB hr hsvc with hz | hz | hz
          · exact hnC (hcc ▸ hz)
          · exact hnB (hcc ▸ hz)
          · exact hji (hz.symm.trans hcc)
    cases w with
    | timer =>
      cases err with
      | none =>
        rw [step_timer_eq] at hs
        rw [StepOut.cont.injEq] at hs
        subst hs
        obtain ⟨l2, hl2, hchar2⟩ := fill_queues_sends args
          { t with osu_busy := false, cooldown_active := false }
        have hll : l = l2 := List.append_cancel_left
          (show t.sends ++ l = t.sends ++ l2 from hl.symm.trans hl2)
        subst hll
        obtain ⟨-, hO2, hB2⟩ := hchar2 e he
        intro hcc
        cases hsvc : e.1 with
        | osu =>
          rcases hO2 hsvc with hz | hz
          · exact hnO (show i ∈ t.dl.osu_only from hcc ▸ hz)
          · exact hnB (show i ∈ t.dl.osu_and_bloodcat from hcc ▸ hz)
        | bloodcat =>
          rcases hB2 hsvc with hz | hz
          · exact hnC (show i ∈ t.dl.bloodcat_only from hcc ▸ hz)
          · exact hnB (show i ∈ t.dl.osu_and_bloodcat from hcc ▸ hz)
      | some ex =>
        rw [step_timer_err_eq] at hs
        rw [StepOut.cont.injEq] at hs
        subst hs
        have hnil : l = [] := List.append_right_eq_self.mp hl.symm
        subst hnil
        exact absurd he (List.not_mem_nil e)
    | osu =>
      apply hgen
      unfold validMsg at hv
      simp only [beq_iff_eq] at hv
      rintro rfl
      exact (hmissO j hmiO).2.2 (by rw [hv]; exact List.mem_singleton.mpr rfl)
    | bloodcat =>
      apply hgen
      unfold validMsg at hv
      simp only [beq_iff_eq] at hv
      rintro rfl
      exact (hmissB j hmiB).2.2 (by rw [hv]; exact List.mem_singleton.mpr rfl)

/-- Persistence of an undispatched ID: an ID in the partition stays in the
partition until a dispatch entry for it is appended to the send log. -/
def c3Persist (args : DArgs) (i : String) (n0 : Nat) (t : OState) : Prop :=
  Inv args t ∧ n0 ≤ t.sends.length ∧
  (i ∈ dlSets t.dl ∨ ∃ e ∈ t.sends.drop n0, e.2.1 = i ∧ e.2.2 = false)

theorem c3Persist_step {args : DArgs} {i : String} {n0 : Nat} {t t' : OState}
    {m : Msg} (hP : c3Persist args i n0 t)
    (hv : validMsg t m = true) (hs : step args t m = StepOut.cont t') :
    c3Persist args i n0 t' := by
  obtain ⟨hInv, hn0, hdisp⟩ := hP
  have hInv' : Inv args t' := step_inv hInv hv hs
  obtain ⟨⟨l, hl, -⟩, -, -, hpersist⟩ := step_effects hs
  have hn0' : n0 ≤ t'.sends.length := by
    rw [hl, List.length_append]
    omega
  refine ⟨hInv', hn0', ?_⟩
  rcases hdisp with hdl | ⟨e, he, hee⟩
  · rcases hpersist i hdl with h | ⟨e, he, hee⟩
    · exact Or.inl h
    · refine Or.inr ⟨e, ?_, hee⟩
      have hsub : t'.sends.drop t.sends.length ⊆ t'.sends.drop n0 := by
        intro z hz
        have h1 : t'.sends.drop t.sends.length =
            (t'.sends.drop n0).drop (t.sends.length - n0) := by
          rw [List.drop_drop]
          congr 1
          omega
        rw [h1] at hz
        exact List.drop_subset _ _ hz
      exact hsub he
  · refine Or.inr ⟨e, ?_, hee⟩
    rw [hl, List.drop_append_of_le_length hn0]
    exact List.mem_append.mpr (Or.inl he)

/-- While the cooldown timer is pending, a step on any non-timer message
keeps it pending and sends nothing to the osu inbox. -/
theorem cooldown_freeze_step {args : DArgs} {t t' : OState} {m : Msg}
    (hInv : Inv args t) (hcda : t.cooldown_active = true)
    (hw : m.worker ≠ WTag.timer)
    (hv : validMsg t m = true) (hs : step args t m = StepOut.cont t') :
    t'.cooldown_active = true ∧
    ∃ l, t'.sends = t.sends ++ l ∧ ∀ e ∈ l, e.1 = Svc.bloodcat := by
  obtain ⟨hdisj, hlen1, hlen2, hbusyO, hcd, hbusyB, hinfO, hinfB, hdist,
    hmissO, hmissB, huseO, huseB, hcount⟩ := hInv
  have hbusy : t.osu_busy = true := by
    cases hb : t.osu_busy with
    | false => exact absurd hcda (by rw [(hbusyO hb).2]; simp)
    | true => rfl
  obtain ⟨w, j, err⟩ := m
  cases w with
  | timer => exact absurd rfl hw
  | osu =>
    unfold validMsg at hv
    simp only [beq_iff_eq] at hv
    rw [hcd hcda] at hv
    exact absurd hv.symm (by simp)
  | bloodcat =>
    unfold validMsg at hv
    simp only [beq_iff_eq] at hv
    have hmidfill : ∀ mid : OState, mid.osu_busy = true →
        mid.cooldown_active = true →
        (fill_queues args mid).cooldown_active = true ∧
        ∃ l, (fill_queues args mid).sends = mid.sends ++ l ∧
          ∀ e ∈ l, e.1 = Svc.bloodcat := by
      intro mid hmb hmc
      have hfo : fill_osu args mid = mid := fill_osu_busy_noop hmb
      constructor
      · rw [(fill_queues_fields args mid).2.2.2.2]
        exact hmc
      · obtain ⟨l2, hl2, he2⟩ := fill_bloodcat_sends args (fill_osu args mid)
        rw [hfo] at hl2 he2
        refine ⟨l2, ?_, fun e he => (he2 e he).1⟩
        show (fill_bloodcat args (fill_osu args mid)).sends = mid.sends ++ l2
        rw [hfo, hl2]
    cases err with
    | none =>
      rw [step_success_bloodcat_eq] at hs
      rw [StepOut.cont.injEq] at hs
      subst hs
      exact hmidfill _ hbusy hcda
    | some e =>
      have hretry : ∀ he1 : e ≠ Exc.mapsetUnavailable PyMod.bloodcat,
          t.bloodcat_errors_in_a_row < args.max_errors_in_a_row →
          True := fun _ _ => trivial
      cases e with
      | mapsetUnavailable pm =>
        cases pm with
        | bloodcat =>
          cases hc : (!args.use_osu || decide (j ∈ t.missing_on_osu)) with
          | true =>
            rw [step_unavail_bloodcat_drop_eq args t j hc] at hs
            rw [StepOut.cont.injEq] at hs
            subst hs
            exact hmidfill _ hbusy hcda
          | false =>
            rw [step_unavail_bloodcat_move_eq args t j hc] at hs
            rw [StepOut.cont.injEq] at hs
            subst hs
            exact hmidfill _ hbusy hcda
        | osu =>
          cases hlt : decide (t.bloodcat_errors_in_a_row < args.max_errors_in_a_row) with
          | true =>
            rw [step_retry_bloodcat_eq args t j _ (by simp)
              (of_decide_eq_true hlt)] at hs
            rw [StepOut.cont.injEq] at hs
            subst hs
            exact ⟨hcda, [(Svc.bloodcat, j, true)], rfl, by simp⟩
          | false =>
            rw [step_abort_bloodcat_eq args t j _ (by simp)
              (of_decide_eq_false hlt)] at hs
            exact StepOut.noConfusion hs
      | quotaExceeded =>
        cases hlt : decide (t.bloodcat_errors_in_a_row < args.max_errors_in_a_row) with
        | true =>
          rw [step_retry_bloodcat_eq args t j _ (by simp)
            (of_decide_eq_true hlt)] at hs
          rw [StepOut.cont.injEq] at hs
          subst hs
          exact ⟨hcda, [(Svc.bloodcat, j, true)], rfl, by simp⟩
        | false =>
          rw [step_abort_bloodcat_eq args t j _ (by simp)
            (of_decide_eq_false hlt)] at hs
          exact StepOut.noConfusion hs
      | otherError =>
        cases hlt : decide (t.bloodcat_errors_in_a_row < args.max_errors_in_a_row) with
        | true =>
          rw [step_retry_bloodcat_eq args t j _ (by simp)
            (of_decide_eq_true hlt)] at hs
          rw [StepOut.cont.injEq] at hs
          subst hs
          exact ⟨hcda, [(Svc.bloodcat, j, true)], rfl, by simp⟩
        | false =>
          rw [step_abort_bloodcat_eq args t j _ (by simp)
            (of_decide_eq_false hlt)] at hs
          exact StepOut.noConfusion hs

/-- Step-indexed induction restricted to message sequences satisfying a
per-message condition. -/
theorem stepsTo_ind_cond {args : DArgs} (P : OState → Prop) (Q : Msg → Prop)
    (hP : ∀ s m s', Q m → P s → s.done < s.total → validMsg s m = true →
      step args s m = StepOut.cont s' → P s')
    {s t : OState} {msgs : List Msg}
    (hsteps : StepsTo args s msgs t) : (∀ m ∈ msgs, Q m) → P s → P t := by
  induction hsteps with
  | nil => exact fun _ h0 => h0
  | cons hlt hv hs _ ih =>
    intro hQ h0
    exact ih (fun m2 hm2 => hQ m2 (List.mem_cons_of_mem _ hm2))
      (hP _ _ _ (hQ _ (List.mem_cons_self _ _)) h0 hlt hv hs)

/-- The step that moves an osu-unavailable ID into `bloodcat_only`
establishes the tracking state, measured from the pre-step send log. -/
theorem c4Track_base {args : DArgs} {s s' : OState} {i : String}
    (huseB : args.use_bloodcat = true)
    (hInv : Inv args s)
    (hv : validMsg s ⟨WTag.osu, i, some (Exc.mapsetUnavailable PyMod.osu)⟩ = true)
    (hnm : i ∉ s.missing_on_bloodcat)
    (hs : step args s ⟨WTag.osu, i, some (Exc.mapsetUnavailable PyMod.osu)⟩ =
      StepOut.cont s') :
    c4Track args i s.sends.length s' := by
  unfold validMsg at hv
  simp only [beq_iff_eq] at hv
  have hInv' : Inv args s' := step_inv hInv (by unfold validMsg; simp [hv]) hs
  obtain ⟨hdisj, hlen1, hlen2, hbusyO, hcd, hbusyB, hinfO, hinfB, hdist,
    hmissO, hmissB, huseO, huseB2, hcount⟩ := hInv
  have hiin : i ∈ s.osu_inflight := by rw [hv]; exact List.mem_singleton.mpr rfl
  have hfacts := hinfO i hiin
  have hibc : i ∉ s.bloodcat_inflight := hdist i hiin
  have hc : (!args.use_bloodcat || decide (i ∈ s.missing_on_bloodcat)) = false := by
    simp [huseB, hnm]
  rw [step_unavail_osu_move_eq args s i hc] at hs
  rw [StepOut.cont.injEq] at hs
  subst hs
  obtain ⟨hsl, hmono, -, -⟩ := step_effects
    (step_unavail_osu_move_eq args s i hc)
  refine ⟨hInv', ?_, ?_, ?_⟩
  · rw [(fill_queues_fields args _).1]
    exact Finset.mem_insert_self i s.missing_on_osu
  · obtain ⟨l, hl, -⟩ := hsl
    rw [hl, List.length_append]
    omega
  · refine (fill_arm args _ i s.sends.length ?_ ?_ ?_ ?_ ?_).1
    · exact hfacts.2.1
    · exact hfacts.1
    · intro hcc
      exact absurd hcc hibc
    · exact le_refl s.sends.length
    · refine Or.inl ⟨Finset.mem_insert_self i s.dl.bloodcat_only, ?_, ?_⟩
      · exact hibc
      · show ((s.sends).drop s.sends.length).filter _ = []
        rw [List.drop_length]
        rfl

/-- The step that records the second unavailability report (osu side)
establishes the gone state, measured from the pre-step send log. -/
theorem c4Gone_base_osu {args : DArgs} {s s' : OState} {i : String}
    (hInv : Inv args s)
    (hv : validMsg s ⟨WTag.osu, i, some (Exc.mapsetUnavailable PyMod.osu)⟩ = true)
    (hm : i ∈ s.missing_on_bloodcat)
    (hs : step args s ⟨WTag.osu, i, some (Exc.mapsetUnavailable PyMod.osu)⟩ =
      StepOut.cont s') :
    c4Gone args i s.sends.length s' := by
  unfold validMsg at hv
  simp only [beq_iff_eq] at hv
  have hInv' : Inv args s' := step_inv hInv (by unfold validMsg; simp [hv]) hs
  obtain ⟨hdisj, hlen1, hlen2, hbusyO, hcd, hbusyB, hinfO, hinfB, hdist,
    hmissO, hmissB, huseO, huseB2, hcount⟩ := hInv
  have hiin : i ∈ s.osu_inflight := by rw [hv]; exact List.mem_singleton.mpr rfl
  have hfacts := hinfO i hiin
  have hc : (!args.use_bloodcat || decide (i ∈ s.missing_on_bloodcat)) = true := by
    simp [hm]
  rw [step_unavail_osu_drop_eq args s i hc] at hs
  rw [StepOut.cont.injEq] at hs
  subst hs
  refine ⟨hInv', ?_, ?_, ?_, ?_⟩
  · rw [(fill_queues_fields args _).1]
    exact Finset.mem_insert_self i s.missing_on_osu
  · rw [(fill_queues_fields args _).2.1]
    exact hm
  · obtain ⟨l, hl, -⟩ := fill_queues_sends args _
    rw [hl, List.length_append]
    simp
  · obtain ⟨l, hl, hchar⟩ := fill_queues_sends args _
    intro e he
    rw [hl] at he
    rw [show ((s.sends ++ l).drop s.sends.length) = l from List.drop_left _ _] at he
    obtain ⟨-, hO, hB⟩ := hchar e he
    intro hcc
    cases hsvc : e.1 with
    | osu =>
      rcases hO hsvc with hz | hz
      · exact hfacts.2.1 (show i ∈ s.dl.osu_only from hcc ▸ hz)
      · exact hfacts.1 (show i ∈ s.dl.osu_and_bloodcat from hcc ▸ hz)
    | bloodcat =>
      rcases hB hsvc with hz | hz
      · exact hfacts.2.2 (show i ∈ s.dl.bloodcat_only from hcc ▸ hz)
      · exact hfacts.1 (show i ∈ s.dl.osu_and_bloodcat from hcc ▸ hz)

/-- The step that records the second unavailability report (bloodcat side)
establishes the gone state. -/
theorem c4Gone_base_bloodcat {args : DArgs} {s s' : OState} {i : String}
    (hInv : Inv args s)
    (hv : validMsg s
      ⟨WTag.bloodcat, i, some (Exc.mapsetUnavailable PyMod.bloodcat)⟩ = true)
    (hm : i ∈ s.missing_on_osu)
    (hs : step args s
      ⟨WTag.bloodcat, i, some (Exc.mapsetUnavailable PyMod.bloodcat)⟩ =
      StepOut.cont s') :
    c4Gone args i s.sends.length s' := by
  unfold validMsg at hv
  simp only [beq_iff_eq] at hv
  have hInv' : Inv args s' := step_inv hInv (by unfold validMsg; simp [hv]) hs
  obtain ⟨hdisj, hlen1, hlen2, hbusyO, hcd, hbusyB, hinfO, hinfB, hdist,
    hmissO, hmissB, huseO, huseB2, hcount⟩ := hInv
  have hiin : i ∈ s.bloodcat_inflight := by rw [hv]; exact List.mem_singleton.mpr rfl
  have hfacts := hinfB i hiin
  have hc : (!args.use_osu || decide (i ∈ s.missing_on_osu)) = true := by
    simp [hm]
  rw [step_unavail_bloodcat_drop_eq args s i hc] at hs
  rw [StepOut.cont.injEq] at hs
  subst hs
  refine ⟨hInv', ?_, ?_, ?_, ?_⟩
  · rw [(fill_queues_fields args _).1]
    exact hm
  · rw [(fill_queues_fields args _).2.1]
    exact Finset.mem_insert_self i s.missing_on_bloodcat
  · obtain ⟨l, hl, -⟩ := fill_queues_sends args _
    rw [hl, List.length_append]
    simp
  · obtain ⟨l, hl, hchar⟩ := fill_queues_sends args _
    intro e he
    rw [hl] at he
    rw [show ((s.sends ++ l).drop s.sends.length) = l from List.drop_left _ _] at he
    obtain ⟨-, hO, hB⟩ := hchar e he
    intro hcc
    cases hsvc : e.1 with
    | osu =>
      rcases hO hsvc with hz | hz
      · exact hfacts.2.1 (show i ∈ s.dl.osu_only from hcc ▸ hz)
      · exact hfacts.1 (show i ∈ s.dl.osu_and_bloodcat from hcc ▸ hz)
    | bloodcat =>
      rcases hB hsvc with hz | hz
      · exact hfacts.2.2 (show i ∈ s.dl.bloodcat_only from hcc ▸ hz)
      · exact hfacts.1 (show i ∈ s.dl.osu_and_bloodcat from hcc ▸ hz)

/-- Tracking state of an ID that has been moved into `osu_only` after a
bloodcat-unavailable report: every dispatch of it after `n0` goes to osu,
and it is either still waiting in `osu_only` (possibly requeued there by a
quota-exceeded outcome), in flight at osu after at least one dispatch, or
resolved after at least one dispatch.  (Unlike the bloodcat direction, an
exact once-count is impossible: `osu.QuotaExceeded` requeues the ID and it
is dispatched to osu again after the cooldown.) -/
def c4ArmO (i : String) (n0 : Nat) (t : OState) : Prop :=
  (∀ e ∈ dIdx n0 i t, e.1 = Svc.osu) ∧
  ((i ∈ t.dl.osu_only ∧ i ∉ t.osu_inflight) ∨
   (i ∈ t.osu_inflight ∧ dIdx n0 i t ≠ []) ∨
   (i ∉ dlSets t.dl ∧ i ∉ t.osu_inflight ∧ dIdx n0 i t ≠ []))

/-- `fill_queues` preserves the osu-side tracking state. -/
theorem fill_armO (args : DArgs) (t : OState) (i : String) (n0 : Nat)
    (hnC : i ∉ t.dl.bloodcat_only) (hnB : i ∉ t.dl.osu_and_bloodcat)
    (hbusyO : i ∈ t.osu_inflight → t.osu_busy = true)
    (hn0 : n0 ≤ t.sends.length)
    (harm : c4ArmO i n0 t) :
    c4ArmO i n0 (fill_queues args t) := by
  obtain ⟨hsvc0, harm⟩ := harm
  obtain ⟨l1, hl1, he1⟩ := fill_osu_sends args t
  have hn1 : n0 ≤ (fill_osu args t).sends.length := by
    rw [hl1, List.length_append]
    omega
  have hfo := fill_osu_fields args t
  -- stage 1: the osu half
  have harm1 : c4ArmO i n0 (fill_osu args t) := by
    rcases fill_osu_cases args t with h | ⟨x, dl2, hb, hn, h⟩
    · rw [h]; exact ⟨hsvc0, harm⟩
    · have hdx : dIdx n0 i (fill_osu args t) = dIdx n0 i t ++
          ([(Svc.osu, x, false)].filter
            (fun e => e.2.1 == i && e.2.2 == false)) := by
        apply dIdx_sends _ hn0
        rw [h]
      by_cases hxi : x = i
      · subst hxi
        rcases harm with ⟨h1, h2⟩ | ⟨h1, h2⟩ | ⟨h1, h2, h3⟩
        · -- the waiting ID is dispatched to osu now
          refine ⟨?_, Or.inr (Or.inl ⟨?_, ?_⟩)⟩
          · intro e he
            rw [hdx] at he
            rcases List.mem_append.mp he with he | he
            · exact hsvc0 e he
            · simp only [List.filter, beq_self_eq_true, Bool.and_self,
                List.mem_singleton] at he
              rw [show e = (Svc.osu, x, false) from by simpa using he]
          · rw [h]
            simp
          · rw [hdx]
            simp
        · exact absurd (hbusyO h1) (by rw [hb]; simp)
        · exfalso
          apply h1
          rcases next_for_osu_some hn with ⟨hx, _⟩ | ⟨_, hx, _⟩
          · exact Finset.mem_union_left _ (Finset.mem_union_right _ hx)
          · exact Finset.mem_union_left _ (Finset.mem_union_left _ hx)
      · have hfilter : [(Svc.osu, x, false)].filter
            (fun e => e.2.1 == i && e.2.2 == false) = [] := by
          have hbeq : (x == i) = false := beq_eq_false_iff_ne.mpr hxi
          simp [List.filter, hbeq]
        have hd : dIdx n0 i (fill_osu args t) = dIdx n0 i t := by
          rw [hdx, hfilter, List.append_nil]
        rcases harm with ⟨h1, h2⟩ | ⟨h1, h2⟩ | ⟨h1, h2, h3⟩
        · refine ⟨by rw [hd]; exact hsvc0, Or.inl ⟨?_, ?_⟩⟩
          · rw [h]
            rcases next_for_osu_some hn with ⟨_, hdl⟩ | ⟨_, _, hdl⟩ <;> subst hdl
            · exact Finset.mem_erase.mpr ⟨fun hcz => hxi hcz.symm, h1⟩
            · exact h1
          · rw [h]
            simp only [List.mem_append, List.mem_singleton]
            rintro (hc | rfl)
            · exact h2 hc
            · exact hxi rfl
        · exact absurd (hbusyO h1) (by rw [hb]; simp)
        · refine ⟨by rw [hd]; exact hsvc0, Or.inr (Or.inr ⟨?_, ?_, ?_⟩)⟩
          · intro hc
            apply h1
            rw [h] at hc
            revert hc
            rcases next_for_osu_some hn with ⟨_, hdl⟩ | ⟨_, _, hdl⟩ <;> subst hdl <;>
            · intro hc
              simp only [dlSets, Finset.mem_union, Finset.mem_erase] at hc ⊢
              tauto
          · rw [h]
            simp only [List.mem_append, List.mem_singleton]
            rintro (hc | rfl)
            · exact h2 hc
            · exact hxi rfl
          · rw [hd]
            exact h3
  -- stage 2: the bloodcat half pops no osu-eligible ID and never pops `i`
  obtain ⟨hsvc1, harm1⟩ := harm1
  rcases fill_bloodcat_cases args (fill_osu args t) with h | ⟨x, dl2, hb, hn, h⟩
  · show c4ArmO i n0 (fill_bloodcat args (fill_osu args t))
    rw [h]
    exact ⟨hsvc1, harm1⟩
  · have hxi : x ≠ i := by
      rintro rfl
      rcases next_for_bloodcat_some hn with ⟨hx, _⟩ | ⟨_, hx, _⟩
      · rw [hfo.2.2.2.2.2.1] at hx
        exact hnC hx
      · exact hnB (fill_osu_subset args t hx)
    have hfilter : [(Svc.bloodcat, x, false)].filter
        (fun e => e.2.1 == i && e.2.2 == false) = [] := by
      have hbeq : (x == i) = false := beq_eq_false_iff_ne.mpr hxi
      simp [List.filter, hbeq]
    have hd : dIdx n0 i (fill_bloodcat args (fill_osu args t)) =
        dIdx n0 i (fill_osu args t) := by
      rw [dIdx_sends (show (fill_bloodcat args (fill_osu args t)).sends =
        (fill_osu args t).sends ++ [(Svc.bloodcat, x, false)] from by rw [h]) hn1,
        hfilter, List.append_nil]
    show c4ArmO i n0 (fill_bloodcat args (fill_osu args t))
    refine ⟨by rw [hd]; exact hsvc1, ?_⟩
    rcases harm1 with ⟨h1, h2⟩ | ⟨h1, h2⟩ | ⟨h1, h2, h3⟩
    · refine Or.inl ⟨?_, ?_⟩
      · rw [h]
        rcases next_for_bloodcat_some hn with ⟨_, hdl⟩ | ⟨_, _, hdl⟩ <;> subst hdl <;>
          exact h1
      · rw [h]
        exact h2
    · refine Or.inr (Or.inl ⟨?_, ?_⟩)
      · rw [h]
        exact h1
      · rw [hd]
        exact h2
    · refine Or.inr (Or.inr ⟨?_, ?_, ?_⟩)
      · intro hc
        apply h1
        rw [h] at hc
        revert hc
        rcases next_for_bloodcat_some hn with ⟨_, hdl⟩ | ⟨_, _, hdl⟩ <;> subst hdl <;>
        · intro hc
          simp only [dlSets, Finset.mem_union, Finset.mem_erase] at hc ⊢
          tauto
      · rw [h]
        exact h2
      · rw [hd]
        exact h3

/-- Full osu-side tracking state for one ID moved to `osu_only` after a
bloodcat-unavailable report. -/
def c4TrackO (args : DArgs) (i : String) (n0 : Nat) (t : OState) : Prop :=
  Inv args t ∧ i ∈ t.missing_on_bloodcat ∧ n0 ≤ t.sends.length ∧ c4ArmO i n0 t

/-- One loop iteration preserves the osu-side tracking state. -/
theorem c4TrackO_step {args : DArgs} {i : String} {n0 : Nat} {t t' : OState}
    {m : Msg} (hP : c4TrackO args i n0 t)
    (hv : validMsg t m = true) (hs : step args t m = StepOut.cont t') :
    c4TrackO args i n0 t' := by
  obtain ⟨hInv, hmiB, hn0, harm⟩ := hP
  have hInv' : Inv args t' := step_inv hInv hv hs
  obtain ⟨hsl, -, hmonoB, -⟩ := step_effects hs
  obtain ⟨l, hl, -⟩ := hsl
  have hmiB' : i ∈ t'.missing_on_bloodcat := hmonoB hmiB
  have hn0' : n0 ≤ t'.sends.length := by
    rw [hl, List.length_append]
    omega
  refine ⟨hInv', hmiB', hn0', ?_⟩
  obtain ⟨hdisj, hlen1, hlen2, hbusyO, hcd, hbusyB, hinfO, hinfB, hdist,
    hmissO, hmissB, huseO, huseB, hcount⟩ := hInv
  have hnC : i ∉ t.dl.bloodcat_only := (hmissB i hmiB).1
  have hnB : i ∉ t.dl.osu_and_bloodcat := (hmissB i hmiB).2.1
  have hniB : i ∉ t.bloodcat_inflight := (hmissB i hmiB).2.2
  have hbusyOf : i ∈ t.osu_inflight → t.osu_busy = true := by
    cases hb : t.osu_busy with
    | false => intro hcc; rw [(hbusyO hb).1] at hcc; exact absurd hcc (by simp)
    | true => intro _; rfl
  have transfer : ∀ mid : OState,
      mid.dl.osu_only = t.dl.osu_only →
      mid.dl.osu_and_bloodcat = t.dl.osu_and_bloodcat →
      mid.dl.bloodcat_only = t.dl.bloodcat_only →
      (i ∈ mid.osu_inflight ↔ i ∈ t.osu_inflight) →
      dIdx n0 i mid = dIdx n0 i t →
      c4ArmO i n0 mid := by
    intro mid e1 e2 e3 e4 e5
    obtain ⟨hsv, harm2⟩ := harm
    refine ⟨by rw [e5]; exact hsv, ?_⟩
    rcases harm2 with ⟨h1, h2⟩ | ⟨h1, h2⟩ | ⟨h1, h2, h3⟩
    · exact Or.inl ⟨by rw [e1]; exact h1, fun hcc => h2 (e4.mp hcc)⟩
    · exact Or.inr (Or.inl ⟨e4.mpr h1, by rw [e5]; exact h2⟩)
    · refine Or.inr (Or.inr ⟨?_, fun hcc => h2 (e4.mp hcc), by rw [e5]; exact h3⟩)
      intro hc
      apply h1
      simp only [dlSets, Finset.mem_union, e1, e2, e3] at hc
      simp only [dlSets, Finset.mem_union]
      exact hc
  obtain ⟨w, j, err⟩ := m
  cases w with
  | timer =>
    unfold validMsg at hv
    simp only [Bool.and_eq_true, beq_iff_eq, decide_eq_true_eq] at hv
    obtain ⟨⟨hcda, -⟩, herr⟩ := hv
    subst herr
    rw [step_timer_eq] at hs
    rw [StepOut.cont.injEq] at hs
    subst hs
    refine fill_armO args _ i n0 ?_ ?_ ?_ ?_ ?_
    · exact hnC
    · exact hnB
    · intro hcc
      have h0 : i ∈ t.osu_inflight := hcc
      rw [hcd hcda] at h0
      exact absurd h0 (List.not_mem_nil i)
    · exact hn0
    · exact transfer _ rfl rfl rfl Iff.rfl rfl
  | osu =>
    unfold validMsg at hv
    simp only [beq_iff_eq] at hv
    by_cases hji : j = i
    · -- the consumed outcome is for the tracked ID itself
      subst hji
      have hjin : j ∈ t.osu_inflight := by
        rw [hv]; exact List.mem_singleton.mpr rfl
      have hB2 : dIdx n0 j t ≠ [] := by
        rcases harm.2 with ⟨-, h2⟩ | ⟨-, h2⟩ | ⟨-, h2, -⟩
        · exact absurd hjin h2
        · exact h2
        · exact absurd hjin h2
      have hjsets := hinfO j hjin
      have herase : t.osu_inflight.erase j = [] := by rw [hv]; simp
      have hmidC : ∀ mid : OState,
          mid.dl.osu_only = t.dl.osu_only →
          mid.dl.osu_and_bloodcat = t.dl.osu_and_bloodcat →
          mid.dl.bloodcat_only = t.dl.bloodcat_only →
          mid.osu_inflight = t.osu_inflight.erase j →
          mid.sends = t.sends →
          c4ArmO j n0 mid := by
        intro mid e1 e2 e3 e4 e5
        refine ⟨?_, Or.inr (Or.inr ⟨?_, ?_, ?_⟩)⟩
        · intro e he
          apply harm.1
          show e ∈ (t.sends.drop n0).filter _
          rw [← e5]
          exact he
        · intro hcz
          simp only [dlSets, Finset.mem_union, e1, e2, e3] at hcz
          rcases hcz with (hz | hz) | hz
          · exact hjsets.1 hz
          · exact hjsets.2.1 hz
          · exact hjsets.2.2 hz
        · rw [e4, herase]
          exact List.not_mem_nil j
        · show (mid.sends.drop n0).filter _ ≠ _
          rw [e5]
          exact hB2
      cases err with
      | none =>
        rw [step_success_osu_eq] at hs
        rw [StepOut.cont.injEq] at hs
        subst hs
        refine fill_armO args _ j n0 ?_ ?_ ?_ ?_ ?_
        · exact hnC
        · exact hnB
        · intro hcc
          have hnn : j ∉ t.osu_inflight.erase j := by
            rw [herase]; exact List.not_mem_nil j
          exact absurd hcc hnn
        · exact hn0
        · exact hmidC _ rfl rfl rfl rfl rfl
      | some e =>
        have harmRetryO : c4ArmO j n0
            { t with osu_errors_in_a_row := t.osu_errors_in_a_row + 1,
                     osu_inflight := t.osu_inflight.erase j ++ [j],
                     sends := t.sends ++ [(Svc.osu, j, true)] } := by
          have hd : dIdx n0 j
              { t with osu_errors_in_a_row := t.osu_errors_in_a_row + 1,
                       osu_inflight := t.osu_inflight.erase j ++ [j],
                       sends := t.sends ++ [(Svc.osu, j, true)] } = dIdx n0 j t := by
            rw [dIdx_sends rfl hn0]
            simp [List.filter]
          refine ⟨by rw [hd]; exact harm.1, Or.inr (Or.inl ⟨?_, ?_⟩)⟩
          · simp only [herase, List.nil_append]
            exact List.mem_singleton.mpr rfl
          · rw [hd]
            exact hB2
        cases e with
        | mapsetUnavailable pm =>
          cases pm with
          | osu =>
            have hc : (!args.use_bloodcat || decide (j ∈ t.missing_on_bloodcat)) =
                true := by simp [hmiB]
            rw [step_unavail_osu_drop_eq args t j hc] at hs
            rw [StepOut.cont.injEq] at hs
            subst hs
            refine fill_armO args _ j n0 ?_ ?_ ?_ ?_ ?_
            · exact hnC
            · exact hnB
            · intro hcc
              have hnn : j ∉ t.osu_inflight.erase j := by
                rw [herase]; exact List.not_mem_nil j
              exact absurd hcc hnn
            · exact hn0
            · exact hmidC _ rfl rfl rfl rfl rfl
          | bloodcat =>
            cases hlt : decide (t.osu_errors_in_a_row < args.max_errors_in_a_row) with
            | true =>
              rw [step_retry_osu_eq args t j _ (by simp) (by simp)
                (of_decide_eq_true hlt)] at hs
              rw [StepOut.cont.injEq] at hs
              subst hs
              exact harmRetryO
            | false =>
              rw [step_abort_osu_eq args t j _ (by simp) (by simp)
                (of_decide_eq_false hlt)] at hs
              exact StepOut.noConfusion hs
        | quotaExceeded =>
          have hc : (args.use_bloodcat && !decide (j ∈ t.missing_on_bloodcat)) =
              false := by simp [hmiB]
          rw [step_quota_osu_only_eq args t j hc] at hs
          rw [StepOut.cont.injEq] at hs
          subst hs
          refine ⟨harm.1, Or.inl ⟨?_, ?_⟩⟩
          · exact Finset.mem_insert_self j t.dl.osu_only
          · rw [show ({ t with
              osu_inflight := t.osu_inflight.erase j,
              dl := { t.dl with osu_only := insert j t.dl.osu_only },
              cooldown_active := true } : OState).osu_inflight =
                t.osu_inflight.erase j from rfl, herase]
            exact List.not_mem_nil j
        | otherError =>
          cases hlt : decide (t.osu_errors_in_a_row < args.max_errors_in_a_row) with
          | true =>
            rw [step_retry_osu_eq args t j _ (by simp) (by simp)
              (of_decide_eq_true hlt)] at hs
            rw [StepOut.cont.injEq] at hs
            subst hs
            exact harmRetryO
          | false =>
            rw [step_abort_osu_eq args t j _ (by simp) (by simp)
              (of_decide_eq_false hlt)] at hs
            exact StepOut.noConfusion hs
    · -- the outcome is for a different, osu-held ID
      have hij : i ≠ j := fun hh => hji hh.symm
      have hiffE : i ∈ t.osu_inflight.erase j ↔ i ∈ t.osu_inflight :=
        List.mem_erase_of_ne hij
      cases err with
      | none =>
        rw [step_success_osu_eq] at hs
        rw [StepOut.cont.injEq] at hs
        subst hs
        refine fill_armO args _ i n0 ?_ ?_ ?_ ?_ ?_
        · exact hnC
        · exact hnB
        · intro hcc
          exact absurd (hiffE.mp hcc) (by
            rw [hv]
            simp only [List.mem_singleton]
            exact hij)
        · exact hn0
        · exact transfer _ rfl rfl rfl hiffE rfl
      | some e =>
        have harmRetryO2 : c4ArmO i n0
            { t with osu_errors_in_a_row := t.osu_errors_in_a_row + 1,
                     osu_inflight := t.osu_inflight.erase j ++ [j],
                     sends := t.sends ++ [(Svc.osu, j, true)] } := by
          have hd : dIdx n0 i
              { t with osu_errors_in_a_row := t.osu_errors_in_a_row + 1,
                       osu_inflight := t.osu_inflight.erase j ++ [j],
                       sends := t.sends ++ [(Svc.osu, j, true)] } = dIdx n0 i t := by
            rw [dIdx_sends rfl hn0]
            simp [List.filter]
          refine transfer _ rfl rfl rfl ?_ hd
          simp only [List.mem_append, List.mem_singleton]
          constructor
          · rintro (hcc | rfl)
            · exact hiffE.mp hcc
            · exact absurd rfl hij
          · intro hcc
            exact Or.inl (hiffE.mpr hcc)
        cases e with
        | mapsetUnavailable pm =>
          cases pm with
          | osu =>
            cases hc : (!args.use_bloodcat || decide (j ∈ t.missing_on_bloodcat)) with
            | true =>
              rw [step_unavail_osu_drop_eq args t j hc] at hs
              rw [StepOut.cont.injEq] at hs
              subst hs
              refine fill_armO args _ i n0 ?_ ?_ ?_ ?_ ?_
              · exact hnC
              · exact hnB
              · intro hcc
                exact absurd (hiffE.mp hcc) (by
                  rw [hv]
                  simp only [List.mem_singleton]
                  exact hij)
              · exact hn0
              · exact transfer _ rfl rfl rfl hiffE rfl
            | false =>
              rw [step_unavail_osu_move_eq args t j hc] at hs
              rw [StepOut.cont.injEq] at hs
              subst hs
              have hnC2 : i ∉ insert j t.dl.bloodcat_only := by
                intro hcc
                rcases Finset.mem_insert.mp hcc with rfl | hz
                · exact hij rfl
                · exact hnC hz
              have harmMv : c4ArmO i n0
                  { t with missing_on_osu := insert j t.missing_on_osu,
                           osu_inflight := t.osu_inflight.erase j,
                           dl := { t.dl with
                             bloodcat_only := insert j t.dl.bloodcat_only },
                           osu_busy := false } := by
                obtain ⟨hsv, harm2⟩ := harm
                refine ⟨hsv, ?_⟩
                rcases harm2 with ⟨h1, h2⟩ | ⟨h1, h2⟩ | ⟨h1, h2, h3⟩
                · exact Or.inl ⟨h1, fun hcc => h2 (hiffE.mp hcc)⟩
                · exact Or.inr (Or.inl ⟨hiffE.mpr h1, h2⟩)
                · refine Or.inr (Or.inr ⟨?_, fun hcc => h2 (hiffE.mp hcc), h3⟩)
                  intro hc2
                  apply h1
                  simp only [dlSets, Finset.mem_union, Finset.mem_insert] at hc2 ⊢
                  rcases hc2 with (hz | hz) | (rfl | hz)
                  · exact Or.inl (Or.inl hz)
                  · exact Or.inl (Or.inr hz)
                  · exact absurd rfl hij
                  · exact Or.inr hz
              refine fill_armO args _ i n0 ?_ ?_ ?_ ?_ ?_
              · exact hnC2
              · exact hnB
              · intro hcc
                exact absurd (hiffE.mp hcc) (by
                  rw [hv]
                  simp only [List.mem_singleton]
                  exact hij)
              · exact hn0
              · exact harmMv
          | bloodcat =>
            cases hlt : decide (t.osu_errors_in_a_row < args.max_errors_in_a_row) with
            | true =>
              rw [step_retry_osu_eq args t j _ (by simp) (by simp)
                (of_decide_eq_true hlt)] at hs
              rw [StepOut.cont.injEq] at hs
              subst hs
              exact harmRetryO2
            | false =>
              rw [step_abort_osu_eq args t j _ (by simp) (by simp)
                (of_decide_eq_false hlt)] at hs
              exact StepOut.noConfusion hs
        | quotaExceeded =>
          cases hc : (args.use_bloodcat && !decide (j ∈ t.missing_on_bloodcat)) with
          | true =>
            rw [step_quota_both_eq args t j hc] at hs
            rw [StepOut.cont.injEq] at hs
            subst hs
            obtain ⟨hsv, harm2⟩ := harm
            refine ⟨hsv, ?_⟩
            rcases harm2 with ⟨h1, h2⟩ | ⟨h1, h2⟩ | ⟨h1, h2, h3⟩
            · exact Or.inl ⟨h1, fun hcc => h2 (hiffE.mp hcc)⟩
            · exact Or.inr (Or.inl ⟨hiffE.mpr h1, h2⟩)
            · refine Or.inr (Or.inr ⟨?_, fun hcc => h2 (hiffE.mp hcc), h3⟩)
              intro hc2
              apply h1
              simp only [dlSets, Finset.mem_union, Finset.mem_insert] at hc2 ⊢
              rcases hc2 with ((rfl | hz) | hz) | hz
              · exact absurd rfl hij
              · exact Or.inl (Or.inl hz)
              · exact Or.inl (Or.inr hz)
              · exact Or.inr hz
          | false =>
            rw [step_quota_osu_only_eq args t j hc] at hs
            rw [StepOut.cont.injEq] at hs
            subst hs
            obtain ⟨hsv, harm2⟩ := harm
            refine ⟨hsv, ?_⟩
            rcases harm2 with ⟨h1, h2⟩ | ⟨h1, h2⟩ | ⟨h1, h2, h3⟩
            · exact Or.inl ⟨Finset.mem_insert_of_mem h1,
                fun hcc => h2 (hiffE.mp hcc)⟩
            · exact Or.inr (Or.inl ⟨hiffE.mpr h1, h2⟩)
            · refine Or.inr (Or.inr ⟨?_, fun hcc => h2 (hiffE.mp hcc), h3⟩)
              intro hc2
              apply h1
              simp only [dlSets, Finset.mem_union, Finset.mem_insert] at hc2 ⊢
              rcases hc2 with (hz | (rfl | hz)) | hz
              · exact Or.inl (Or.inl hz)
              · exact absurd rfl hij
              · exact Or.inl (Or.inr hz)
              · exact Or.inr hz
        | otherError =>
          cases hlt : decide (t.osu_errors_in_a_row < args.max_errors_in_a_row) with
          | true =>
            rw [step_retry_osu_eq args t j _ (by simp) (by simp)
              (of_decide_eq_true hlt)] at hs
            rw [StepOut.cont.injEq] at hs
            subst hs
            exact harmRetryO2
          | false =>
            rw [step_abort_osu_eq args t j _ (by simp) (by simp)
              (of_decide_eq_false hlt)] at hs
            exact StepOut.noConfusion hs
  | bloodcat =>
    unfold validMsg at hv
    simp only [beq_iff_eq] at hv
    have hij : i ≠ j := by
      rintro rfl
      exact hniB (by rw [hv]; exact List.mem_singleton.mpr rfl)
    cases err with
    | none =>
      rw [step_success_bloodcat_eq] at hs
      rw [StepOut.cont.injEq] at hs
      subst hs
      refine fill_armO args _ i n0 ?_ ?_ ?_ ?_ ?_
      · exact hnC
      · exact hnB
      · exact hbusyOf
      · exact hn0
      · exact transfer _ rfl rfl rfl Iff.rfl rfl
    | some e =>
      have harmRetryB3 : c4ArmO i n0
          { t with bloodcat_errors_in_a_row := t.bloodcat_errors_in_a_row + 1,
                   bloodcat_inflight := t.bloodcat_inflight.erase j ++ [j],
                   sends := t.sends ++ [(Svc.bloodcat, j, true)] } := by
        have hd : dIdx n0 i
            { t with bloodcat_errors_in_a_row := t.bloodcat_errors_in_a_row + 1,
                     bloodcat_inflight := t.bloodcat_inflight.erase j ++ [j],
                     sends := t.sends ++ [(Svc.bloodcat, j, true)] } =
            dIdx n0 i t := by
          rw [dIdx_sends rfl hn0]
          simp [List.filter]
        exact transfer _ rfl rfl rfl Iff.rfl hd
      cases e with
      | mapsetUnavailable pm =>
        cases pm with
        | bloodcat =>
          cases hc : (!args.use_osu || decide (j ∈ t.missing_on_osu)) with
          | true =>
            rw [step_unavail_bloodcat_drop_eq args t j hc] at hs
            rw [StepOut.cont.injEq] at hs
            subst hs
            refine fill_armO args _ i n0 ?_ ?_ ?_ ?_ ?_
            · exact hnC
            · exact hnB
            · exact hbusyOf
            · exact hn0
            · exact transfer _ rfl rfl rfl Iff.rfl rfl
          | false =>
            rw [step_unavail_bloodcat_move_eq args t j hc] at hs
            rw [StepOut.cont.injEq] at hs
            subst hs
            have harmMv2 : c4ArmO i n0
                { t with missing_on_bloodcat := insert j t.missing_on_bloodcat,
                         bloodcat_inflight := t.bloodcat_inflight.erase j,
                         dl := { t.dl with osu_only := insert j t.dl.osu_only },
                         bloodcat_busy := false } := by
              obtain ⟨hsv, harm2⟩ := harm
              refine ⟨hsv, ?_⟩
              rcases harm2 with ⟨h1, h2⟩ | ⟨h1, h2⟩ | ⟨h1, h2, h3⟩
              · exact Or.inl ⟨Finset.mem_insert_of_mem h1, h2⟩
              · exact Or.inr (Or.inl ⟨h1, h2⟩)
              · refine Or.inr (Or.inr ⟨?_, h2, h3⟩)
                intro hc2
                apply h1
                simp only [dlSets, Finset.mem_union, Finset.mem_insert] at hc2 ⊢
                rcases hc2 with (hz | (rfl | hz)) | hz
                · exact Or.inl (Or.inl hz)
                · exact absurd rfl hij
                · exact Or.inl (Or.inr hz)
                · exact Or.inr hz
            refine fill_armO args _ i n0 ?_ ?_ ?_ ?_ ?_
            · exact hnC
            · exact hnB
            · exact hbusyOf
            · exact hn0
            · exact harmMv2
        | osu =>
          cases hlt : decide (t.bloodcat_errors_in_a_row < args.max_errors_in_a_row) with
          | true =>
            rw [step_retry_bloodcat_eq args t j _ (by simp)
              (of_decide_eq_true hlt)] at hs
            rw [StepOut.cont.injEq] at hs
            subst hs
            exact harmRetryB3
          | false =>
            rw [step_abort_bloodcat_eq args t j _ (by simp)
              (of_decide_eq_false hlt)] at hs
            exact StepOut.noConfusion hs
      | quotaExceeded =>
        cases hlt : decide (t.bloodcat_errors_in_a_row < args.max_errors_in_a_row) with
        | true =>
          rw [step_retry_bloodcat_eq args t j _ (by simp)
            (of_decide_eq_true hlt)] at hs
          rw [StepOut.cont.injEq] at hs
          subst hs
          exact harmRetryB3
        | false =>
          rw [step_abort_bloodcat_eq args t j _ (by simp)
            (of_decide_eq_false hlt)] at hs
          exact StepOut.noConfusion hs
      | otherError =>
        cases hlt : decide (t.bloodcat_errors_in_a_row < args.max_errors_in_a_row) with
        | true =>
          rw [step_retry_bloodcat_eq args t j _ (by simp)
            (of_decide_eq_true hlt)] at hs
          rw [StepOut.cont.injEq] at hs
          subst hs
          exact harmRetryB3
        | false =>
          rw [step_abort_bloodcat_eq args t j _ (by simp)
            (of_decide_eq_false hlt)] at hs
          exact StepOut.noConfusion hs

/-- The step that moves a bloodcat-unavailable ID into `osu_only`
establishes the osu-side tracking state. -/
theorem c4TrackO_base {args : DArgs} {s s' : OState} {i : String}
    (huse : args.use_osu = true)
    (hInv : Inv args s)
    (hv : validMsg s
      ⟨WTag.bloodcat, i, some (Exc.mapsetUnavailable PyMod.bloodcat)⟩ = true)
    (hnm : i ∉ s.missing_on_osu)
    (hs : step args s
      ⟨WTag.bloodcat, i, some (Exc.mapsetUnavailable PyMod.bloodcat)⟩ =
      StepOut.cont s') :
    c4TrackO args i s.sends.length s' := by
  unfold validMsg at hv
  simp only [beq_iff_eq] at hv
  have hInv' : Inv args s' := step_inv hInv (by unfold validMsg; simp [hv]) hs
  obtain ⟨hdisj, hlen1, hlen2, hbusyO, hcd, hbusyB, hinfO, hinfB, hdist,
    hmissO, hmissB, huseO2, huseB2, hcount⟩ := hInv
  have hiin : i ∈ s.bloodcat_inflight := by rw [hv]; exact List.mem_singleton.mpr rfl
  have hfacts := hinfB i hiin
  have hios : i ∉ s.osu_inflight := fun hc => hdist i hc hiin
  have hc : (!args.use_osu || decide (i ∈ s.missing_on_osu)) = false := by
    simp [huse, hnm]
  rw [step_unavail_bloodcat_move_eq args s i hc] at hs
  rw [StepOut.cont.injEq] at hs
  subst hs
  refine ⟨hInv', ?_, ?_, ?_⟩
  · rw [(fill_queues_fields args _).2.1]
    exact Finset.mem_insert_self i s.missing_on_bloodcat
  · obtain ⟨l, hl, -⟩ := fill_queues_sends args _
    rw [hl, List.length_append]
    simp
  · refine fill_armO args _ i s.sends.length ?_ ?_ ?_ ?_ ?_
    · exact hfacts.2.2
    · exact hfacts.1
    · intro hcc
      have h0 : i ∈ s.osu_inflight := hcc
      exact absurd h0 hios
    · exact le_refl s.sends.length
    · refine ⟨?_, Or.inl ⟨Finset.mem_insert_self i s.dl.osu_only, hios⟩⟩
      intro e he
      exfalso
      have h0 : e ∈ ((s.sends.drop s.sends.length).filter
          (fun e2 => e2.2.1 == i && e2.2.2 == false)) := he
      rw [List.drop_length] at h0
      exact absurd h0 (List.not_mem_nil e)

/-! ## The availability pre-check fold -/

theorem foldl_avail_ok (avail : String → Except BcErr Bool) :
    ∀ (ids : List String) (acc : Finset String),
    (∀ id ∈ ids, ∃ b, avail id = Except.ok b) →
    ∃ r, ids.foldlM (fun acc2 set_id => do
        let available ← avail set_id
        pure (if available then acc2 else insert set_id acc2)) acc = Except.ok r ∧
      ∀ x, x ∈ r ↔ (x ∈ acc ∨ (x ∈ ids ∧ avail x = Except.ok false))
  | [], acc, _ => ⟨acc, by simp [List.foldlM]; rfl, fun x => by simp⟩
  | id :: tl, acc, h => by
    obtain ⟨b, hb⟩ := h id (List.mem_cons_self _ _)
    have htl := fun id2 hid2 => h id2 (List.mem_cons_of_mem _ hid2)
    cases b with
    | true =>
      obtain ⟨r, hr, hiff⟩ := foldl_avail_ok avail tl acc htl
      refine ⟨r, ?_, ?_⟩
      · simp only [List.foldlM_cons, hb]
        simpa using hr
      · intro x
        rw [hiff x]
        have hne : ¬ (x = id ∧ avail x = Except.ok false) := by
          rintro ⟨rfl, hfa⟩
          rw [hb] at hfa
          simp at hfa
        constructor
        · rintro (hx | ⟨hx1, hx2⟩)
          · exact Or.inl hx
          · exact Or.inr ⟨List.mem_cons_of_mem _ hx1, hx2⟩
        · rintro (hx | ⟨hx1, hx2⟩)
          · exact Or.inl hx
          · rcases List.mem_cons.mp hx1 with rfl | hx1
            · exact absurd ⟨rfl, hx2⟩ hne
            · exact Or.inr ⟨hx1, hx2⟩
    | false =>
      obtain ⟨r, hr, hiff⟩ := foldl_avail_ok avail tl (insert id acc) htl
      refine ⟨r, ?_, ?_⟩
      · simp only [List.foldlM_cons, hb]
        simpa using hr
      · intro x
        rw [hiff x]
        constructor
        · rintro (hx | ⟨hx1, hx2⟩)
          · rcases Finset.mem_insert.mp hx with rfl | hx
            · exact Or.inr ⟨List.mem_cons_self _ _, hb⟩
            · exact Or.inl hx
          · exact Or.inr ⟨List.mem_cons_of_mem _ hx1, hx2⟩
        · rintro (hx | ⟨hx1, hx2⟩)
          · exact Or.inl (Finset.mem_insert_of_mem hx)
          · rcases List.mem_cons.mp hx1 with rfl | hx1
            · exact Or.inl (Finset.mem_insert_self _ _)
            · exact Or.inr ⟨hx1, hx2⟩

theorem foldl_avail_err (avail : String → Except BcErr Bool) :
    ∀ (ids : List String) (acc : Finset String),
    (∃ id ∈ ids, ∃ er, avail id = Except.error er) →
    ∃ er, ids.foldlM (fun acc2 set_id => do
        let available ← avail set_id
        pure (if available then acc2 else insert set_id acc2)) acc =
      Except.error er
  | [], acc, h => absurd h (by simp)
  | id :: tl, acc, h => by
    cases hb : avail id with
    | error er =>
      refine ⟨er, ?_⟩
      simp only [List.foldlM_cons, hb]
      rfl
    | ok b =>
      obtain ⟨id2, hid2, er, her⟩ := h
      have hid2t : id2 ∈ tl := by
        rcases List.mem_cons.mp hid2 with rfl | h2
        · rw [hb] at her; exact absurd her (by simp)
        · exact h2
      obtain ⟨er2, hr⟩ := foldl_avail_err avail tl
        (if b then acc else insert id acc) ⟨id2, hid2t, er, her⟩
      refine ⟨er2, ?_⟩
      simp only [List.foldlM_cons, hb]
      cases b <;> simpa using hr

theorem update_ok {dl : DownloadList} (avail : String → Except BcErr Bool)
    (hres : dl.resumed = false)
    (hok : ∀ id ∈ dl.osu_and_bloodcat, ∃ b, avail id = Except.ok b) :
    ∃ dl', update_bloodcat_availability dl avail = Except.ok dl' ∧
      (∀ x, x ∈ dl'.osu_only ↔ x ∈ dl.osu_only ∨
        (x ∈ dl.osu_and_bloodcat ∧ avail x = Except.ok false)) ∧
      dl'.osu_and_bloodcat = dl.osu_and_bloodcat \ dl'.osu_only ∧
      dl'.bloodcat_only = dl.bloodcat_only ∧ dl'.resumed = dl.resumed := by
  obtain ⟨r, hr, hiff⟩ := foldl_avail_ok avail (dl.osu_and_bloodcat.sort (· ≤ ·))
    dl.osu_only (fun id hid => hok id ((Finset.mem_sort (· ≤ ·)).mp hid))
  refine ⟨{ dl with osu_only := r, osu_and_bloodcat := dl.osu_and_bloodcat \ r },
    ?_, ?_, rfl, rfl, rfl⟩
  · unfold update_bloodcat_availability
    rw [if_neg (by rw [hres]; simp)]
    rw [show (do
        let osuOnly ← (dl.osu_and_bloodcat.sort (· ≤ ·)).foldlM
          (fun acc set_id => do
            let available ← avail set_id
            pure (if available then acc else insert set_id acc))
          dl.osu_only
        Except.ok { dl with
          osu_only := osuOnly,
          osu_and_bloodcat := dl.osu_and_bloodcat \ osuOnly } :
        Except BcErr DownloadList) =
      ((dl.osu_and_bloodcat.sort (· ≤ ·)).foldlM
          (fun acc set_id => do
            let available ← avail set_id
            pure (if available then acc else insert set_id acc))
          dl.osu_only).bind (fun osuOnly => Except.ok { dl with
          osu_only := osuOnly,
          osu_and_bloodcat := dl.osu_and_bloodcat \ osuOnly }) from rfl]
    rw [hr]
    rfl
  · intro x
    rw [hiff x]
    constructor
    · rintro (hx | ⟨hx1, hx2⟩)
      · exact Or.inl hx
      · exact Or.inr ⟨(Finset.mem_sort (· ≤ ·)).mp hx1, hx2⟩
    · rintro (hx | ⟨hx1, hx2⟩)
      · exact Or.inl hx
      · exact Or.inr ⟨(Finset.mem_sort (· ≤ ·)).mpr hx1, hx2⟩

theorem update_err {dl : DownloadList} (avail : String → Except BcErr Bool)
    (hres : dl.resumed = false)
    (hbad : ∃ id ∈ dl.osu_and_bloodcat, ∃ er, avail id = Except.error er) :
    ∃ er, update_bloodcat_availability dl avail = Except.error er := by
  obtain ⟨id, hid, er, her⟩ := hbad
  obtain ⟨er2, hr⟩ := foldl_avail_err avail (dl.osu_and_bloodcat.sort (· ≤ ·))
    dl.osu_only ⟨id, (Finset.mem_sort (· ≤ ·)).mpr hid, er, her⟩
  refine ⟨er2, ?_⟩
  unfold update_bloodcat_availability
  rw [if_neg (by rw [hres]; simp)]
  rw [show (do
      let osuOnly ← (dl.osu_and_bloodcat.sort (· ≤ ·)).foldlM
        (fun acc set_id => do
          let available ← avail set_id
          pure (if available then acc else insert set_id acc))
        dl.osu_only
      Except.ok { dl with
        osu_only := osuOnly,
        osu_and_bloodcat := dl.osu_and_bloodcat \ osuOnly } :
      Except BcErr DownloadList) =
    ((dl.osu_and_bloodcat.sort (· ≤ ·)).foldlM
        (fun acc set_id => do
          let available ← avail set_id
          pure (if available then acc else insert set_id acc))
        dl.osu_only).bind (fun osuOnly => Except.ok { dl with
        osu_only := osuOnly,
        osu_and_bloodcat := dl.osu_and_bloodcat \ osuOnly }) from rfl]
  rw [hr]
  rfl

/-! ## The output directory scan -/

theorem mapM_head_mem : ∀ (names : List String) (toks : List String),
    names.mapM (fun n => (splitPy n).head?) = some toks →
    ∀ x, x ∈ toks ↔ ∃ n ∈ names, (splitPy n).head? = some x
  | [], toks, h => by
    simp only [List.mapM_nil, Option.pure_def, Option.some.injEq] at h
    subst h
    simp
  | n :: tl, toks, h => by
    simp only [List.mapM_cons] at h
    cases hh : (splitPy n).head? with
    | none => rw [hh] at h; simp at h
    | some a =>
      rw [hh] at h
      cases ht : tl.mapM (fun n2 => (splitPy n2).head?) with
      | none => rw [ht] at h; simp at h
      | some as =>
        rw [ht] at h
        simp at h
        subst h
        intro x
        have hih := mapM_head_mem tl as ht x
        simp only [List.mem_cons]
        constructor
        · rintro (rfl | hx)
          · exact ⟨n, Or.inl rfl, hh⟩
          · obtain ⟨n2, hn2, hx2⟩ := hih.mp hx
            exact ⟨n2, Or.inr hn2, hx2⟩
        · rintro ⟨n2, (rfl | hn2), hx2⟩
          · rw [hh] at hx2
            exact Or.inl (Option.some.injEq _ _ ▸ hx2.symm)
          · exact Or.inr (hih.mpr ⟨n2, hn2, hx2⟩)

/-- `fill_queues` never touches the consecutive-error counters. -/
theorem fill_queues_errors (args : DArgs) (t : OState) :
    (fill_queues args t).osu_errors_in_a_row = t.osu_errors_in_a_row ∧
    (fill_queues args t).bloodcat_errors_in_a_row =
      t.bloodcat_errors_in_a_row := by
  have h1 : ∀ u : OState,
      (fill_osu args u).osu_errors_in_a_row = u.osu_errors_in_a_row ∧
      (fill_osu args u).bloodcat_errors_in_a_row = u.bloodcat_errors_in_a_row := by
    intro u
    rcases fill_osu_cases args u with h | ⟨x, dl2, hb, hn, h⟩ <;> rw [h] <;>
      exact ⟨rfl, rfl⟩
  have h2 : ∀ u : OState,
      (fill_bloodcat args u).osu_errors_in_a_row = u.osu_errors_in_a_row ∧
      (fill_bloodcat args u).bloodcat_errors_in_a_row =
        u.bloodcat_errors_in_a_row := by
    intro u
    rcases fill_bloodcat_cases args u with h | ⟨x, dl2, hb, hn, h⟩ <;> rw [h] <;>
      exact ⟨rfl, rfl⟩
  exact ⟨(h2 _).1.trans (h1 t).1, (h2 _).2.trans (h1 t).2⟩

/-! ## Claim theorems -/

/-- The send-log entries addressed to the osu inbox. -/
def osuSends (t : OState) : List (Svc × String × Bool) :=
  t.sends.filter (fun e => e.1 == Svc.osu)

/-- Default configuration with both services enabled and the default error
ceiling of 5. -/
def argsBoth : DArgs := ⟨true, true, 5⟩

/-- Numeric code of a run outcome, for stating which constructor a concrete
run produced without naming its final state. -/
def outcomeCode : RunOut → Nat
  | RunOut.finished _ => 0
  | RunOut.aborted => 1
  | RunOut.pending _ => 2
  | RunOut.badMsg _ => 3

/-- The osu consecutive-error counter of the state a run outcome carries
(0 for `aborted`). -/
def osuErrorsOf : RunOut → Nat
  | RunOut.finished u => u.osu_errors_in_a_row
  | RunOut.pending u => u.osu_errors_in_a_row
  | RunOut.badMsg u => u.osu_errors_in_a_row
  | RunOut.aborted => 0

/-- C1 counterexample: with the default ceiling N = 5, five consecutive
transient osu errors do NOT abort the run — the loop is still waiting with
the counter at 5 (outcome code 2 = `pending`, every message producible) —
and it is the sixth consecutive error, the (N+1)th, that aborts.  This
refutes "the Nth consecutive error, where N equals the configured ceiling,
aborts the whole run". -/
theorem claim_c1_counterexample :
    outcomeCode (run argsBoth (initOState argsBoth ⟨{"7"}, ∅, ∅, false⟩)
      (List.replicate 5 ⟨WTag.osu, "7", some Exc.otherError⟩)) = 2 ∧
    osuErrorsOf (run argsBoth (initOState argsBoth ⟨{"7"}, ∅, ∅, false⟩)
      (List.replicate 5 ⟨WTag.osu, "7", some Exc.otherError⟩)) = 5 ∧
    run argsBoth (initOState argsBoth ⟨{"7"}, ∅, ∅, false⟩)
      (List.replicate 6 ⟨WTag.osu, "7", some Exc.otherError⟩) =
      RunOut.aborted := by
  refine ⟨?_, ?_, ?_⟩ <;> decide

/-- C1 (amended): for each service, a transient fetch failure (connection
or download/search error) received while the service's consecutive-error
counter is strictly below the configured ceiling increments the counter and
resubmits the same ID to the same service's inbox immediately (the send-log
entry is flagged as a direct retry), with no fill call, no busy-flag change
and no partition change; a transient failure received when the counter has
already reached the ceiling — that is, the (N+1)th consecutive error for
ceiling N, not the Nth — aborts the whole run; and a success resets that
service's counter to zero. -/
theorem claim_c1_retry_ceiling_reset (args : DArgs) (s : OState) (i : String)
    (e : Exc) :
    (validMsg s ⟨WTag.osu, i, some e⟩ = true →
      e ≠ Exc.mapsetUnavailable PyMod.osu → e ≠ Exc.quotaExceeded →
      s.osu_errors_in_a_row < args.max_errors_in_a_row →
      ∃ s', step args s ⟨WTag.osu, i, some e⟩ = StepOut.cont s' ∧
        s'.osu_errors_in_a_row = s.osu_errors_in_a_row + 1 ∧
        s'.osu_inflight = s.osu_inflight ∧
        s'.osu_busy = s.osu_busy ∧ s'.bloodcat_busy = s.bloodcat_busy ∧
        s'.dl = s.dl ∧
        s'.sends = s.sends ++ [(Svc.osu, i, true)] ∧
        s'.total = s.total ∧ s'.done = s.done) ∧
    (e ≠ Exc.mapsetUnavailable PyMod.osu → e ≠ Exc.quotaExceeded →
      ¬ s.osu_errors_in_a_row < args.max_errors_in_a_row →
      step args s ⟨WTag.osu, i, some e⟩ = StepOut.abortRun) ∧
    (∃ s', step args s ⟨WTag.osu, i, none⟩ = StepOut.cont s' ∧
      s'.osu_errors_in_a_row = 0) ∧
    (validMsg s ⟨WTag.bloodcat, i, some e⟩ = true →
      e ≠ Exc.mapsetUnavailable PyMod.bloodcat →
      s.bloodcat_errors_in_a_row < args.max_errors_in_a_row →
      ∃ s', step args s ⟨WTag.bloodcat, i, some e⟩ = StepOut.cont s' ∧
        s'.bloodcat_errors_in_a_row = s.bloodcat_errors_in_a_row + 1 ∧
        s'.bloodcat_inflight = s.bloodcat_inflight ∧
        s'.osu_busy = s.osu_busy ∧ s'.bloodcat_busy = s.bloodcat_busy ∧
        s'.dl = s.dl ∧
        s'.sends = s.sends ++ [(Svc.bloodcat, i, true)] ∧
        s'.total = s.total ∧ s'.done = s.done) ∧
    (e ≠ Exc.mapsetUnavailable PyMod.bloodcat →
      ¬ s.bloodcat_errors_in_a_row < args.max_errors_in_a_row →
      step args s ⟨WTag.bloodcat, i, some e⟩ = StepOut.abortRun) ∧
    (∃ s', step args s ⟨WTag.bloodcat, i, none⟩ = StepOut.cont s' ∧
      s'.bloodcat_errors_in_a_row = 0) := by
  refine ⟨?_, ?_, ?_, ?_, ?_, ?_⟩
  · intro hv he1 he2 hlt
    unfold validMsg at hv
    simp only [beq_iff_eq] at hv
    refine ⟨_, step_retry_osu_eq args s i e he1 he2 hlt,
      rfl, ?_, rfl, rfl, rfl, rfl, rfl, rfl⟩
    show s.osu_inflight.erase i ++ [i] = s.osu_inflight
    rw [hv]
    simp
  · exact step_abort_osu_eq args s i e
  · exact ⟨_, step_success_osu_eq args s i, (fill_queues_errors args _).1⟩
  · intro hv he1 hlt
    unfold validMsg at hv
    simp only [beq_iff_eq] at hv
    refine ⟨_, step_retry_bloodcat_eq args s i e he1 hlt,
      rfl, ?_, rfl, rfl, rfl, rfl, rfl, rfl⟩
    show s.bloodcat_inflight.erase i ++ [i] = s.bloodcat_inflight
    rw [hv]
    simp
  · exact step_abort_bloodcat_eq args s i e
  · exact ⟨_, step_success_bloodcat_eq args s i, (fill_queues_errors args _).2⟩

/-- Witness for C1 (amended): with the ceiling set to 0 the counter is never
below it, so the very first transient error aborts. -/
theorem claim_c1_witness :
    (Exc.otherError ≠ Exc.mapsetUnavailable PyMod.osu ∧
      Exc.otherError ≠ Exc.quotaExceeded ∧
      ¬ (initOState ⟨true, true, 0⟩
          ⟨{"7"}, ∅, ∅, false⟩).osu_errors_in_a_row <
        (⟨true, true, 0⟩ : DArgs).max_errors_in_a_row) ∧
    step ⟨true, true, 0⟩ (initOState ⟨true, true, 0⟩ ⟨{"7"}, ∅, ∅, false⟩)
      ⟨WTag.osu, "7", some Exc.otherError⟩ = StepOut.abortRun :=
  ⟨⟨by decide, by decide, by decide⟩,
    (claim_c1_retry_ceiling_reset ⟨true, true, 0⟩
      (initOState ⟨true, true, 0⟩ ⟨{"7"}, ∅, ∅, false⟩) "7"
      Exc.otherError).2.1 (by decide) (by decide) (by decide)⟩

/-- While the cooldown timer is pending, any producible message sequence
without timer messages keeps it pending and sends nothing to the osu
inbox. -/
theorem cooldown_freeze_steps {args : DArgs} {v u : OState} {msgs : List Msg}
    (hsteps : StepsTo args v msgs u) (hI : Inv args v)
    (hcda : v.cooldown_active = true)
    (hQ : ∀ m ∈ msgs, m.worker ≠ WTag.timer) :
    u.cooldown_active = true ∧ osuSends u = osuSends v := by
  have h := stepsTo_ind_cond
    (fun w => Inv args w ∧ w.cooldown_active = true ∧ osuSends w = osuSends v)
    (fun m => m.worker ≠ WTag.timer) ?_ hsteps hQ ⟨hI, hcda, rfl⟩
  · exact ⟨h.2.1, h.2.2⟩
  intro t m t' hQm hP hlt hv2 hs2
  obtain ⟨hI2, hcda2, hsend2⟩ := hP
  obtain ⟨hcda3, l, hl, hall⟩ := cooldown_freeze_step hI2 hcda2 hQm hv2 hs2
  refine ⟨step_inv hI2 hv2 hs2, hcda3, ?_⟩
  have hfl : l.filter (fun e => e.1 == Svc.osu) = [] := by
    rw [List.filter_eq_nil_iff]
    intro e he
    rw [hall e he]
    simp
  unfold osuSends
  rw [hl, List.filter_append, hfl, List.append_nil]
  exact hsend2

/-- C3: `osu.QuotaExceeded` on the origin service: the outstanding total
and the done count are untouched and the origin busy flag stays set (the
worker message that carried the quota error does not clear it); the ID is
requeued into `osu_and_bloodcat` when bloodcat is enabled and has not
already reported it unavailable, otherwise into `osu_only`; the cooldown
timer (fixed delay `60 * 5` seconds, five minutes) becomes pending; until
its synthetic `('timer', '', None)` outcome arrives, no message for any ID
is sent to the osu inbox; the timer outcome clears the osu busy flag and
invokes `fill_queues`; and in any run that afterwards finishes normally the
same ID is dispatched again. -/
theorem claim_c3_quota_cooldown (args : DArgs) (dl : DownloadList)
    (s : OState) (i : String)
    (hdisj : dl.PairwiseDisjoint)
    (hreach : Reach args (initOState args dl) s)
    (hv : validMsg s ⟨WTag.osu, i, some Exc.quotaExceeded⟩ = true) :
    osu_cooldown_secs = 300 ∧
    ∃ s', step args s ⟨WTag.osu, i, some Exc.quotaExceeded⟩ = StepOut.cont s' ∧
      s'.total = s.total ∧ s'.done = s.done ∧
      s.osu_busy = true ∧ s'.osu_busy = true ∧
      s'.sends = s.sends ∧ s'.cooldown_active = true ∧
      (args.use_bloodcat = true ∧ i ∉ s.missing_on_bloodcat →
        i ∈ s'.dl.osu_and_bloodcat) ∧
      (args.use_bloodcat = false ∨ i ∈ s.missing_on_bloodcat →
        i ∈ s'.dl.osu_only) ∧
      (∀ msgs u, StepsTo args s' msgs u →
        (∀ m ∈ msgs, m.worker ≠ WTag.timer) →
        u.cooldown_active = true ∧ osuSends u = osuSends s') ∧
      (∀ u : OState, step args u ⟨WTag.timer, "", none⟩ =
        StepOut.cont (fill_queues args
          { u with osu_busy := false, cooldown_active := false })) ∧
      (∀ msgs u, run args s' msgs = RunOut.finished u →
        ∃ e2 ∈ u.sends.drop s.sends.length, e2.2.1 = i ∧ e2.2.2 = false) := by
  have hInv := reach_inv (init_inv hdisj) hreach
  have hv0 := hv
  unfold validMsg at hv0
  simp only [beq_iff_eq] at hv0
  have hbusy : s.osu_busy = true := by
    cases hb : s.osu_busy with
    | true => rfl
    | false =>
      have h0 := (hInv.2.2.2.1 hb).1
      rw [hv0] at h0
      exact absurd h0 (by simp)
  refine ⟨rfl, ?_⟩
  cases hc : (args.use_bloodcat && !decide (i ∈ s.missing_on_bloodcat)) with
  | true =>
    have hs := step_quota_both_eq args s i hc
    have hI' := step_inv hInv hv hs
    refine ⟨_, hs, rfl, rfl, hbusy, hbusy, rfl, rfl, ?_, ?_, ?_, ?_, ?_⟩
    · intro _
      exact Finset.mem_insert_self i _
    · rintro (hb0 | hm)
      · rw [hb0] at hc
        exact absurd hc (by simp)
      · simp [hm] at hc
    · intro msgs u hsteps hQ
      exact cooldown_freeze_steps hsteps hI' rfl hQ
    · exact fun u => step_timer_eq args u ""
    · intro msgs u hrun
      obtain ⟨pre, hpre⟩ := run_finished_stepsTo hrun
      have hP : c3Persist args i s.sends.length u :=
        stepsTo_ind (c3Persist args i s.sends.length)
          (fun a m b hPa hlt hva hsa => c3Persist_step hPa hva hsa) hpre
          ⟨hI', le_refl _, Or.inl (Finset.mem_union_left _
            (Finset.mem_union_left _ (Finset.mem_insert_self i _)))⟩
      obtain ⟨hIu, hn0u, hdisp⟩ := hP
      rcases hdisp with hdl | hfound
      · have hge := run_finished_not_lt hrun
        obtain ⟨h1, h2, h3, -, -⟩ := finished_state_empty hIu hge
        simp [dlSets, h1, h2, h3] at hdl
      · exact hfound
  | false =>
    have hs := step_quota_osu_only_eq args s i hc
    have hI' := step_inv hInv hv hs
    refine ⟨_, hs, rfl, rfl, hbusy, hbusy, rfl, rfl, ?_, ?_, ?_, ?_, ?_⟩
    · rintro ⟨hu, hn⟩
      rw [hu] at hc
      simp [hn] at hc
    · intro _
      exact Finset.mem_insert_self i _
    · intro msgs u hsteps hQ
      exact cooldown_freeze_steps hsteps hI' rfl hQ
    · exact fun u => step_timer_eq args u ""
    · intro msgs u hrun
      obtain ⟨pre, hpre⟩ := run_finished_stepsTo hrun
      have hP : c3Persist args i s.sends.length u :=
        stepsTo_ind (c3Persist args i s.sends.length)
          (fun a m b hPa hlt hva hsa => c3Persist_step hPa hva hsa) hpre
          ⟨hI', le_refl _, Or.inl (Finset.mem_union_left _
            (Finset.mem_union_right _ (Finset.mem_insert_self i _)))⟩
      obtain ⟨hIu, hn0u, hdisp⟩ := hP
      rcases hdisp with hdl | hfound
      · have hge := run_finished_not_lt hrun
        obtain ⟨h1, h2, h3, -, -⟩ := finished_state_empty hIu hge
        simp [dlSets, h1, h2, h3] at hdl
      · exact hfound

/-- Witness for C3 at a concrete reachable state with a quota report in
flight. -/
theorem claim_c3_witness :
    (⟨{"9"}, ∅, ∅, false⟩ : DownloadList).PairwiseDisjoint ∧
    validMsg (initOState argsBoth ⟨{"9"}, ∅, ∅, false⟩)
      ⟨WTag.osu, "9", some Exc.quotaExceeded⟩ = true ∧
    osu_cooldown_secs = 300 :=
  ⟨by decide, by decide,
    (claim_c3_quota_cooldown argsBoth ⟨{"9"}, ∅, ∅, false⟩
      (initOState argsBoth ⟨{"9"}, ∅, ∅, false⟩) "9" (by decide)
      ⟨[], StepsTo.nil _⟩ (by decide)).1⟩

/-- Number of dispatch (non-retry) send-log entries for a given ID in the
state a run outcome carries. -/
def dispatchCountOf (i : String) : RunOut → Nat
  | RunOut.finished u =>
    (u.sends.filter (fun e => e.2.1 == i && e.2.2 == false)).length
  | RunOut.pending u =>
    (u.sends.filter (fun e => e.2.1 == i && e.2.2 == false)).length
  | _ => 0

/-- C4 counterexample: an item reported unavailable on exactly one service
(bloodcat) and not yet known missing on the other is NOT always dispatched
"exactly once more".  Trace: both workers get an item ("1" to osu, "2" to
bloodcat); bloodcat reports "2" unavailable, so "2" moves to `osu_only`;
osu finishes "1" and "2" is dispatched to osu (the "once more"); osu
reports quota-exceeded for "2", which requeues it; after the cooldown timer
fires, "2" is dispatched to osu a second time.  The run is still producible
(outcome code 2 = `pending`) and "2" has three dispatch entries in total —
two of them after its move — against the two (one pre-move, one post-move)
the claim allows. -/
theorem claim_c4_counterexample :
    outcomeCode (run argsBoth (initOState argsBoth ⟨{"2"}, {"1"}, ∅, false⟩)
      [⟨WTag.bloodcat, "2", some (Exc.mapsetUnavailable PyMod.bloodcat)⟩,
       ⟨WTag.osu, "1", none⟩,
       ⟨WTag.osu, "2", some Exc.quotaExceeded⟩,
       ⟨WTag.timer, "", none⟩]) = 2 ∧
    dispatchCountOf "2"
      (run argsBoth (initOState argsBoth ⟨{"2"}, {"1"}, ∅, false⟩)
        [⟨WTag.bloodcat, "2", some (Exc.mapsetUnavailable PyMod.bloodcat)⟩,
         ⟨WTag.osu, "1", none⟩,
         ⟨WTag.osu, "2", some Exc.quotaExceeded⟩,
         ⟨WTag.timer, "", none⟩]) = 3 := by
  constructor <;> decide

/-- C4 (amended): with both services enabled, in any reachable state: (A) an
item reported unavailable on osu and not yet known missing on bloodcat is
moved to `bloodcat_only` (total unchanged) and, in any run that afterwards
finishes normally, is dispatched exactly once more, to bloodcat; (B) an
item reported unavailable on bloodcat and not yet known missing on osu is
moved to `osu_only` (total unchanged) and, in any run that afterwards
finishes normally, is dispatched again — only ever to osu, and at least
once, but not necessarily exactly once, because `osu.QuotaExceeded`
requeues it (see the counterexample); (C)/(D) an item reported unavailable
on both services, in either order, has the outstanding total decremented
exactly once (by the second report, which is the only step that drops it)
and is recorded missing on both services forever after, with no further
send-log entry ever carrying its ID. -/
theorem claim_c4_unavailable_fallback (args : DArgs) (dl : DownloadList)
    (s : OState) (i : String)
    (huseO : args.use_osu = true) (huseB : args.use_bloodcat = true)
    (hdisj : dl.PairwiseDisjoint)
    (hreach : Reach args (initOState args dl) s) :
    (validMsg s ⟨WTag.osu, i, some (Exc.mapsetUnavailable PyMod.osu)⟩ = true →
      i ∉ s.missing_on_bloodcat →
      ∃ s', step args s ⟨WTag.osu, i, some (Exc.mapsetUnavailable PyMod.osu)⟩ =
          StepOut.cont s' ∧
        s'.total = s.total ∧ i ∈ s'.missing_on_osu ∧
        ∀ msgs u, run args s' msgs = RunOut.finished u →
          dIdx s.sends.length i u = [(Svc.bloodcat, i, false)]) ∧
    (validMsg s
        ⟨WTag.bloodcat, i, some (Exc.mapsetUnavailable PyMod.bloodcat)⟩ = true →
      i ∉ s.missing_on_osu →
      ∃ s', step args s
          ⟨WTag.bloodcat, i, some (Exc.mapsetUnavailable PyMod.bloodcat)⟩ =
          StepOut.cont s' ∧
        s'.total = s.total ∧ i ∈ s'.missing_on_bloodcat ∧
        ∀ msgs u, run args s' msgs = RunOut.finished u →
          dIdx s.sends.length i u ≠ [] ∧
          ∀ e2 ∈ dIdx s.sends.length i u, e2.1 = Svc.osu) ∧
    (validMsg s ⟨WTag.osu, i, some (Exc.mapsetUnavailable PyMod.osu)⟩ = true →
      i ∈ s.missing_on_bloodcat →
      ∃ s', step args s ⟨WTag.osu, i, some (Exc.mapsetUnavailable PyMod.osu)⟩ =
          StepOut.cont s' ∧
        s'.total = s.total - 1 ∧
        ∀ msgs u, StepsTo args s' msgs u →
          i ∈ u.missing_on_osu ∧ i ∈ u.missing_on_bloodcat ∧
          ∀ e2 ∈ u.sends.drop s.sends.length, e2.2.1 ≠ i) ∧
    (validMsg s
        ⟨WTag.bloodcat, i, some (Exc.mapsetUnavailable PyMod.bloodcat)⟩ = true →
      i ∈ s.missing_on_osu →
      ∃ s', step args s
          ⟨WTag.bloodcat, i, some (Exc.mapsetUnavailable PyMod.bloodcat)⟩ =
          StepOut.cont s' ∧
        s'.total = s.total - 1 ∧
        ∀ msgs u, StepsTo args s' msgs u →
          i ∈ u.missing_on_osu ∧ i ∈ u.missing_on_bloodcat ∧
          ∀ e2 ∈ u.sends.drop s.sends.length, e2.2.1 ≠ i) := by
  have hInv := reach_inv (init_inv hdisj) hreach
  refine ⟨?_, ?_, ?_, ?_⟩
  · intro hv hnm
    have hc : (!args.use_bloodcat || decide (i ∈ s.missing_on_bloodcat)) =
        false := by
      simp [huseB, hnm]
    have hs := step_unavail_osu_move_eq args s i hc
    refine ⟨_, hs, (fill_queues_fields args _).2.2.1, ?_, ?_⟩
    · rw [(fill_queues_fields args _).1]
      exact Finset.mem_insert_self i _
    · intro msgs u hrun
      obtain ⟨pre, hpre⟩ := run_finished_stepsTo hrun
      have hT := stepsTo_ind (c4Track args i s.sends.length)
        (fun a m b hPa hlt hva hsa => c4Track_step hPa hva hsa) hpre
        (c4Track_base huseB hInv hv hnm hs)
      obtain ⟨hIu, hmiOu, hn0u, harm⟩ := hT
      have hge := run_finished_not_lt hrun
      obtain ⟨h1, h2, h3, h4, h5⟩ := finished_state_empty hIu hge
      rcases harm with ⟨ha, -, -⟩ | ⟨ha, -⟩ | ⟨-, -, hd⟩
      · rw [h3] at ha
        exact absurd ha (Finset.not_mem_empty i)
      · rw [h5] at ha
        exact absurd ha (List.not_mem_nil i)
      · exact hd
  · intro hv hnm
    have hc : (!args.use_osu || decide (i ∈ s.missing_on_osu)) = false := by
      simp [huseO, hnm]
    have hs := step_unavail_bloodcat_move_eq args s i hc
    refine ⟨_, hs, (fill_queues_fields args _).2.2.1, ?_, ?_⟩
    · rw [(fill_queues_fields args _).2.1]
      exact Finset.mem_insert_self i _
    · intro msgs u hrun
      obtain ⟨pre, hpre⟩ := run_finished_stepsTo hrun
      have hT := stepsTo_ind (c4TrackO args i s.sends.length)
        (fun a m b hPa hlt hva hsa => c4TrackO_step hPa hva hsa) hpre
        (c4TrackO_base huseO hInv hv hnm hs)
      obtain ⟨hIu, hmiBu, hn0u, hsvc, harm⟩ := hT
      have hge := run_finished_not_lt hrun
      obtain ⟨h1, h2, h3, h4, h5⟩ := finished_state_empty hIu hge
      rcases harm with ⟨ha, -⟩ | ⟨ha, hd⟩ | ⟨-, -, hd⟩
      · rw [h2] at ha
        exact absurd ha (Finset.not_mem_empty i)
      · exact ⟨hd, hsvc⟩
      · exact ⟨hd, hsvc⟩
  · intro hv hm
    have hc : (!args.use_bloodcat || decide (i ∈ s.missing_on_bloodcat)) =
        true := by
      simp [hm]
    have hs := step_unavail_osu_drop_eq args s i hc
    refine ⟨_, hs, (fill_queues_fields args _).2.2.1, ?_⟩
    intro msgs u hsteps
    have hG := stepsTo_ind (c4Gone args i s.sends.length)
      (fun a m b hPa hlt hva hsa => c4Gone_step hPa hva hsa) hsteps
      (c4Gone_base_osu hInv hv hm hs)
    exact ⟨hG.2.1, hG.2.2.1, hG.2.2.2.2⟩
  · intro hv hm
    have hc : (!args.use_osu || decide (i ∈ s.missing_on_osu)) = true := by
      simp [hm]
    have hs := step_unavail_bloodcat_drop_eq args s i hc
    refine ⟨_, hs, (fill_queues_fields args _).2.2.1, ?_⟩
    intro msgs u hsteps
    have hG := stepsTo_ind (c4Gone args i s.sends.length)
      (fun a m b hPa hlt hva hsa => c4Gone_step hPa hva hsa) hsteps
      (c4Gone_base_bloodcat hInv hv hm hs)
    exact ⟨hG.2.1, hG.2.2.1, hG.2.2.2.2⟩

/-- Witness for C4 (amended) at a concrete state with a bloodcat
unavailability report in flight. -/
theorem claim_c4_witness :
    (argsBoth.use_osu = true ∧ argsBoth.use_bloodcat = true ∧
      (⟨{"2"}, {"1"}, ∅, false⟩ : DownloadList).PairwiseDisjoint ∧
      validMsg (initOState argsBoth ⟨{"2"}, {"1"}, ∅, false⟩)
        ⟨WTag.bloodcat, "2", some (Exc.mapsetUnavailable PyMod.bloodcat)⟩ =
        true ∧
      "2" ∉ (initOState argsBoth ⟨{"2"}, {"1"}, ∅, false⟩).missing_on_osu) ∧
    ∃ s', step argsBoth (initOState argsBoth ⟨{"2"}, {"1"}, ∅, false⟩)
        ⟨WTag.bloodcat, "2", some (Exc.mapsetUnavailable PyMod.bloodcat)⟩ =
        StepOut.cont s' ∧
      s'.total = (initOState argsBoth ⟨{"2"}, {"1"}, ∅, false⟩).total ∧
      "2" ∈ s'.missing_on_bloodcat ∧
      ∀ msgs u, run argsBoth s' msgs = RunOut.finished u →
        dIdx (initOState argsBoth
          ⟨{"2"}, {"1"}, ∅, false⟩).sends.length "2" u ≠ [] ∧
        ∀ e2 ∈ dIdx (initOState argsBoth
          ⟨{"2"}, {"1"}, ∅, false⟩).sends.length "2" u, e2.1 = Svc.osu :=
  ⟨⟨rfl, rfl, by decide, by decide, by decide⟩,
    (claim_c4_unavailable_fallback argsBoth ⟨{"2"}, {"1"}, ∅, false⟩
      (initOState argsBoth ⟨{"2"}, {"1"}, ∅, false⟩) "2" rfl rfl (by decide)
      ⟨[], StepsTo.nil _⟩).2.1 (by decide) (by decide)⟩

/-- C5: the three sets of the work partition are pairwise disjoint in every
state reachable by the orchestrator loop (which performs `next_for` pops,
unavailable-item moves, and quota requeues) from a partition with pairwise
disjoint sets, and the set-difference removal `__isub__` also preserves
pairwise disjointness; hence an ID appears in at most one set at all
times. -/
theorem claim_c5_pairwise_disjoint (args : DArgs) (dl : DownloadList)
    (other : Finset String) (s : OState) (hdisj : dl.PairwiseDisjoint) :
    (dl.isub other).PairwiseDisjoint ∧
    (Reach args (initOState args dl) s → s.dl.PairwiseDisjoint) := by
  constructor
  · refine ⟨fun x hx => ?_, fun x hx hc => ?_⟩
    · obtain ⟨hx1, hx2⟩ := Finset.mem_sdiff.mp hx
      exact ⟨fun hc => (hdisj.1 x hx1).1 (Finset.mem_sdiff.mp hc).1,
        fun hc => (hdisj.1 x hx1).2 (Finset.mem_sdiff.mp hc).1⟩
    · exact hdisj.2 x (Finset.mem_sdiff.mp hx).1 (Finset.mem_sdiff.mp hc).1
  · intro hr
    exact (reach_inv (init_inv hdisj) hr).1

/-- Witness for C5 at a concrete partition. -/
theorem claim_c5_witness :
    (⟨{"1", "2"}, {"3"}, {"4"}, false⟩ : DownloadList).PairwiseDisjoint ∧
    ((⟨{"1", "2"}, {"3"}, {"4"}, false⟩ : DownloadList).isub
      {"3"}).PairwiseDisjoint ∧
    (initOState argsBoth
      ⟨{"1", "2"}, {"3"}, {"4"}, false⟩).dl.PairwiseDisjoint := by
  have h := claim_c5_pairwise_disjoint argsBoth
    ⟨{"1", "2"}, {"3"}, {"4"}, false⟩ {"3"}
    (initOState argsBoth ⟨{"1", "2"}, {"3"}, {"4"}, false⟩) (by decide)
  exact ⟨by decide, h.1, h.2 ⟨[], StepsTo.nil _⟩⟩

/-- C6: per-service concurrency is capped at exactly one in-flight ID.  In
every reachable orchestrator state each single-slot inbox holds at most one
in-flight ID; `fill_queues` is a no-op for a busy service and, when it does
send, the service was idle and its busy flag is set together with the
(single) send; the direct-retry branch resubmits exactly the ID already in
flight, leaving the in-flight list unchanged. -/
theorem claim_c6_single_slot (args : DArgs) :
    (∀ dl s, dl.PairwiseDisjoint → Reach args (initOState args dl) s →
      s.osu_inflight.length ≤ 1 ∧ s.bloodcat_inflight.length ≤ 1) ∧
    (∀ s : OState, s.osu_busy = true →
      (fill_queues args s).osu_inflight = s.osu_inflight ∧
      (fill_queues args s).osu_busy = true) ∧
    (∀ s : OState, s.bloodcat_busy = true →
      (fill_queues args s).bloodcat_inflight = s.bloodcat_inflight ∧
      (fill_queues args s).bloodcat_busy = true) ∧
    (∀ s : OState, (fill_queues args s).osu_inflight ≠ s.osu_inflight →
      s.osu_busy = false ∧ (fill_queues args s).osu_busy = true ∧
      ∃ x, (fill_queues args s).osu_inflight = s.osu_inflight ++ [x]) ∧
    (∀ s : OState, (fill_queues args s).bloodcat_inflight ≠ s.bloodcat_inflight →
      s.bloodcat_busy = false ∧ (fill_queues args s).bloodcat_busy = true ∧
      ∃ x, (fill_queues args s).bloodcat_inflight = s.bloodcat_inflight ++ [x]) ∧
    (∀ s i e, validMsg s ⟨WTag.osu, i, some e⟩ = true →
      e ≠ Exc.mapsetUnavailable PyMod.osu → e ≠ Exc.quotaExceeded →
      s.osu_errors_in_a_row < args.max_errors_in_a_row →
      ∃ s', step args s ⟨WTag.osu, i, some e⟩ = StepOut.cont s' ∧
        s'.osu_inflight = s.osu_inflight) ∧
    (∀ s i e, validMsg s ⟨WTag.bloodcat, i, some e⟩ = true →
      e ≠ Exc.mapsetUnavailable PyMod.bloodcat →
      s.bloodcat_errors_in_a_row < args.max_errors_in_a_row →
      ∃ s', step args s ⟨WTag.bloodcat, i, some e⟩ = StepOut.cont s' ∧
        s'.bloodcat_inflight = s.bloodcat_inflight) := by
  refine ⟨?_, ?_, ?_, ?_, ?_, ?_, ?_⟩
  · intro dl s hdisj hr
    have h := reach_inv (init_inv hdisj) hr
    exact ⟨h.2.1, h.2.2.1⟩
  · intro s hb
    unfold fill_queues
    rw [fill_osu_busy_noop hb]
    exact ⟨(fill_bloodcat_fields args s).2.2.2.2.2.2.1,
      (fill_bloodcat_fields args s).2.2.2.2.2.2.2.trans hb⟩
  · intro s hb
    unfold fill_queues
    have h1 := fill_osu_fields args s
    rw [fill_bloodcat_busy_noop (h1.2.2.2.2.2.2.2.trans hb)]
    exact ⟨h1.2.2.2.2.2.2.1, h1.2.2.2.2.2.2.2.trans hb⟩
  · intro s hne
    rcases fill_osu_cases args s with h | ⟨x, dl2, hb, hn, h⟩
    · exfalso
      apply hne
      show (fill_bloodcat args (fill_osu args s)).osu_inflight = s.osu_inflight
      rw [(fill_bloodcat_fields args (fill_osu args s)).2.2.2.2.2.2.1, h]
    · refine ⟨hb, ?_, x, ?_⟩
      · show (fill_bloodcat args (fill_osu args s)).osu_busy = true
        rw [(fill_bloodcat_fields args (fill_osu args s)).2.2.2.2.2.2.2, h]
      · show (fill_bloodcat args (fill_osu args s)).osu_inflight =
          s.osu_inflight ++ [x]
        rw [(fill_bloodcat_fields args (fill_osu args s)).2.2.2.2.2.2.1, h]
  · intro s hne
    have h1 := fill_osu_fields args s
    rcases fill_bloodcat_cases args (fill_osu args s) with h | ⟨x, dl2, hb, hn, h⟩
    · exfalso
      apply hne
      show (fill_bloodcat args (fill_osu args s)).bloodcat_inflight =
        s.bloodcat_inflight
      rw [h, h1.2.2.2.2.2.2.1]
    · refine ⟨h1.2.2.2.2.2.2.2 ▸ hb, ?_, x, ?_⟩
      · show (fill_bloodcat args (fill_osu args s)).bloodcat_busy = true
        rw [h]
      · show (fill_bloodcat args (fill_osu args s)).bloodcat_inflight =
          s.bloodcat_inflight ++ [x]
        rw [h, h1.2.2.2.2.2.2.1]
  · intro s i e hv he1 he2 hlt
    unfold validMsg at hv
    simp only [beq_iff_eq] at hv
    refine ⟨_, step_retry_osu_eq args s i e he1 he2 hlt, ?_⟩
    show s.osu_inflight.erase i ++ [i] = s.osu_inflight
    rw [hv]
    simp
  · intro s i e hv he1 hlt
    unfold validMsg at hv
    simp only [beq_iff_eq] at hv
    refine ⟨_, step_retry_bloodcat_eq args s i e he1 hlt, ?_⟩
    show s.bloodcat_inflight.erase i ++ [i] = s.bloodcat_inflight
    rw [hv]
    simp

/-- Witness for C6 at a concrete reachable state and a concrete retry. -/
theorem claim_c6_witness :
    (⟨{"7"}, ∅, ∅, false⟩ : DownloadList).PairwiseDisjoint ∧
    ((initOState argsBoth ⟨{"7"}, ∅, ∅, false⟩).osu_inflight.length ≤ 1 ∧
      (initOState argsBoth ⟨{"7"}, ∅, ∅, false⟩).bloodcat_inflight.length ≤ 1) := by
  refine ⟨by decide, ?_⟩
  exact (claim_c6_single_slot argsBoth).1 ⟨{"7"}, ∅, ∅, false⟩
    (initOState argsBoth ⟨{"7"}, ∅, ∅, false⟩) (by decide) ⟨[], StepsTo.nil _⟩

/-- C7: `next_for_osu`/`next_for_bloodcat` remove and return one ID,
preferring the service-exclusive set over `osu_and_bloodcat`; they return
`None` exactly when no set eligible for that service holds an item; a
returned ID has been removed by the pop (so, on a pairwise-disjoint
partition, it is in no set afterwards and cannot be returned twice), and
the total size shrinks by exactly one. -/
theorem claim_c7_next_for (dl : DownloadList) :
    (dl.osu_only.Nonempty → ∃ x, x ∈ dl.osu_only ∧
      dl.next_for_osu = (some x, { dl with osu_only := dl.osu_only.erase x })) ∧
    (dl.osu_only = ∅ → dl.osu_and_bloodcat.Nonempty →
      ∃ x, x ∈ dl.osu_and_bloodcat ∧ dl.next_for_osu =
        (some x, { dl with osu_and_bloodcat := dl.osu_and_bloodcat.erase x })) ∧
    (dl.next_for_osu.1 = none ↔ dl.osu_only = ∅ ∧ dl.osu_and_bloodcat = ∅) ∧
    (∀ x dl', dl.PairwiseDisjoint → dl.next_for_osu = (some x, dl') →
      x ∉ dl'.osu_only ∧ x ∉ dl'.osu_and_bloodcat ∧ x ∉ dl'.bloodcat_only ∧
      dl'.size + 1 = dl.size) ∧
    (dl.bloodcat_only.Nonempty → ∃ x, x ∈ dl.bloodcat_only ∧
      dl.next_for_bloodcat =
        (some x, { dl with bloodcat_only := dl.bloodcat_only.erase x })) ∧
    (dl.bloodcat_only = ∅ → dl.osu_and_bloodcat.Nonempty →
      ∃ x, x ∈ dl.osu_and_bloodcat ∧ dl.next_for_bloodcat =
        (some x, { dl with osu_and_bloodcat := dl.osu_and_bloodcat.erase x })) ∧
    (dl.next_for_bloodcat.1 = none ↔
      dl.bloodcat_only = ∅ ∧ dl.osu_and_bloodcat = ∅) ∧
    (∀ x dl', dl.PairwiseDisjoint → dl.next_for_bloodcat = (some x, dl') →
      x ∉ dl'.osu_only ∧ x ∉ dl'.osu_and_bloodcat ∧ x ∉ dl'.bloodcat_only ∧
      dl'.size + 1 = dl.size) := by
  have hspop : ∀ s : Finset String, (h : s.Nonempty) →
      spop s = some (s.min' h, s.erase (s.min' h)) := by
    intro s h
    unfold spop
    rw [dif_pos h]
  have hspop0 : spop (∅ : Finset String) = none := by
    unfold spop
    rw [dif_neg]
    simp
  refine ⟨?_, ?_, ?_, ?_, ?_, ?_, ?_, ?_⟩
  · intro h
    refine ⟨dl.osu_only.min' h, Finset.min'_mem _ _, ?_⟩
    unfold DownloadList.next_for_osu
    rw [hspop dl.osu_only h]
  · intro h0 h
    refine ⟨dl.osu_and_bloodcat.min' h, Finset.min'_mem _ _, ?_⟩
    unfold DownloadList.next_for_osu
    rw [h0, hspop0, hspop dl.osu_and_bloodcat h]
  · constructor
    · intro h
      cases hn : dl.next_for_osu with
      | mk o d =>
        rw [hn] at h
        simp only at h
        subst h
        exact ⟨(next_for_osu_none hn).2.1, (next_for_osu_none hn).2.2⟩
    · rintro ⟨h1, h2⟩
      unfold DownloadList.next_for_osu
      rw [h1, hspop0, h2, hspop0]
  · intro x dl' hdisj hn
    rcases next_for_osu_some hn with ⟨hx, hdl⟩ | ⟨hempty, hx, hdl⟩ <;> subst hdl
    · exact ⟨Finset.not_mem_erase _ _, fun hc => (hdisj.1 x hc).1 hx,
        hdisj.2 x hx, by
          simp only [DownloadList.size]
          have := Finset.card_erase_add_one hx
          omega⟩
    · exact ⟨by rw [hempty]; exact Finset.not_mem_empty x,
        Finset.not_mem_erase _ _, (hdisj.1 x hx).2, by
          simp only [DownloadList.size]
          have := Finset.card_erase_add_one hx
          omega⟩
  · intro h
    refine ⟨dl.bloodcat_only.min' h, Finset.min'_mem _ _, ?_⟩
    unfold DownloadList.next_for_bloodcat
    rw [hspop dl.bloodcat_only h]
  · intro h0 h
    refine ⟨dl.osu_and_bloodcat.min' h, Finset.min'_mem _ _, ?_⟩
    unfold DownloadList.next_for_bloodcat
    rw [h0, hspop0, hspop dl.osu_and_bloodcat h]
  · constructor
    · intro h
      cases hn : dl.next_for_bloodcat with
      | mk o d =>
        rw [hn] at h
        simp only at h
        subst h
        exact ⟨(next_for_bloodcat_none hn).2.1, (next_for_bloodcat_none hn).2.2⟩
    · rintro ⟨h1, h2⟩
      unfold DownloadList.next_for_bloodcat
      rw [h1, hspop0, h2, hspop0]
  · intro x dl' hdisj hn
    rcases next_for_bloodcat_some hn with ⟨hx, hdl⟩ | ⟨hempty, hx, hdl⟩ <;> subst hdl
    · exact ⟨fun hc => hdisj.2 x hc hx, fun hc => (hdisj.1 x hc).2 hx,
        Finset.not_mem_erase _ _, by
          simp only [DownloadList.size]
          have := Finset.card_erase_add_one hx
          omega⟩
    · exact ⟨(hdisj.1 x hx).1, Finset.not_mem_erase _ _,
        by rw [hempty]; exact Finset.not_mem_empty x, by
          simp only [DownloadList.size]
          have := Finset.card_erase_add_one hx
          omega⟩

/-- Witness for C7 at a concrete partition. -/
theorem claim_c7_witness :
    (({"3"} : Finset String).Nonempty ∧
      ∃ x, x ∈ ({"3"} : Finset String) ∧
        (⟨{"1"}, {"3"}, ∅, false⟩ : DownloadList).next_for_osu =
          (some x, { (⟨{"1"}, {"3"}, ∅, false⟩ : DownloadList) with
            osu_only := ({"3"} : Finset String).erase x })) ∧
    ((⟨∅, ∅, ∅, false⟩ : DownloadList).next_for_osu.1 = none ↔
      (∅ : Finset String) = ∅ ∧ (∅ : Finset String) = ∅) := by
  constructor
  · exact ⟨by decide, (claim_c7_next_for ⟨{"1"}, {"3"}, ∅, false⟩).1 (by decide)⟩
  · exact (claim_c7_next_for ⟨∅, ∅, ∅, false⟩).2.2.1

/-- C8: for every partition whose source filename does not end in `.resume`
(case-insensitively, so the snapshot write is not skipped), writing the
partition to a resume snapshot and reloading that snapshot reproduces the
same three sets with the `resumed` flag set; moreover reloading is
independent of serialization order (permuting the serialized lists of a
snapshot leaves the reloaded partition unchanged, since each list is read
back into a set). -/
theorem claim_c8_resume_roundtrip (ids_file : String) (dl : DownloadList)
    (h : endsWithPy (toLowerPy ids_file) ".resume" = false) :
    (write_resume_file ids_file dl =
      some ⟨dl.osu_and_bloodcat.sort (· ≤ ·), dl.osu_only.sort (· ≤ ·),
        dl.bloodcat_only.sort (· ≤ ·)⟩ ∧
      read_resume_file ⟨dl.osu_and_bloodcat.sort (· ≤ ·),
        dl.osu_only.sort (· ≤ ·), dl.bloodcat_only.sort (· ≤ ·)⟩ =
        { dl with resumed := true }) ∧
    (∀ snap snap2 : ResumeSnapshot,
      snap.set_ids.Perm snap2.set_ids → snap.osu_exc.Perm snap2.osu_exc →
      snap.bloodcat_exc.Perm snap2.bloodcat_exc →
      read_resume_file snap = read_resume_file snap2) := by
  refine ⟨⟨?_, ?_⟩, ?_⟩
  · unfold write_resume_file
    rw [if_neg (by rw [h]; simp)]
  · unfold read_resume_file
    simp [Finset.sort_toFinset]
  · intro snap snap2 h1 h2 h3
    unfold read_resume_file
    rw [List.toFinset_eq_of_perm _ _ h1, List.toFinset_eq_of_perm _ _ h2,
      List.toFinset_eq_of_perm _ _ h3]

/-- Witness for C8 at a concrete filename and partition. -/
theorem claim_c8_witness :
    endsWithPy (toLowerPy "ids.txt") ".resume" = false ∧
    write_resume_file "ids.txt" ⟨{"5"}, ∅, ∅, false⟩ =
      some ⟨({"5"} : Finset String).sort (· ≤ ·),
        (∅ : Finset String).sort (· ≤ ·), (∅ : Finset String).sort (· ≤ ·)⟩ ∧
    read_resume_file ⟨({"5"} : Finset String).sort (· ≤ ·),
        (∅ : Finset String).sort (· ≤ ·), (∅ : Finset String).sort (· ≤ ·)⟩ =
      { (⟨{"5"}, ∅, ∅, false⟩ : DownloadList) with resumed := true } :=
  ⟨by decide, (claim_c8_resume_roundtrip "ids.txt" ⟨{"5"}, ∅, ∅, false⟩
    (by decide)).1⟩

/-- C10: the worker stop sentinel is in-band with item IDs: receiving
`"stop"` makes the worker loop return immediately, calling the fetcher on
nothing further and emitting no outcome for it; any other received value is
fetched and yields exactly one outcome tuple; and the input reader does not
filter `"stop"` out, so a line holding the literal `stop` enters the work
partition like any ID. -/
theorem claim_c10_stop_sentinel (name : String) (fetch : String → Option Exc)
    (rest : List String) (id : String) (lines : List String) :
    download_mapsets name fetch ("stop" :: rest) = ([], []) ∧
    (id ≠ "stop" →
      download_mapsets name fetch (id :: rest) =
        (id :: (download_mapsets name fetch rest).1,
          (name, id, fetch id) :: (download_mapsets name fetch rest).2)) ∧
    ("stop" ∈ lines.map trimPy →
      "stop" ∈ (read_ids_lines lines).osu_and_bloodcat) := by
  refine ⟨?_, ?_, ?_⟩
  · simp [download_mapsets]
  · intro h
    simp only [download_mapsets, if_neg h]
  · intro h
    unfold read_ids_lines
    exact List.mem_toFinset.mpr (List.mem_filter.mpr ⟨h, by decide⟩)

/-- Witness for C10 at a concrete worker input and input line list. -/
theorem claim_c10_witness :
    (("7" : String) ≠ "stop" ∧
      download_mapsets "osu" (fun _ => none) ["7"] =
        ("7" :: (download_mapsets "osu" (fun _ => none) []).1,
          ("osu", "7", (fun _ => (none : Option Exc)) "7") ::
            (download_mapsets "osu" (fun _ => none) []).2)) ∧
    ("stop" ∈ (["stop"].map trimPy) ∧
      "stop" ∈ (read_ids_lines ["stop"]).osu_and_bloodcat) := by
  have h := claim_c10_stop_sentinel "osu" (fun _ => none) [] "7" ["stop"]
  exact ⟨⟨by decide, h.2.1 (by decide)⟩, by decide, h.2.2 (by decide)⟩

/-- C9 counterexample: the startup scan is not exactly "the set of first
whitespace-delimited tokens of the filenames in the output directory" — the
code keeps only all-digit first tokens (`item.name.split()[0].isdigit()`),
so for the directory listing `["abc.osz"]` the code derives the empty set
while the spec sentence derives `{"abc.osz"}`. -/
theorem claim_c9_counterexample :
    scan_existing_sets ["abc.osz"] = some ∅ ∧
    scan_existing_sets_spec ["abc.osz"] = some {"abc.osz"} ∧
    scan_existing_sets ["abc.osz"] ≠ scan_existing_sets_spec ["abc.osz"] := by
  refine ⟨?_, ?_, ?_⟩ <;> decide

/-- C9 (amended): the set subtracted from all three partition sets before
work begins is exactly the set of those first whitespace-delimited tokens of
the filenames in the output directory that consist solely of digits, and
the subtraction removes it from each of the three sets (`dl -= existing`
via `__isub__`). -/
theorem claim_c9_amended (names : List String) (S : Finset String)
    (dl : DownloadList) (h : scan_existing_sets names = some S) :
    (∀ x, x ∈ S ↔ isdigitPy x = true ∧ ∃ n ∈ names, (splitPy n).head? = some x) ∧
    (dl.isub S).osu_and_bloodcat = dl.osu_and_bloodcat \ S ∧
    (dl.isub S).osu_only = dl.osu_only \ S ∧
    (dl.isub S).bloodcat_only = dl.bloodcat_only \ S := by
  refine ⟨?_, rfl, rfl, rfl⟩
  unfold scan_existing_sets at h
  cases htoks : names.mapM (fun n => (splitPy n).head?) with
  | none => rw [htoks] at h; simp at h
  | some toks =>
    rw [htoks] at h
    simp at h
    subst h
    intro x
    rw [Finset.mem_filter, List.mem_toFinset]
    constructor
    · rintro ⟨hx1, hx2⟩
      exact ⟨hx2, (mapM_head_mem names toks htoks x).mp hx1⟩
    · rintro ⟨hx1, hx2⟩
      exact ⟨(mapM_head_mem names toks htoks x).mpr hx2, hx1⟩

/-- Witness for C9 (amended) at a concrete directory listing. -/
theorem claim_c9_witness :
    scan_existing_sets ["123 a.osz", "junk.txt"] = some {"123"} ∧
    (isdigitPy "123" = true ∧
      ∃ n ∈ ["123 a.osz", "junk.txt"], (splitPy n).head? = some "123") ∧
    ((⟨{"123", "7"}, ∅, ∅, false⟩ : DownloadList).isub
      {"123"}).osu_and_bloodcat = {"123", "7"} \ {"123"} := by
  have h := claim_c9_amended ["123 a.osz", "junk.txt"] {"123"}
    ⟨{"123", "7"}, ∅, ∅, false⟩ (by decide)
  exact ⟨by decide, (h.1 "123").mp (by decide), h.2.1⟩

end Osumapdl
